import Mathlib

/-!
# ChemicalReaction extension (src/integrator/ChemicalReactionExt.{hpp,cpp})

Shallow embedding of the reaction engine: `React` and its scan of the Verlet
list, the payload exchange `sendMultiMap`, the conflict resolver (`uniqueA`,
`uniqueB`, `sortParticleReactionList`), the mutation engine (`applyDR`,
`applyAR`) and the ghost synchronisation `updateGhost`.

Conventions of the embedding.

* `longint` values (particle, residue, molecule and reaction ids) are `Int`.
  The type is declared in `types.hpp`, which is not part of the sources; where
  the code assigns a `longint` to an `int` (`int idx_a = *it`), the conversion
  is the parameter `toInt`.  Sizes of containers are exact.
* `real` is any linearly ordered type `R` with exact comparison; the constant
  `10e18` of `uniqueA` and `uniqueB` is the image of the natural number
  `10^19` in `R`.
* `std::multimap<K, V>` is the list of its entries in iteration order, that is
  ordered by key with equal keys in insertion order; `mmInsert` is
  `multimap::insert`.  The functions accept every list and agree with the
  container on key-ordered lists.
* `boost::unordered_set<longint>` used only through `insert`, `count` and
  `find` is the list of inserted values.  Where the code iterates over such a
  set, the iteration order is the parameter `hashOrder`.
* Undefined behaviour (an index outside a vector, dereferencing an iterator
  that is not dereferenceable, reading a local variable that holds no value) is
  the result `none`.
* A call that can throw or run into undefined behaviour returns an `Outcome`.
* Communication is described per rank: `received j` is the buffer that arrives
  from the neighbour with index `j`; when all ranks are described together,
  that buffer is the `out_buffer` of the neighbour.
* Classes declared in headers that are not part of the sources
  (`Reaction`, `TopologyManager`, `Particle`, `esutil::RNG`, the storage) are
  records or parameters that carry exactly the members this file calls.
-/

namespace ChemicalReaction

/-! ## Data model -/

/-- ReactionDef of ChemicalReactionExt.hpp, lines 55-79. -/
structure ReactionDef (R : Type) where
  reaction_id : Int
  reaction_rate : R
  reaction_r_sqr : R
  order : Int
deriving DecidableEq, Repr

/-- The value type of `ReactionMap`: key, then (partner id, ReactionDef). -/
abbrev Record (R : Type) := Int × (Int × ReactionDef R)

/-- ReactionMap of ChemicalReactionExt.hpp, line 81: the entries of the
`std::multimap` in iteration order. -/
abbrev ReactionMap (R : Type) := List (Record R)

/-- The insertion of `std::multimap`: the new entry goes to the upper bound of
its key, after all entries with an equal key. -/
def mmInsert {K V : Type} [LinearOrder K] : List (K × V) → K × V → List (K × V)
  | [], x => [x]
  | y :: ys, x => if x.1 < y.1 then x :: y :: ys else y :: mmInsert ys x

/-- The members of `TopologyManager` called by the extension. -/
structure TopologyManager where
  getResId : Int → Int
  getMoleculeId : Int → Int
  isSameMolecule : Int → Int → Bool

/-- The members of `integrator::Reaction` read by the extension: the scan of
`React` and the conflict resolver read the three flags, `applyAR` and
`applyDR` the types, the state windows, the deltas, `virtual_reaction` and the
bond list; `fixed_pair_list_` is the identity of the `FixedPairList` object the
shared pointer refers to. -/
structure Reaction where
  active : Bool
  intraresidual : Bool
  intramolecular : Bool
  type_1 : Int
  type_2 : Int
  min_state_1 : Int
  max_state_1 : Int
  min_state_2 : Int
  max_state_2 : Int
  delta_1 : Int
  delta_2 : Int
  virtual_reaction : Bool
  reverse : Bool
  fixed_pair_list_ : Nat
deriving DecidableEq, Repr

/-- The members of `Particle` read or written by the extension. -/
structure Particle (R : Type) where
  id : Int
  type : Int
  state : Int
  res_id : Int
  mass : R
  q : R
  lambda : R
  ghost : Bool
deriving DecidableEq, Repr

/-- The members of `ReactedPair`, the pair returned by `isValidPair`. -/
structure ReactedPair (R : Type) where
  first : Particle R
  second : Particle R
  reaction_rate : R
  r_sqr : R
deriving DecidableEq, Repr

/-- The container `std::map<longint, std::set<longint> >` of pass C. -/
abbrev IdSetMap := List (Int × List Int)

/-- The test `m.count(k) == 1 && m.at(k).count(v) == 1`. -/
def IdSetMap.linked (m : IdSetMap) (k v : Int) : Bool :=
  match m.lookup k with
  | some s => s.contains v
  | none => false

/-- The statement `m[k].insert(v)`. -/
def IdSetMap.link : IdSetMap → Int → Int → IdSetMap
  | [], k, v => [(k, [v])]
  | (k0, s) :: rest, k, v =>
    if k0 = k then (k0, if s.contains v then s else v :: s) :: rest
    else (k0, s) :: IdSetMap.link rest k v

/-- The element `reaction_list_[idx]` of the vector of registered reactions;
an index outside the vector has no element. -/
def reactionAt (reaction_list : List Reaction) (idx : Int) : Option Reaction :=
  if 0 ≤ idx then reaction_list[idx.toNat]? else none

/-! ## React: the scan of the Verlet list (lines 134-161) -/

/-- The record inserted at lines 150-158 for the pair `p` returned by
`isValidPair` and the reaction index `reaction_idx_`. -/
def scanRecord {R : Type} (reaction_idx_ : Int) (p : ReactedPair R) : Record R :=
  let pid1 := p.first.id
  let pid2 := p.second.id
  let order : Int := 1
  if pid1 > pid2 then
    (pid2, (pid1, ReactionDef.mk reaction_idx_ p.reaction_rate p.r_sqr 2))
  else
    (pid1, (pid2, ReactionDef.mk reaction_idx_ p.reaction_rate p.r_sqr order))

/-- The loop of lines 143-160 over the registered reactions for one pair of
the Verlet list, from the reaction index `reaction_idx_` on.  `isValidPair`
is the method of `Reaction`: it returns the ordered pair when the pair is
accepted, and draws from the generator. -/
def scanReactions {R σ : Type}
    (isValidPair : σ → Reaction → Particle R → Particle R → Option (ReactedPair R) × σ)
    (p1 p2 : Particle R) : List Reaction → Int → ReactionMap R × σ → ReactionMap R × σ
  | [], _, st => st
  | reaction :: rest, reaction_idx_, st =>
    if !reaction.active then scanReactions isValidPair p1 p2 rest (reaction_idx_ + 1) st
    else
      let res := isValidPair st.2 reaction p1 p2
      match res.1 with
      | some p =>
        scanReactions isValidPair p1 p2 rest (reaction_idx_ + 1)
          (mmInsert st.1 (scanRecord reaction_idx_ p), res.2)
      | none => scanReactions isValidPair p1 p2 rest (reaction_idx_ + 1) (st.1, res.2)

/-- The loop of lines 138-161 over the pairs of the Verlet list, started with
the cleared map `potential_pairs_`. -/
def scanPairs {R σ : Type}
    (isValidPair : σ → Reaction → Particle R → Particle R → Option (ReactedPair R) × σ)
    (reaction_list : List Reaction) (pairs : List (Particle R × Particle R)) (s : σ) :
    ReactionMap R × σ :=
  pairs.foldl (fun st pr => scanReactions isValidPair pr.1 pr.2 reaction_list 0 st) ([], s)

/-! ## sortParticleReactionList: the local loop (lines 376-418) -/

/-- The variables of the first loop of `sortParticleReactionList`.  The local
variable `p_order` is declared without an initialiser (line 371): it holds no
value, `none`, until the first assignment of line 408. -/
structure LocalState (R : Type) where
  out : ReactionMap R
  particle_idx : List Int
  residue_idx : List Int
  p_order : Option Int

/-- The variable `p_order` after lines 397-403: the swap branch reads it (line
399) and flips it; the read of the variable while it holds no value is
undefined behaviour, the result `none`. -/
def flipOrder (swapped : Bool) (p_order : Option Int) : Option (Option Int) :=
  if swapped then
    match p_order with
    | none => none
    | some p => some (some (if p = 1 then 2 else 1))
  else some p_order

/-- One iteration of the loop of lines 376-418; `none` when the behaviour of the
iteration is undefined. -/
def localStep {R : Type} (tm : TopologyManager) (st : LocalState R) (it : Record R) :
    Option (LocalState R) :=
  let idx_a := it.1
  let idx_b := it.2.1
  if st.particle_idx.contains idx_a || st.particle_idx.contains idx_b then some st
  else
    let rid1 := tm.getResId idx_a
    let rid2 := tm.getResId idx_b
    if st.residue_idx.contains rid1 || st.residue_idx.contains rid2 then some st
    else
      let swapped := decide (idx_a > idx_b)
      let idx_a1 := if swapped then idx_b else idx_a
      let idx_b1 := if swapped then idx_a else idx_b
      match flipOrder swapped st.p_order with
      | none => none
      | some _ =>
        let reaction_idx := it.2.2.reaction_id
        let reaction_rate := it.2.2.reaction_rate
        let reaction_r_sqr := it.2.2.reaction_r_sqr
        let p_order := it.2.2.order
        some
          { out := mmInsert st.out
              (idx_a1,
                (idx_b1, ReactionDef.mk reaction_idx reaction_rate reaction_r_sqr p_order)),
            particle_idx := idx_b1 :: idx_a1 :: st.particle_idx,
            residue_idx := rid2 :: rid1 :: st.residue_idx,
            p_order := some p_order }

/-- The loop of lines 376-418 over the records that remain, from the state
`st`. -/
def localLoop {R : Type} (tm : TopologyManager) :
    List (Record R) → LocalState R → Option (LocalState R)
  | [], st => some st
  | it :: rest, st =>
    match localStep tm st it with
    | none => none
    | some st1 => localLoop tm rest st1

/-- The map `out` after the loop of lines 376-418, which starts with empty sets
and with `p_order` holding no value; `none` when the behaviour is undefined. -/
def localPass {R : Type} (tm : TopologyManager) (mm : ReactionMap R) :
    Option (ReactionMap R) :=
  (localLoop tm mm ⟨[], [], [], none⟩).map (fun st => st.out)

/-! ## sortParticleReactionList: pass C on rank 0 (lines 422-480) -/

/-- The variables of the loop over the gathered maps. -/
structure GlobalState (R : Type) where
  particle_idx : List Int
  residue_idx : List Int
  residue_map : IdSetMap
  molecule_map : IdSetMap
  mm : ReactionMap R
  reaction_counter : Int

/-- The state at line 435: the sets cleared, `mm` cleared, counter zero. -/
def GlobalState.init (R : Type) : GlobalState R := ⟨[], [], [], [], [], 0⟩

/-- The flag `valid` at line 461 for the record `it`. -/
def passCValid {R : Type} (tm : TopologyManager) (reaction : Reaction) (st : GlobalState R)
    (it : Record R) : Bool :=
  let idx_a := it.1
  let idx_b := it.2.1
  let rid1 := tm.getResId idx_a
  let rid2 := tm.getResId idx_b
  let mid1 := tm.getMoleculeId idx_a
  let mid2 := tm.getMoleculeId idx_b
  let valid0 := true
  let valid1 :=
    if !reaction.intraresidual then !(st.residue_map.linked rid1 rid2) else valid0
  let valid2 :=
    if valid1 && !reaction.intramolecular then
      (valid1 && !(st.molecule_map.linked mid1 mid2)) && !(tm.isSameMolecule idx_a idx_b)
    else valid1
  let valid3 :=
    if valid2 then
      (valid2 && (!(st.particle_idx.contains idx_a) && !(st.particle_idx.contains idx_b)))
        && (!(st.residue_idx.contains rid1) && !(st.residue_idx.contains rid2))
    else valid2
  valid3

/-- The updates of lines 462-476 for an accepted record. -/
def passCAccept {R : Type} (tm : TopologyManager) (st : GlobalState R) (it : Record R) :
    GlobalState R :=
  let idx_a := it.1
  let idx_b := it.2.1
  let rid1 := tm.getResId idx_a
  let rid2 := tm.getResId idx_b
  let mid1 := tm.getMoleculeId idx_a
  let mid2 := tm.getMoleculeId idx_b
  { particle_idx := idx_b :: idx_a :: st.particle_idx,
    residue_idx := rid2 :: rid1 :: st.residue_idx,
    residue_map := (st.residue_map.link rid1 rid2).link rid2 rid1,
    molecule_map := (st.molecule_map.link mid1 mid2).link mid2 mid1,
    mm := mmInsert st.mm (idx_a, (idx_b, it.2.2)),
    reaction_counter := st.reaction_counter + 1 }

/-- The body of the inner loop, lines 439-477. -/
def passCBody {R : Type} (tm : TopologyManager) (reaction_list : List Reaction)
    (st : GlobalState R) (it : Record R) : Option (GlobalState R) :=
  match reactionAt reaction_list it.2.2.reaction_id with
  | none => none
  | some reaction =>
    if passCValid tm reaction st it then some (passCAccept tm st it) else some st

/-- The inner loop of line 438 over one gathered map: it stops as soon as
`reaction_counter < max_per_interval_` fails. -/
def passCInner {R : Type} (tm : TopologyManager) (reaction_list : List Reaction)
    (max_per_interval : Int) : List (Record R) → GlobalState R → Option (GlobalState R)
  | [], st => some st
  | it :: rest, st =>
    if st.reaction_counter < max_per_interval then
      match passCBody tm reaction_list st it with
      | none => none
      | some st1 => passCInner tm reaction_list max_per_interval rest st1
    else some st

/-- The outer loop of line 437 over the gathered maps, in rank order. -/
def passCOuter {R : Type} (tm : TopologyManager) (reaction_list : List Reaction)
    (max_per_interval : Int) : List (ReactionMap R) → GlobalState R → Option (GlobalState R)
  | [], st => some st
  | it_rms :: rest, st =>
    match passCInner tm reaction_list max_per_interval it_rms st with
    | none => none
    | some st1 => passCOuter tm reaction_list max_per_interval rest st1

/-- Pass C: the map `mm` that rank 0 builds from the gathered maps and
broadcasts (lines 422-480). -/
def passC {R : Type} (tm : TopologyManager) (reaction_list : List Reaction)
    (max_per_interval : Int) (global_maps : List (ReactionMap R)) : Option (ReactionMap R) :=
  (passCOuter tm reaction_list max_per_interval global_maps (GlobalState.init R)).map
    (fun st => st.mm)

/-- The maps `out` of the ranks, in rank order, as gathered on rank 0 (lines
422-431); `none` when the local loop of a rank has undefined behaviour. -/
def gatherLocal {R : Type} (tm : TopologyManager) :
    List (ReactionMap R) → Option (List (ReactionMap R))
  | [] => some []
  | mm :: rest =>
    match localPass tm mm with
    | none => none
    | some out =>
      match gatherLocal tm rest with
      | none => none
      | some outs => some (out :: outs)

/-- The map every rank holds after `sortParticleReactionList`, for the maps
`ranks` of the ranks in rank order: each rank runs the local loop, rank 0
gathers the maps `out`, runs pass C and broadcasts the result. -/
def sortParticleReactionList {R : Type} (tm : TopologyManager) (reaction_list : List Reaction)
    (max_per_interval : Int) (ranks : List (ReactionMap R)) : Option (ReactionMap R) :=
  match gatherLocal tm ranks with
  | none => none
  | some global_maps => passC tm reaction_list max_per_interval global_maps

/-- Every record of the gathered maps names a registered reaction. -/
def RegisteredIds {R : Type} (reaction_list : List Reaction)
    (global_maps : List (ReactionMap R)) : Prop :=
  ∀ m ∈ global_maps, ∀ it ∈ m, (reactionAt reaction_list it.2.2.reaction_id).isSome = true

/-- The record `it` has an endpoint whose image under `f` is `x`; `f` is the
identity for particle ids and `getResId` for residues. -/
def touches {R : Type} (f : Int → Int) (x : Int) (it : Record R) : Bool :=
  decide (f it.1 = x ∨ f it.2.1 = x)

/-- The record names a registered reaction and is not excluded by the
intramolecular rule of line 453. -/
def Eligible {R : Type} (tm : TopologyManager) (reaction_list : List Reaction)
    (it : Record R) : Prop :=
  ∃ reaction, reactionAt reaction_list it.2.2.reaction_id = some reaction ∧
    (reaction.intramolecular = false → tm.isSameMolecule it.1 it.2.1 = false)

/-! ## uniqueA and uniqueB (lines 653-855) -/

/-- The constant `10e18` assigned to `max_rc` at lines 698 and 807. -/
def maxRcInit (R : Type) [NatCast R] : R := ((10000000000000000000 : Nat) : R)

/-- The range `equal_range(k)` of a multimap, in iteration order. -/
def equalRange {K V : Type} [DecidableEq K] (m : List (K × V)) (k : K) : List (K × V) :=
  m.filter (fun e => decide (e.1 = k))

/-- The number `count(k)` of entries of a multimap with key `k`. -/
def mmCount {K V : Type} [DecidableEq K] (m : List (K × V)) (k : K) : Nat :=
  m.countP (fun e => decide (e.1 = k))

/-- The position `lower_bound(k)`: the first entry whose key is not less than
`k`, or the end of the map. -/
def lowerBound {K V : Type} [LinearOrder K] (m : List (K × V)) (k : K) : Nat :=
  m.findIdx (fun e => !decide (e.1 < k))

/-- The entry reached by `std::advance(it, off)` from position `pos`, when
that iterator can be dereferenced. -/
def derefAt {α : Type} (l : List α) (pos : Nat) (off : Int) : Option α :=
  if 0 ≤ (pos : Int) + off then l[((pos : Int) + off).toNat]? else none

/-- The element `v[idx]` of a vector, when `idx` is inside it. -/
def vectorAt {α : Type} (v : List α) (idx : Int) : Option α :=
  if 0 ≤ idx then v[idx.toNat]? else none

/-- The loop of lines 707-719 (815-827) in nearest mode: `max_rc` and the
multimap keyed by the squared distance. -/
def nearestScan {R : Type} [LinearOrder R] (max_rc0 : R) (candidates : List (Record R)) :
    R × List (R × (Int × ReactionDef R)) :=
  candidates.foldl
    (fun acc jt =>
      let reaction_r_sqr := jt.2.2.reaction_r_sqr
      ((if reaction_r_sqr < acc.1 then reaction_r_sqr else acc.1),
        mmInsert acc.2 (reaction_r_sqr, (jt.2.1, jt.2.2))))
    (max_rc0, [])

/-- The selection of lines 722-732 (830-838) in nearest mode: the picked
entry `(other id, ReactionDef)` and the state of the generator. -/
def nearestPick {R σ : Type} [LinearOrder R] [NatCast R] (rng : σ → Int → Int × σ) (s : σ)
    (candidates : List (Record R)) : Option ((Int × ReactionDef R) × σ) :=
  let scan := nearestScan (maxRcInit R) candidates
  let max_rc := scan.1
  let rc_idx := scan.2
  let bucket_size : Int := (mmCount rc_idx max_rc : Nat)
  let pick : Int × σ := if bucket_size > 1 then rng s (bucket_size - 1) else (0, s)
  match derefAt rc_idx (lowerBound rc_idx max_rc) pick.1 with
  | none => none
  | some e => some (e.2, pick.2)

/-- The selection of lines 740-743 (846-849) in random mode. -/
def randomPick {R σ : Type} (rng : σ → Int → Int × σ) (s : σ)
    (candidates : List (Record R)) : Option ((Int × ReactionDef R) × σ) :=
  let candidates_idx := candidates.map (fun jt => (jt.2.1, jt.2.2))
  let candidate_length : Int := (candidates_idx.length : Nat)
  let pick := rng s candidate_length
  match vectorAt candidates_idx pick.1 with
  | none => none
  | some selected => some (selected, pick.2)

/-- A loop over the keys `ks` whose body may be undefined. -/
def loopKeys {α : Type} (body : α → Int → Option α) : List Int → α → Option α
  | [], st => some st
  | k :: ks, st =>
    match body st k with
    | none => none
    | some st1 => loopKeys body ks st1

/-- The body of the loop of lines 693-746 for the element `it` of `a_indexes`;
`toInt` is the conversion of the assignment `int idx_a = *it`. -/
def uniqueAStep {R σ : Type} [LinearOrder R] [NatCast R] (is_nearest : Bool)
    (toInt : Int → Int) (rng : σ → Int → Int × σ) (potential_candidates : ReactionMap R)
    (st : ReactionMap R × σ) (it : Int) : Option (ReactionMap R × σ) :=
  let idx_a := toInt it
  let candidates_b := equalRange potential_candidates idx_a
  if is_nearest then
    match nearestPick rng st.2 candidates_b with
    | none => none
    | some sel => some (mmInsert st.1 (idx_a, (sel.1.1, sel.1.2)), sel.2)
  else if candidates_b.length > 0 then
    match randomPick rng st.2 candidates_b with
    | none => none
    | some sel => some (mmInsert st.1 (idx_a, (sel.1.1, sel.1.2)), sel.2)
  else some st

/-- The function `uniqueA`: the new content of `potential_candidates` and the
state of the generator.  `lookupRealParticle pid` tells whether the storage
finds a real particle with that id; `hashOrder` is the iteration order of
`a_indexes`. -/
def uniqueA {R σ : Type} [LinearOrder R] [NatCast R] (is_nearest : Bool) (toInt : Int → Int)
    (lookupRealParticle : Int → Bool) (hashOrder : List Int → List Int)
    (rng : σ → Int → Int × σ) (potential_candidates : ReactionMap R) (s : σ) :
    Option (ReactionMap R × σ) :=
  let a_indexes := hashOrder
    ((potential_candidates.filter (fun it => lookupRealParticle it.1)).map (fun it => it.1))
  if a_indexes.length > 0 then
    loopKeys (uniqueAStep is_nearest toInt rng potential_candidates) a_indexes ([], s)
  else some ([], s)

/-- The map `reverse_candidates` built by the loop of lines 775-788. -/
def reverseCandidates {R : Type} (lookupRealParticle : Int → Bool)
    (potential_candidates : ReactionMap R) : ReactionMap R :=
  (potential_candidates.filter (fun it => lookupRealParticle it.2.1)).foldl
    (fun acc it => mmInsert acc (it.2.1, (it.1, it.2.2))) []

/-- The body of the loop of lines 802-853 for the element `it` of `b_indexes`;
`toInt` is the conversion of the assignment `int idx_b = *it`. -/
def uniqueBStep {R σ : Type} [LinearOrder R] [NatCast R] (is_nearest : Bool)
    (toInt : Int → Int) (rng : σ → Int → Int × σ) (reverse_candidates : ReactionMap R)
    (st : ReactionMap R × σ) (it : Int) : Option (ReactionMap R × σ) :=
  let idx_b := toInt it
  let candidates_a := equalRange reverse_candidates idx_b
  if is_nearest then
    match nearestPick rng st.2 candidates_a with
    | none => none
    | some sel => some (mmInsert st.1 (sel.1.1, (idx_b, sel.1.2)), sel.2)
  else
    match randomPick rng st.2 candidates_a with
    | none => none
    | some sel => some (mmInsert st.1 (sel.1.1, (idx_b, sel.1.2)), sel.2)

/-- The function `uniqueB`: the content of `effective_candidates` and the state
of the generator. -/
def uniqueB {R σ : Type} [LinearOrder R] [NatCast R] (is_nearest : Bool) (toInt : Int → Int)
    (lookupRealParticle : Int → Bool) (hashOrder : List Int → List Int)
    (rng : σ → Int → Int × σ) (potential_candidates : ReactionMap R) (s : σ) :
    Option (ReactionMap R × σ) :=
  let b_indexes := hashOrder
    ((potential_candidates.filter (fun it => lookupRealParticle it.2.1)).map (fun it => it.2.1))
  let reverse_candidates := reverseCandidates lookupRealParticle potential_candidates
  if b_indexes.length > 0 then
    loopKeys (uniqueBStep is_nearest toInt rng reverse_candidates) b_indexes ([], s)
  else some ([], s)

/-- The contract of the generator: `rng(N)` is an integer of `[0, N)`. -/
def RngInRange {σ : Type} (rng : σ → Int → Int × σ) : Prop :=
  ∀ s N, 0 < N → 0 ≤ (rng s N).1 ∧ (rng s N).1 < N

/-- The contract of the iteration over an unordered set: every inserted value
is visited exactly once. -/
def EnumeratesSet (hashOrder : List Int → List Int) : Prop :=
  ∀ l, (hashOrder l).Nodup ∧ ∀ x, x ∈ hashOrder l ↔ x ∈ l

/-- The number of candidates that attain the minimal squared distance. -/
def minAttained {R : Type} [LinearOrder R] (candidates : List (Record R)) : Nat :=
  candidates.countP (fun c =>
    candidates.all (fun d => decide (c.2.2.reaction_r_sqr ≤ d.2.2.reaction_r_sqr)))

/-! ## Construction and lookup of reactions (lines 48-73, 117-121) -/

/-- The result of a call that may throw or run into undefined behaviour. -/
inductive Outcome (α : Type) where
  | value : α → Outcome α
  | thrown : Outcome α
  | undefined : Outcome α
deriving DecidableEq, Repr

/-- The conversion of a `longint` to `size_t` (64 bits) in a comparison with
`size()` and in an index. -/
def toSizeT (x : Int) : Nat := (x % 18446744073709551616).toNat

/-- The function `getReaction` (lines 117-121): the guard compares in
`size_t`, then `reaction_list_[reaction_idx]` is read without a check.  The
operand of the `throw`, `"Wrong reaction idx, maximum=" + reaction_list_.size()`,
is pointer arithmetic on a literal of 28 characters: it is a string when the
size is at most 28 and undefined beyond. -/
def getReaction (reaction_list_ : List Reaction) (reaction_idx : Int) : Outcome Reaction :=
  if toSizeT reaction_idx > reaction_list_.length then
    if reaction_list_.length ≤ 28 then Outcome.thrown else Outcome.undefined
  else
    match reaction_list_[toSizeT reaction_idx]? with
    | some reaction => Outcome.value reaction
    | none => Outcome.undefined

/-- The data members of `ChemicalReaction` set by the constructor. -/
structure Engine (R : Type) where
  current_cutoff_ : R
  interval_ : Int
  dt_ : R
  is_nearest_ : Bool
  reaction_list_ : List Reaction
  reverse_reaction_list_ : List Reaction
  save_pd_ : Bool
  max_per_interval_ : Int
deriving DecidableEq, Repr

/-- The constructor (lines 48-73).  `current_cutoff` is the value of
`getVerletCutoff() - getSkin()`, `hasRng` tells whether `system->rng` is set,
`longintMax` is `std::numeric_limits<longint>::max()`.  The objects
`boost::make_shared<real>()` and `boost::make_shared<int>()` are
value-initialised, that is zero, and the constructor assigns nothing to
them. -/
def construct {R : Type} [NatCast R] (current_cutoff : R) (hasRng : Bool) (longintMax : Int) :
    Outcome (Engine R) :=
  if !hasRng then Outcome.thrown
  else
    Outcome.value
      { current_cutoff_ := current_cutoff,
        interval_ := 0,
        dt_ := ((0 : Nat) : R),
        is_nearest_ := false,
        reaction_list_ := [],
        reverse_reaction_list_ := [],
        save_pd_ := false,
        max_per_interval_ := longintMax }

/-- The getter `interval()` of ChemicalReactionExt.hpp, line 124. -/
def interval {R : Type} (e : Engine R) : Int := e.interval_

/-- The setter `set_interval` of ChemicalReactionExt.hpp, line 125. -/
def set_interval {R : Type} (e : Engine R) (interval : Int) : Engine R :=
  { e with interval_ := interval }

/-! ## applyAR: decoding of the order (lines 928-939) -/

/-- The pointers `p1` and `p2` after lines 931-939; `lookupLocalParticle pid`
is the address of the local particle with that id, or `none` for `NULL`.  With
an order other than 1 and 2 the pointers are left unassigned. -/
def lookupEndpoints {R : Type} (lookupLocalParticle : Int → Option Nat) (it : Record R) :
    Option (Option Nat × Option Nat) :=
  if it.2.2.order = 1 then
    some (lookupLocalParticle it.1, lookupLocalParticle it.2.1)
  else if it.2.2.order = 2 then
    some (lookupLocalParticle it.2.1, lookupLocalParticle it.1)
  else none

/-! ## applyAR and applyDR (lines 860-1003) -/

/-- The particle storage seen through pointers: the `Particle` object at each
address. -/
abbrev Memory (R : Type) := Nat → Particle R

/-- The call `p->setState(v)`. -/
def setState {R : Type} (mem : Memory R) (p : Nat) (v : Int) : Memory R :=
  Function.update mem p { mem p with state := v }

/-- Modelled from the spec: the methods `isValidState_T1` and
`isValidState_T2` of `Reaction` (ChemicalReaction.hpp is not part of the
sources): a particle is eligible when `stateMin ≤ state < stateMax`, as the
comment of ChemicalReactionExt.hpp, lines 95-99, also says. -/
def isValidState_T1 {R : Type} (reaction : Reaction) (p : Particle R) : Bool :=
  decide (reaction.min_state_1 ≤ p.state ∧ p.state < reaction.max_state_1)

/-- Modelled from the spec: see `isValidState_T1`. -/
def isValidState_T2 {R : Type} (reaction : Reaction) (p : Particle R) : Bool :=
  decide (reaction.min_state_2 ≤ p.state ∧ p.state < reaction.max_state_2)

/-- The members of `FixedPairList` called by `applyAR` and `applyDR`, for a
list object of type `L`: `iadd` returns its `bool` and the new list, `pairs` is
the forward iteration over the pairs of particle pointers. -/
structure PairListOps (L : Type) where
  iadd : L → Int → Int → Bool × L
  remove : L → Int → Int → L
  pairs : L → List (Nat × Nat)
  updateParticlesStorage : L → L

/-- The insertion into a `std::set<Particle *>`, kept in the order of the
addresses. -/
def setInsert : List Nat → Nat → List Nat
  | [], x => [x]
  | y :: ys, x =>
    if x < y then x :: y :: ys else if x = y then y :: ys else y :: setInsert ys x

/-- The call `modified_particles.insert(tmp.begin(), tmp.end())`. -/
def insertAll (modified_particles : List Nat) (tmp : List Nat) : List Nat :=
  tmp.foldl setInsert modified_particles

/-- The statement `v[idx]++` on a vector of counters. -/
def vectorIncr : List Int → Nat → List Int
  | [], _ => []
  | x :: xs, 0 => (x + 1) :: xs
  | x :: xs, n + 1 => x :: vectorIncr xs n

/-- The objects `applyAR` and `applyDR` read and write: the particles, the
bond lists by identity, the set `modified_particles`, the local counters of
`applyAR` and the vector `pair_distances_`. -/
structure ReactState (R L : Type) where
  mem : Memory R
  pair_lists : Nat → L
  modified_particles : List Nat
  tmp_reaction_counters : List Int
  tmp_num_intra_inter : List Int
  pair_distances_ : List R

/-- The flag `valid_state` of lines 954-955. -/
def validState {R : Type} (reaction : Reaction) (mem : Memory R) (p1 p2 : Nat) : Bool :=
  let valid_state :=
    decide (reaction.type_1 = (mem p1).type) && isValidState_T1 reaction (mem p1)
  valid_state && (decide (reaction.type_2 = (mem p2).type) && isValidState_T2 reaction (mem p2))

/-- The particles and the set `modified_particles` after lines 958-975.  The
post-processors are hooks of `Reaction`: they may change particles and return
the particles to mark as modified. -/
def applyDeltas {R : Type}
    (postProcess_T1 postProcess_T2 : Reaction → Memory R → Nat → Nat → List Nat × Memory R)
    (reaction : Reaction) (mem : Memory R) (modified_particles : List Nat) (p1 p2 : Nat) :
    Memory R × List Nat :=
  let mem1 := setState mem p1 ((mem p1).state + reaction.delta_1)
  let tmp1 := postProcess_T1 reaction mem1 p1 p2
  let modified1 := insertAll modified_particles tmp1.1
  let mem2 := setState tmp1.2 p2 ((tmp1.2 p2).state + reaction.delta_2)
  let tmp2 := postProcess_T2 reaction mem2 p2 p1
  let modified2 := insertAll modified1 tmp2.1
  (tmp2.2, setInsert (setInsert modified2 p1) p2)

/-- The test of line 977. -/
def bondWanted {R : Type} (reaction : Reaction) (mem : Memory R) (p1 p2 : Nat) : Bool :=
  !reaction.virtual_reaction && !((mem p1).ghost && (mem p2).ghost)

/-- The block of lines 958-992 for a valid pair. -/
def associate {R L : Type} (ops : PairListOps L)
    (postProcess_T1 postProcess_T2 : Reaction → Memory R → Nat → Nat → List Nat × Memory R)
    (tm : TopologyManager) (save_pd_ : Bool) (reaction : Reaction)
    (st : ReactState R L) (it : Record R) (p1 p2 : Nat) : ReactState R L :=
  let changed := applyDeltas postProcess_T1 postProcess_T2 reaction st.mem
    st.modified_particles p1 p2
  let st1 : ReactState R L := { st with mem := changed.1, modified_particles := changed.2 }
  if bondWanted reaction changed.1 p1 p2 then
    let retval := ops.iadd (st.pair_lists reaction.fixed_pair_list_) it.1 it.2.1
    let st2 : ReactState R L :=
      { st1 with pair_lists :=
          Function.update st.pair_lists reaction.fixed_pair_list_ retval.2 }
    if retval.1 then
      { st2 with
        tmp_reaction_counters :=
          vectorIncr st.tmp_reaction_counters (toSizeT it.2.2.reaction_id),
        pair_distances_ :=
          if save_pd_ then st.pair_distances_ ++ [it.2.2.reaction_r_sqr]
          else st.pair_distances_,
        tmp_num_intra_inter :=
          if tm.getMoleculeId it.1 = tm.getMoleculeId it.2.1 then
            vectorIncr st.tmp_num_intra_inter 0
          else vectorIncr st.tmp_num_intra_inter 1 }
    else st2
  else st1

/-- The body of the loop of `applyAR` (lines 926-994) for the record `it`:
`reaction_list_.at` throws outside the vector, an order other than 1 and 2
leaves `p1` and `p2` unassigned. -/
def applyARStep {R L : Type} (ops : PairListOps L)
    (postProcess_T1 postProcess_T2 : Reaction → Memory R → Nat → Nat → List Nat × Memory R)
    (tm : TopologyManager) (lookupLocalParticle : Int → Option Nat)
    (reaction_list_ : List Reaction) (save_pd_ : Bool)
    (st : ReactState R L) (it : Record R) : Outcome (ReactState R L) :=
  match reaction_list_[toSizeT it.2.2.reaction_id]? with
  | none => Outcome.thrown
  | some reaction =>
    match lookupEndpoints lookupLocalParticle it with
    | none => Outcome.undefined
    | some (some p1, some p2) =>
      if validState reaction st.mem p1 p2 then
        Outcome.value
          (associate ops postProcess_T1 postProcess_T2 tm save_pd_ reaction st it p1 p2)
      else Outcome.value st
    | some _ => Outcome.value st

/-- The loop of `applyAR` over `effective_pairs_` (line 925). -/
def applyARLoop {R L : Type} (ops : PairListOps L)
    (postProcess_T1 postProcess_T2 : Reaction → Memory R → Nat → Nat → List Nat × Memory R)
    (tm : TopologyManager) (lookupLocalParticle : Int → Option Nat)
    (reaction_list_ : List Reaction) (save_pd_ : Bool) :
    List (Record R) → ReactState R L → Outcome (ReactState R L)
  | [], st => Outcome.value st
  | it :: rest, st =>
    match applyARStep ops postProcess_T1 postProcess_T2 tm lookupLocalParticle reaction_list_
        save_pd_ st it with
    | Outcome.value st1 =>
      applyARLoop ops postProcess_T1 postProcess_T2 tm lookupLocalParticle reaction_list_
        save_pd_ rest st1
    | Outcome.thrown => Outcome.thrown
    | Outcome.undefined => Outcome.undefined

/-- The statement `m.insert(std::make_pair(step, row))` on a `std::map`: an
existing row of that step is kept. -/
def mapInsertRow (m : List (Int × List Int)) (step : Int) (row : List Int) :
    List (Int × List Int) :=
  if m.any (fun e => decide (e.1 = step)) then m else mmInsert m (step, row)

/-- The statistics kept by the engine: `time_reaction_counter_` and
`intra_inter_reaction_counter_`. -/
structure Statistics where
  time_reaction_counter_ : List (Int × List Int)
  intra_inter_reaction_counter_ : List (Int × List Int)
deriving DecidableEq, Repr

/-- The function `applyAR` (lines 913-1003): the local counters are set to
zero, the loop runs over `effective_pairs_`, then the rows of the step
`current_step` are inserted into the statistics. -/
def applyAR {R L : Type} (ops : PairListOps L)
    (postProcess_T1 postProcess_T2 : Reaction → Memory R → Nat → Nat → List Nat × Memory R)
    (tm : TopologyManager) (lookupLocalParticle : Int → Option Nat)
    (reaction_list_ : List Reaction) (save_pd_ : Bool) (current_step : Int)
    (effective_pairs_ : ReactionMap R) (st : ReactState R L) (stats : Statistics) :
    Outcome (ReactState R L × Statistics) :=
  let st0 : ReactState R L :=
    { st with
      tmp_reaction_counters := List.replicate reaction_list_.length 0,
      tmp_num_intra_inter := [0, 0] }
  match applyARLoop ops postProcess_T1 postProcess_T2 tm lookupLocalParticle reaction_list_
      save_pd_ effective_pairs_ st0 with
  | Outcome.value st1 =>
    Outcome.value
      (st1,
        { time_reaction_counter_ :=
            mapInsertRow stats.time_reaction_counter_ current_step st1.tmp_reaction_counters,
          intra_inter_reaction_counter_ :=
            mapInsertRow stats.intra_inter_reaction_counter_ current_step
              st1.tmp_num_intra_inter })
  | Outcome.thrown => Outcome.thrown
  | Outcome.undefined => Outcome.undefined

/-- The pair filled by `isValidPair` at the level of addresses: `first` and
`second` are the `Particle` pointers written through by `applyDR`. -/
structure ReactedPointers (R : Type) where
  first : Nat
  second : Nat
  reaction_rate : R
  r_sqr : R
deriving DecidableEq, Repr

/-- The call of `remove` chosen by lines 883-888 for the pair `(p1, p2)` of the
bond list. -/
def removeBond {R L : Type} (ops : PairListOps L) (l : L) (mem : Memory R) (p1 p2 : Nat) : L :=
  if !(mem p1).ghost && !(mem p1).ghost then ops.remove l (mem p1).id (mem p2).id
  else if (mem p2).ghost then ops.remove l (mem p1).id (mem p2).id
  else ops.remove l (mem p2).id (mem p1).id

/-- The body of the inner loop of `applyDR` (lines 877-899) for the pair
`(p1, p2)` of the bond list; the Boolean is `updated_fpl`. -/
def applyDRPair {R L τ : Type} (ops : PairListOps L)
    (isValidPair : τ → Reaction → Memory R → Nat → Nat → Option (ReactedPointers R) × τ)
    (postProcess_T1 postProcess_T2 : Reaction → Memory R → Nat → Nat → List Nat × Memory R)
    (reaction : Reaction) (acc : (ReactState R L × τ) × Bool) (pr : Nat × Nat) :
    (ReactState R L × τ) × Bool :=
  let st := acc.1.1
  let res := isValidPair acc.1.2 reaction st.mem pr.1 pr.2
  match res.1 with
  | none => ((st, res.2), acc.2)
  | some p =>
    let lists1 := Function.update st.pair_lists reaction.fixed_pair_list_
      (removeBond ops (st.pair_lists reaction.fixed_pair_list_) st.mem pr.1 pr.2)
    let mem1 := setState st.mem p.first ((st.mem p.first).state + reaction.delta_1)
    let tmp1 := postProcess_T1 reaction mem1 p.first p.second
    let modified1 := insertAll st.modified_particles tmp1.1
    let mem2 := setState tmp1.2 p.second ((tmp1.2 p.second).state + reaction.delta_2)
    let tmp2 := postProcess_T2 reaction mem2 p.second p.first
    let modified2 := insertAll modified1 tmp2.1
    (({ st with mem := tmp2.2, pair_lists := lists1, modified_particles := modified2 }, res.2),
      true)

/-- The body of the outer loop of `applyDR` (lines 869-905) for one reverse
reaction.  The iteration runs over the pairs the list holds when the loop
starts: `remove` takes effect on the iterated storage with
`updateParticlesStorage`. -/
def applyDRReaction {R L τ : Type} (ops : PairListOps L)
    (isValidPair : τ → Reaction → Memory R → Nat → Nat → Option (ReactedPointers R) × τ)
    (postProcess_T1 postProcess_T2 : Reaction → Memory R → Nat → Nat → List Nat × Memory R)
    (acc : ReactState R L × τ) (reaction : Reaction) : ReactState R L × τ :=
  if !reaction.active then acc
  else
    let done := (ops.pairs (acc.1.pair_lists reaction.fixed_pair_list_)).foldl
      (applyDRPair ops isValidPair postProcess_T1 postProcess_T2 reaction) (acc, false)
    let st1 := done.1.1
    let refreshed := ops.updateParticlesStorage (st1.pair_lists reaction.fixed_pair_list_)
    let lists1 := Function.update st1.pair_lists reaction.fixed_pair_list_ refreshed
    if done.2 then ({ st1 with pair_lists := lists1 }, done.1.2) else done.1

/-- The function `applyDR` (lines 860-908). -/
def applyDR {R L τ : Type} (ops : PairListOps L)
    (isValidPair : τ → Reaction → Memory R → Nat → Nat → Option (ReactedPointers R) × τ)
    (postProcess_T1 postProcess_T2 : Reaction → Memory R → Nat → Nat → List Nat × Memory R)
    (reverse_reaction_list_ : List Reaction) (st : ReactState R L) (t : τ) :
    ReactState R L × τ :=
  reverse_reaction_list_.foldl
    (applyDRReaction ops isValidPair postProcess_T1 postProcess_T2) (st, t)

/-- Modelled from the spec: the class `FixedPairList` (FixedPairList.hpp is not
part of the sources), "add, iadd (insert-or-ignore), remove,
updateParticlesStorage, forward iteration": the list of the stored id pairs;
`iadd` stores the pair unless it is stored already and tells whether it did,
`remove` deletes the pair stored under the first id, the iteration yields the
pairs whose particles are found locally. -/
def specPairList (lookupLocalParticle : Int → Option Nat) : PairListOps (List (Int × Int)) where
  iadd l pid1 pid2 :=
    if (pid1, pid2) ∈ l then (false, l) else (true, l ++ [(pid1, pid2)])
  remove l pid1 pid2 := l.filter (fun pr => !decide (pr = (pid1, pid2)))
  pairs l := l.filterMap (fun pr =>
    match lookupLocalParticle pr.1, lookupLocalParticle pr.2 with
    | some p1, some p2 => some (p1, p2)
    | _, _ => none)
  updateParticlesStorage l := l

/-- Modelled from the spec: the method `isValidPair` of `Reaction`
(ChemicalReaction.hpp is not part of the sources) for a pair inside the cutoff
and a rate test that passes: it "returns true iff types match (in either
order), both state windows satisfied", and "the returned pair is reordered so
`first.type == typeA`". -/
def isValidPairSpec {R : Type} [NatCast R] :
    Unit → Reaction → Memory R → Nat → Nat → Option (ReactedPointers R) × Unit :=
  fun t reaction mem p1 p2 =>
    if (mem p1).type = reaction.type_1 ∧ (mem p2).type = reaction.type_2 ∧
        isValidState_T1 reaction (mem p1) = true ∧ isValidState_T2 reaction (mem p2) = true then
      (some ⟨p1, p2, ((1 : Nat) : R), ((1 : Nat) : R)⟩, t)
    else if (mem p1).type = reaction.type_2 ∧ (mem p2).type = reaction.type_1 ∧
        isValidState_T2 reaction (mem p1) = true ∧ isValidState_T1 reaction (mem p2) = true then
      (some ⟨p2, p1, ((1 : Nat) : R), ((1 : Nat) : R)⟩, t)
    else (none, t)

/-- No post-processor is registered: nothing is changed and no particle is
returned. -/
def noPostProcess {R : Type} : Reaction → Memory R → Nat → Nat → List Nat × Memory R :=
  fun _ mem _ _ => ([], mem)

/-! ## updateGhost (lines 495-647) -/

/-- The record written for a modified particle (lines 520-533). -/
structure GhostRecord (R : Type) where
  p_id : Int
  p_type : Int
  p_mass : R
  p_q : R
  p_res_id : Int
  p_lambda : R
  p_state : Int
deriving DecidableEq, Repr

/-- The record written for the particle `p` (lines 520-533). -/
def packParticle {R : Type} (p : Particle R) : GhostRecord R :=
  { p_id := p.id, p_type := p.type, p_mass := p.mass, p_q := p.q, p_res_id := p.res_id,
    p_lambda := p.lambda, p_state := p.state }

/-- The records of `out_buffer` (lines 517-534), in the order of the set
`modified_particles`. -/
def packModified {R : Type} (mem : Memory R) (modified_particles : List Nat) :
    List (GhostRecord R) :=
  modified_particles.map (fun it => packParticle (mem it))

/-- The treatment of one received record (lines 629-639). -/
def unpackRecord {R : Type} (lookupLocalParticle : Int → Option Nat) (mem : Memory R)
    (rec : GhostRecord R) : Memory R :=
  match lookupLocalParticle rec.p_id with
  | none => mem
  | some particle =>
    if (mem particle).ghost then
      Function.update mem particle
        { mem particle with
          type := rec.p_type, mass := rec.p_mass, q := rec.p_q, res_id := rec.p_res_id,
          lambda := rec.p_lambda, state := rec.p_state }
    else mem

/-- The body of the direction loop of `updateGhost` (lines 544-644):
`received j` is the content of the buffer sent by the neighbour with index
`j`, which is that rank's `out_buffer`; `in_buffer_0` comes from the neighbour
`2 * direction + 1`, `in_buffer_1` from the neighbour `2 * direction`, and the
records of `in_buffer_0` are unpacked first. -/
def updateGhostDirection {R : Type} (getGridSize : Nat → Int)
    (received : Nat → List (GhostRecord R)) (lookupLocalParticle : Int → Option Nat)
    (mem : Memory R) (direction : Nat) : Memory R :=
  let direction_size := getGridSize direction
  if direction_size = 1 then mem
  else
    let in_buffer_0 := received (2 * direction + (1 - 0))
    let mem0 := in_buffer_0.foldl (unpackRecord lookupLocalParticle) mem
    if direction_size = 2 then mem0
    else
      let in_buffer_1 := received (2 * direction + (1 - 1))
      in_buffer_1.foldl (unpackRecord lookupLocalParticle) mem0

/-- The particles of one rank after `updateGhost`. -/
def updateGhost {R : Type} (getGridSize : Nat → Int)
    (received : Nat → List (GhostRecord R)) (lookupLocalParticle : Int → Option Nat)
    (mem : Memory R) : Memory R :=
  [0, 1, 2].foldl (updateGhostDirection getGridSize received lookupLocalParticle) mem

/-- The neighbour indices whose buffers the direction loop unpacks for one
direction, in the order of unpacking (lines 553-563 and 599-610). -/
def dirSchedule (getGridSize : Nat → Int) (direction : Nat) : List Nat :=
  if getGridSize direction = 1 then []
  else if getGridSize direction = 2 then [2 * direction + (1 - 0)]
  else [2 * direction + (1 - 0), 2 * direction + (1 - 1)]

/-- The neighbour indices whose buffers `updateGhost` unpacks, in the order of
unpacking. -/
def recvSchedule (getGridSize : Nat → Int) : List Nat :=
  dirSchedule getGridSize 0 ++ dirSchedule getGridSize 1 ++ dirSchedule getGridSize 2

/-- The state of one rank at the entry of `updateGhost`. -/
structure RankData (R : Type) where
  mem : Memory R
  modified_particles : List Nat
  lookupLocalParticle : Int → Option Nat

/-- The particles of the rank `r` after `updateGhost` has run on all ranks of
the node grid: every rank fills its `out_buffer` at entry and sends the same
buffer in every exchange. -/
def updateGhostAll {R ρ : Type} (getGridSize : Nat → Int)
    (getNodeNeighborIndex : ρ → Nat → ρ) (world : ρ → RankData R) (r : ρ) : Memory R :=
  updateGhost getGridSize
    (fun j => packModified (world (getNodeNeighborIndex r j)).mem
      (world (getNodeNeighborIndex r j)).modified_particles)
    (world r).lookupLocalParticle (world r).mem

/-! ## sendMultiMap (lines 218-362) -/

/-- Modelled from the spec: the classes `InBuffer` and `OutBuffer` are not part
of the sources.  A buffer is the "count-prefixed record stream" of the values
written, read back in the order written; a value is an `int` or a `real`. -/
inductive Item (R : Type) where
  | int (v : Int)
  | real (v : R)
deriving DecidableEq, Repr

/-- Modelled from the spec: the content of a buffer, see `Item`. -/
abbrev Buffer (R : Type) := List (Item R)

/-- The six values written for one entry of `mm` (lines 240-251); `toInt` is
the conversion of the assignments of a `longint` to the `int` variables
`particle_id_1`, `particle_id_2` and `reaction_id`. -/
def writeRecord {R : Type} (toInt : Int → Int) (it : Record R) : Buffer R :=
  let particle_id_1 := toInt it.1
  let particle_id_2 := toInt it.2.1
  let reaction_id := toInt it.2.2.reaction_id
  let reaction_rate := it.2.2.reaction_rate
  let r_sqr := it.2.2.reaction_r_sqr
  let order := it.2.2.order
  [Item.int particle_id_1, Item.int particle_id_2, Item.int reaction_id,
    Item.real reaction_rate, Item.real r_sqr, Item.int order]

/-- The buffer `out_buffer` after lines 231-252: the size of `mm`, then the
entries of `mm` in iteration order. -/
def fillOutBuffer {R : Type} (toInt : Int → Int) (mm : ReactionMap R) : Buffer R :=
  mm.foldl (fun out_buffer it => out_buffer ++ writeRecord toInt it)
    [Item.int (mm.length : Nat)]

/-- The six reads of lines 334-348: the record and the rest of the buffer; a
buffer that does not hold the six values has no defined read. -/
def readRecord {R : Type} : Buffer R → Option (Record R × Buffer R)
  | Item.int idx_a :: Item.int idx_b :: Item.int reaction_idx :: Item.real reaction_rate ::
      Item.real reaction_r_sqr :: Item.int p_order_ :: rest =>
    some ((idx_a, (idx_b, ReactionDef.mk reaction_idx reaction_rate reaction_r_sqr p_order_)),
      rest)
  | _ => none

/-- The loop of lines 333-356 for `data_length` records: every record read is
inserted into `mm`. -/
def readRecords {R : Type} : Nat → Buffer R → ReactionMap R → Option (ReactionMap R)
  | 0, _, mm => some mm
  | n + 1, buf, mm =>
    match readRecord buf with
    | none => none
    | some res => readRecords n res.2 (mmInsert mm res.1)

/-- The unpacking of one received buffer (lines 327-356): `data_length` is
read first, then the loop runs while `i < data_length`. -/
def unpackBuffer {R : Type} (buf : Buffer R) (mm : ReactionMap R) : Option (ReactionMap R) :=
  match buf with
  | Item.int data_length :: rest => readRecords data_length.toNat rest mm
  | _ => none

/-- One exchange of the lr loop: the indices passed to `getNodeNeighborIndex`
for the receiver and the sender, and the buffer sent. -/
structure Exchange (B : Type) where
  direction : Nat
  left_right_dir : Nat
  receiver : Nat
  sender : Nat
  sent : B
deriving DecidableEq, Repr

/-- The two receive buffers and the exchanges performed so far. -/
structure CommState (B : Type) where
  in_buffer_0 : B
  in_buffer_1 : B
  log : List (Exchange B)

/-- One iteration of the lr loop of lines 283-318 (and 562-593 of
`updateGhost`): `out_buffer` is sent to the neighbour `2 * direction +
left_right_dir`, and the buffer `received sender` of the neighbour
`2 * direction + (1 - left_right_dir)` is received into `in_buffer_0` or
`in_buffer_1`.  The odd-even rule only orders the send and the receive. -/
def exchangeStep {B : Type} (direction_size : Int) (direction : Nat) (out_buffer : B)
    (received : Nat → B) (c : CommState B) (left_right_dir : Nat) : CommState B :=
  if direction_size = 2 ∧ left_right_dir = 1 then c
  else
    let receiver := 2 * direction + left_right_dir
    let sender := 2 * direction + (1 - left_right_dir)
    if left_right_dir = 0 then
      { c with
        in_buffer_0 := received sender,
        log := c.log ++ [⟨direction, left_right_dir, receiver, sender, out_buffer⟩] }
    else
      { c with
        in_buffer_1 := received sender,
        log := c.log ++ [⟨direction, left_right_dir, receiver, sender, out_buffer⟩] }

/-- One iteration of the unpacking loop of lines 322-357. -/
def unpackStep {R : Type} (direction_size : Int) (c : CommState (Buffer R))
    (mm : Option (ReactionMap R)) (left_right_dir : Nat) : Option (ReactionMap R) :=
  if direction_size = 2 ∧ left_right_dir = 1 then mm
  else
    match mm with
    | none => none
    | some m => unpackBuffer (if left_right_dir = 0 then c.in_buffer_0 else c.in_buffer_1) m

/-- The body of the direction loop of lines 269-359. -/
def sendMultiMapDirection {R : Type} (getGridSize : Nat → Int)
    (received : Nat → Buffer R) (out_buffer : Buffer R)
    (acc : CommState (Buffer R) × Option (ReactionMap R)) (direction : Nat) :
    CommState (Buffer R) × Option (ReactionMap R) :=
  let direction_size := getGridSize direction
  if direction_size = 1 then acc
  else
    let c := [0, 1].foldl (exchangeStep direction_size direction out_buffer received) acc.1
    (c, [0, 1].foldl (unpackStep direction_size c) acc.2)

/-- The function `sendMultiMap` on one rank: the new content of `mm`, which is
undefined when a received buffer cannot be read, and the exchanges performed.
`received j` is the buffer that arrives from the neighbour with index `j`. -/
def sendMultiMap {R : Type} (toInt : Int → Int) (getGridSize : Nat → Int)
    (received : Nat → Buffer R) (mm : ReactionMap R) :
    Option (ReactionMap R) × List (Exchange (Buffer R)) :=
  let out_buffer := fillOutBuffer toInt mm
  let res := [0, 1, 2].foldl (sendMultiMapDirection getGridSize received out_buffer)
    (⟨[], [], []⟩, some mm)
  (res.2, res.1.log)

/-- The map of the rank `r` after `sendMultiMap` has run on all ranks of the
node grid: the buffer that arrives from a neighbour is the `out_buffer` of that
rank. -/
def sendMultiMapAll {R ρ : Type} (toInt : Int → Int) (getGridSize : Nat → Int)
    (getNodeNeighborIndex : ρ → Nat → ρ) (world : ρ → ReactionMap R) (r : ρ) :
    Option (ReactionMap R) :=
  (sendMultiMap toInt getGridSize
    (fun j => fillOutBuffer toInt (world (getNodeNeighborIndex r j))) (world r)).1

/-- The exchanges that the spec lists for the grid sizes `s`: for the
directions 0, 1, 2 none when the size is 1, the exchange `lr = 0` when it is 2,
`lr = 0` then `lr = 1` otherwise, each as (direction, lr, receiver index
`2d + lr`, sender index `2d + (1 - lr)`). -/
def exchangePlanSpec (s : Nat → Int) : List (Nat × Nat × Nat × Nat) :=
  ([0, 1, 2].map (fun d =>
    if s d = 1 then []
    else if s d = 2 then [(d, 0, 2 * d + 0, 2 * d + 1)]
    else [(d, 0, 2 * d + 0, 2 * d + 1), (d, 1, 2 * d + 1, 2 * d + 0)])).flatten

/-- The exchanges of one direction with the buffer `out_buffer`, as performed
by the lr loop: none for the size 1, `lr = 0` for the size 2, `lr = 0` then
`lr = 1` otherwise. -/
def dirExchanges {B : Type} (getGridSize : Nat → Int) (direction : Nat) (out_buffer : B) :
    List (Exchange B) :=
  if getGridSize direction = 1 then []
  else if getGridSize direction = 2 then
    [⟨direction, 0, 2 * direction + 0, 2 * direction + 1, out_buffer⟩]
  else
    [⟨direction, 0, 2 * direction + 0, 2 * direction + 1, out_buffer⟩,
      ⟨direction, 1, 2 * direction + 1, 2 * direction + 0, out_buffer⟩]

/-- One iteration of the unpacking loop of `updateGhost` (lines 599-641). -/
def ghostUnpackStep {R : Type} (direction_size : Int) (lookupLocalParticle : Int → Option Nat)
    (c : CommState (List (GhostRecord R))) (mem : Memory R) (left_right_dir : Nat) :
    Memory R :=
  if direction_size = 2 ∧ left_right_dir = 1 then mem
  else
    (if left_right_dir = 0 then c.in_buffer_0 else c.in_buffer_1).foldl
      (unpackRecord lookupLocalParticle) mem

/-- The body of the direction loop of `updateGhost` (lines 544-644) with its
communication loop written out. -/
def ghostExchangeDirection {R : Type} (getGridSize : Nat → Int)
    (received : Nat → List (GhostRecord R)) (lookupLocalParticle : Int → Option Nat)
    (out_buffer : List (GhostRecord R))
    (acc : CommState (List (GhostRecord R)) × Memory R) (direction : Nat) :
    CommState (List (GhostRecord R)) × Memory R :=
  let direction_size := getGridSize direction
  if direction_size = 1 then acc
  else
    let c := [0, 1].foldl (exchangeStep direction_size direction out_buffer received) acc.1
    (c, [0, 1].foldl (ghostUnpackStep direction_size lookupLocalParticle c) acc.2)

/-- The function `updateGhost` with its communication loop written out
(lines 505-644): the particles after the call and the exchanges performed. -/
def updateGhostExchanges {R : Type} (getGridSize : Nat → Int)
    (received : Nat → List (GhostRecord R)) (lookupLocalParticle : Int → Option Nat)
    (mem : Memory R) (modified_particles : List Nat) :
    Memory R × List (Exchange (List (GhostRecord R))) :=
  let out_buffer := packModified mem modified_particles
  let res := [0, 1, 2].foldl
    (ghostExchangeDirection getGridSize received lookupLocalParticle out_buffer)
    (⟨[], [], []⟩, mem)
  (res.2, res.1.log)

/-- The ids of the record are kept by the conversion to `int`. -/
def FitsInt {R : Type} (toInt : Int → Int) (it : Record R) : Prop :=
  toInt it.1 = it.1 ∧ toInt it.2.1 = it.2.1 ∧ toInt it.2.2.reaction_id = it.2.2.reaction_id

/-- The conversion of a `longint` to a 32-bit `int`: the value with the same
remainder modulo `2^32` in the range of `int`. -/
def toInt32 (x : Int) : Int := (x + 2147483648) % 4294967296 - 2147483648

/-- The record read back from the six values written for `it`: the ids have
gone through the `int` variables of `sendMultiMap`. -/
def narrowRecord {R : Type} (toInt : Int → Int) (it : Record R) : Record R :=
  (toInt it.1, (toInt it.2.1,
    ReactionDef.mk (toInt it.2.2.reaction_id) it.2.2.reaction_rate it.2.2.reaction_r_sqr
      it.2.2.order))

/-- The record that the local loop emits for the input record `it`. -/
def emitted (it : Record R) : Record R :=
  if it.1 > it.2.1 then (it.2.1, (it.1, it.2.2)) else it

/-- The candidates that attain the minimal squared distance, in the order of
the candidates. -/
def tieBucket {R : Type} [LinearOrder R] (candidates : List (Record R)) : List (Record R) :=
  candidates.filter (fun c =>
    candidates.all (fun d => decide (c.2.2.reaction_r_sqr ≤ d.2.2.reaction_r_sqr)))

/-! ## React (lines 123-202) -/

/-- What `React` calls on one rank besides the members of the engine: the
integrator (`getTimeStep`), the Verlet list (pairs of `Particle` pointers), the
methods of `Reaction`, the storage, the generator, the node grid, and the data
that arrives from the other ranks: the buffers received in the three calls of
`sendMultiMap` and in `updateGhost`, and the maps of all ranks, in rank order,
that `sortParticleReactionList` works on when this rank holds the map given.
The engine and its reactions share one generator (`rng_ = system->rng`, line
61, and `reaction->set_rng(rng_)`, line 91): `isValidPair` and the draws of
`uniqueA` and `uniqueB` read and advance the same state, of type `σ`. -/
structure ReactEnv (R L σ : Type) where
  getTimeStep : R
  verletPairs : List (Nat × Nat)
  isValidPairScan : σ → Reaction → Particle R → Particle R → Option (ReactedPair R) × σ
  isValidPair : σ → Reaction → Memory R → Nat → Nat → Option (ReactedPointers R) × σ
  postProcess_T1 : Reaction → Memory R → Nat → Nat → List Nat × Memory R
  postProcess_T2 : Reaction → Memory R → Nat → Nat → List Nat × Memory R
  ops : PairListOps L
  tm : TopologyManager
  lookupLocalParticle : Int → Option Nat
  lookupRealParticle : Int → Bool
  hashOrder : List Int → List Int
  toInt : Int → Int
  rng : σ → Int → Int × σ
  getGridSize : Nat → Int
  receivedPotential : Nat → Buffer R
  receivedUnique : Nat → Buffer R
  receivedEffective : Nat → Buffer R
  gathered : ReactionMap R → List (ReactionMap R)
  receivedGhost : Nat → List (GhostRecord R)

/-- The data of one rank that `React` reads and writes: the members of the
engine, the two candidate maps, the particles, the bond lists, the statistics
and the state `rngState` of the shared generator. -/
structure ReactData (R L σ : Type) where
  engine : Engine R
  potential_pairs_ : ReactionMap R
  effective_pairs_ : ReactionMap R
  mem : Memory R
  pair_lists : Nat → L
  pair_distances_ : List R
  stats : Statistics
  rngState : σ

/-- The result of a call that is undefined when the value is missing. -/
def Outcome.ofOption {α : Type} : Option α → Outcome α
  | some a => Outcome.value a
  | none => Outcome.undefined

/-- The sequencing of two calls: an exception or undefined behaviour of the
first one ends the run. -/
def Outcome.andThen {α β : Type} : Outcome α → (α → Outcome β) → Outcome β
  | Outcome.value a, f => f a
  | Outcome.thrown, _ => Outcome.thrown
  | Outcome.undefined, _ => Outcome.undefined

/-- The two candidate maps after line 176 and the state of the generator. -/
structure Candidates (R σ : Type) where
  potential_pairs_ : ReactionMap R
  effective_pairs_ : ReactionMap R
  rngState : σ
deriving DecidableEq, Repr

/-- The first part of the body of `React` (lines 131-176): the scan of the
Verlet list into the cleared map `potential_pairs_`, `sendMultiMap`, `uniqueA`,
`sendMultiMap`, `uniqueB` into `effective_pairs_`, `sendMultiMap` and
`sortParticleReactionList`.  The generator state goes from the scan to
`uniqueA` and on to `uniqueB`. -/
def reactCandidates {R L σ : Type} [LinearOrder R] [NatCast R] (env : ReactEnv R L σ)
    (st : ReactData R L σ) : Outcome (Candidates R σ) :=
  let scan := scanPairs env.isValidPairScan st.engine.reaction_list_
    (env.verletPairs.map (fun pr => (st.mem pr.1, st.mem pr.2))) st.rngState
  (Outcome.ofOption (sendMultiMap env.toInt env.getGridSize env.receivedPotential
      scan.1).1).andThen fun potential1 =>
  (Outcome.ofOption (uniqueA st.engine.is_nearest_ env.toInt env.lookupRealParticle
      env.hashOrder env.rng potential1 scan.2)).andThen fun uniqA =>
  (Outcome.ofOption (sendMultiMap env.toInt env.getGridSize env.receivedUnique
      uniqA.1).1).andThen fun potential2 =>
  (Outcome.ofOption (uniqueB st.engine.is_nearest_ env.toInt env.lookupRealParticle
      env.hashOrder env.rng potential2 uniqA.2)).andThen fun uniqB =>
  (Outcome.ofOption (sendMultiMap env.toInt env.getGridSize env.receivedEffective
      uniqB.1).1).andThen fun effective1 =>
  (Outcome.ofOption (sortParticleReactionList env.tm st.engine.reaction_list_
      st.engine.max_per_interval_ (env.gathered effective1))).andThen fun effective2 =>
  Outcome.value
    { potential_pairs_ := potential2, effective_pairs_ := effective2, rngState := uniqB.2 }

/-- The second part of the body of `React` (lines 178-199), at the integrator
step `step`: `applyDR` on an empty set `modified_particles`, `applyAR` on the
map `effective_pairs_`, `updateGhost`, and `savePairDistances`, which clears
`pair_distances_`.  The checks of `isValidPair` in `applyDR` continue with the
generator state left by `uniqueB`. -/
def reactApply {R L σ : Type} [LinearOrder R] [NatCast R] (env : ReactEnv R L σ)
    (step : Int) (st : ReactData R L σ) (c : Candidates R σ) : Outcome (ReactData R L σ) :=
  let e : Engine R := { st.engine with dt_ := env.getTimeStep }
  let dissociated := applyDR env.ops env.isValidPair env.postProcess_T1 env.postProcess_T2
    e.reverse_reaction_list_ ⟨st.mem, st.pair_lists, [], [], [], st.pair_distances_⟩
    c.rngState
  (applyAR env.ops env.postProcess_T1 env.postProcess_T2 env.tm env.lookupLocalParticle
      e.reaction_list_ e.save_pd_ step c.effective_pairs_ dissociated.1 st.stats).andThen
    fun associated =>
  let ghosts := updateGhostExchanges env.getGridSize env.receivedGhost
    env.lookupLocalParticle associated.1.mem associated.1.modified_particles
  Outcome.value
    { engine := e,
      potential_pairs_ := c.potential_pairs_,
      effective_pairs_ := c.effective_pairs_,
      mem := ghosts.1,
      pair_lists := associated.1.pair_lists,
      pair_distances_ := if e.save_pd_ then [] else associated.1.pair_distances_,
      stats := associated.2,
      rngState := dissociated.2 }

/-- The body of `React` after the test of the interval (lines 127-201), at the
integrator step `step`. -/
def reactPipeline {R L σ : Type} [LinearOrder R] [NatCast R] (env : ReactEnv R L σ)
    (step : Int) (st : ReactData R L σ) : Outcome (ReactData R L σ) :=
  (reactCandidates env st).andThen (reactApply env step st)

/-- The function `React` (lines 123-202) at the integrator step `step`: the
remainder of the division by a zero interval is undefined, a step that is not
a multiple of the interval returns at once. -/
def React {R L σ : Type} [LinearOrder R] [NatCast R] (env : ReactEnv R L σ)
    (step : Int) (st : ReactData R L σ) : Outcome (ReactData R L σ) :=
  if st.engine.interval_ = 0 then Outcome.undefined
  else if Int.tmod step st.engine.interval_ ≠ 0 then Outcome.value st
  else reactPipeline env step st

/-! ## Concrete inputs -/

/-- A topology manager: every particle is its own residue, particles `2m` and
`2m+1` form molecule `m`. -/
def tmPairs : TopologyManager :=
  ⟨fun p => p, fun p => p / 2, fun a b => decide (a / 2 = b / 2)⟩

/-- An active forward reaction between type 1 (state window `[0, 1)`, delta 1)
and type 2 (state window `[0, 1)`, delta 1) with `intraresidual = false`,
`intramolecular = false`, not virtual, with the bond list 0. -/
def plainReaction : Reaction :=
  { active := true, intraresidual := false, intramolecular := false,
    type_1 := 1, type_2 := 2, min_state_1 := 0, max_state_1 := 1,
    min_state_2 := 0, max_state_2 := 1, delta_1 := 1, delta_2 := 1,
    virtual_reaction := false, reverse := false, fixed_pair_list_ := 0 }

/-- One registered reaction with `intraresidual = false`, `intramolecular = false`. -/
def oneReaction : List Reaction := [plainReaction]

/-- A record of reaction 0 with rate 1, squared distance `r_sqr` and order 1. -/
def rec0 (a b r_sqr : Int) : Record Int := (a, (b, ⟨0, 1, r_sqr, 1⟩))

/-- Gathered maps of two ranks. -/
def gatheredTwoRanks : List (ReactionMap Int) :=
  [[rec0 1 2 4, rec0 3 4 9], [rec0 1 4 1, rec0 5 6 2]]

/-- A generator that counts its calls and returns `(N - 1 - calls) mod N`. -/
def rngCount : Nat → Int → Int × Nat :=
  fun s N => ((N - 1 - (s : Int)) % N, s + 1)

/-- A generator that always returns 0. -/
def rngZero : Unit → Int → Int × Unit := fun _ _ => (0, ())

/-- Particles 1 to 4 are real on this rank. -/
def ownedLow : Int → Bool := fun pid => decide (1 ≤ pid ∧ pid ≤ 4)

/-- An iteration order of the unordered sets: last inserted value first. -/
def orderRev : List Int → List Int := fun l => l.dedup.reverse

/-- A candidate map: key 1 with three partners (two tie at distance 4),
key 3 with one partner, key 7 (not real here) with one partner. -/
def candidatesA : ReactionMap Int :=
  [rec0 1 2 4, rec0 1 5 9, rec0 1 6 4, rec0 3 4 9, rec0 7 8 1]

/-- A candidate map in which every key has one nearest partner. -/
def candidatesNear : ReactionMap Int :=
  [rec0 1 2 4, rec0 1 5 9, rec0 3 4 9, rec0 7 8 1]

/-- A candidate map in which the partners 4 and 2 have one nearest key each. -/
def candidatesB : ReactionMap Int :=
  [rec0 1 4 4, rec0 3 4 9, rec0 5 2 1]

/-- A real particle of type 0 and state 0 with the given id. -/
def particleOf (pid : Int) : Particle Int := ⟨pid, 0, 0, 0, 1, 0, 1, false⟩

/-- An `isValidPair` that accepts every pair in the given order, with rate 1
and squared distance 1, and draws nothing. -/
def validAlways : Unit → Reaction → Particle Int → Particle Int →
    Option (ReactedPair Int) × Unit :=
  fun s _ p1 p2 => (some ⟨p1, p2, 1, 1⟩, s)

/-- The memory that holds the particles `ps` at the addresses `0, 1, ...`. -/
def memOf (ps : List (Particle Int)) : Memory Int := fun a => ps.getD a (particleOf 0)

/-- The lookup of the storage that holds the particles `ps`: the address of the
first particle with the id. -/
def lookupIn (ps : List (Particle Int)) : Int → Option Nat :=
  fun pid =>
    if ps.findIdx (fun p => decide (p.id = pid)) < ps.length then
      some (ps.findIdx (fun p => decide (p.id = pid)))
    else none

/-- The state with the particles `ps`, every bond list equal to `bonds`, an
empty set `modified_particles` and counters at zero for one reaction. -/
def stateOf (ps : List (Particle Int)) (bonds : List (Int × Int)) :
    ReactState Int (List (Int × Int)) :=
  ⟨memOf ps, fun _ => bonds, [], [0], [0, 0], []⟩

/-- What the examples read from a state: the states of the particles at the
first addresses, the bond list 0, the set `modified_particles`, the two counter
vectors and `pair_distances_`. -/
structure Snapshot where
  states : List Int
  bonds : List (Int × Int)
  modified : List Nat
  counters : List Int
  intra_inter : List Int
  distances : List Int
deriving DecidableEq, Repr

/-- The snapshot of a state with the particles at the first `n` addresses. -/
def snapshot (n : Nat) (st : ReactState Int (List (Int × Int))) : Snapshot :=
  ⟨(List.range n).map (fun a => (st.mem a).state), st.pair_lists 0, st.modified_particles,
    st.tmp_reaction_counters, st.tmp_num_intra_inter, st.pair_distances_⟩

/-- The state of a call that returned. -/
def Outcome.toOption {α : Type} : Outcome α → Option α
  | Outcome.value a => some a
  | Outcome.thrown => none
  | Outcome.undefined => none

/-- A particle with the given id, type, state and ghost flag. -/
def particleTS (pid type state : Int) (ghost : Bool) : Particle Int :=
  ⟨pid, type, state, 0, 1, 0, 1, ghost⟩

/-- Particle 1 of type 1 and particle 2 of type 2, both real, in state 0. -/
def twoParticles : List (Particle Int) := [particleTS 1 1 0 false, particleTS 2 2 0 false]

/-- The reaction `plainReaction` made virtual. -/
def virtualReaction : Reaction := { plainReaction with virtual_reaction := true }

/-- Particles 1 to 4 of the types 1, 2, 1, 2, all real, in state 1. -/
def fourParticles : List (Particle Int) :=
  [particleTS 1 1 1 false, particleTS 2 2 1 false, particleTS 3 1 1 false,
    particleTS 4 2 1 false]

/-- The reverse of `plainReaction`: the states of the window `[1, 2)` go back by 1. -/
def reverseReaction : Reaction :=
  { plainReaction with
    min_state_1 := 1, max_state_1 := 2, min_state_2 := 1, max_state_2 := 2,
    delta_1 := -1, delta_2 := -1, reverse := true }

/-- A ring of three ranks in the x direction. -/
def ringGridSize : Nat → Int := fun direction => if direction = 0 then 3 else 1

/-- A rank that holds the particles `ps` with the set `modified_particles`. -/
def rankOf (ps : List (Particle Int)) (modified_particles : List Nat) : RankData Int :=
  ⟨memOf ps, modified_particles, lookupIn ps⟩

/-- An engine with one forward reaction, its reverse, and the interval 2. -/
def engineOne : Engine Int :=
  { current_cutoff_ := 3, interval_ := 2, dt_ := 0, is_nearest_ := false,
    reaction_list_ := [plainReaction], reverse_reaction_list_ := [reverseReaction],
    save_pd_ := true, max_per_interval_ := 10 }

/-- A single rank (every grid size is 1) that holds the particles 1 and 2, with
one pair in the Verlet list. -/
def envOne : ReactEnv Int (List (Int × Int)) Unit :=
  { getTimeStep := 1,
    verletPairs := [(0, 1)],
    isValidPairScan := validAlways,
    isValidPair := isValidPairSpec,
    postProcess_T1 := noPostProcess,
    postProcess_T2 := noPostProcess,
    ops := specPairList (lookupIn twoParticles),
    tm := tmPairs,
    lookupLocalParticle := lookupIn twoParticles,
    lookupRealParticle := fun pid => (lookupIn twoParticles pid).isSome,
    hashOrder := orderRev,
    toInt := id,
    rng := rngZero,
    getGridSize := fun _ => 1,
    receivedPotential := fun _ => fillOutBuffer id [],
    receivedUnique := fun _ => fillOutBuffer id [],
    receivedEffective := fun _ => fillOutBuffer id [],
    gathered := fun mm => [mm],
    receivedGhost := fun _ => [] }

/-- The data of the rank before the first reaction: no bond, no statistics. -/
def dataOne : ReactData Int (List (Int × Int)) Unit :=
  { engine := engineOne, potential_pairs_ := [rec0 5 6 1], effective_pairs_ := [rec0 5 6 1],
    mem := memOf twoParticles, pair_lists := fun _ => [], pair_distances_ := [],
    stats := ⟨[], []⟩, rngState := () }

/-- A grid of 2 x 2 x 1 ranks. -/
def squareGridSize : Nat → Int := fun direction => if direction < 2 then 2 else 1

/-- The neighbours on the 2 x 2 grid of the rank `(x, y)`: the other rank of the
row for the indices 0 and 1, the other rank of the column for 2 and 3, the rank
itself in the third direction. -/
def squareNeighbor : Nat × Nat → Nat → Nat × Nat :=
  fun r j => if j < 2 then (1 - r.1, r.2) else if j < 4 then (r.1, 1 - r.2) else r

/-- Only the rank `(0, 0)` holds a candidate. -/
def squareWorld : Nat × Nat → ReactionMap Int :=
  fun r => if r = (0, 0) then [rec0 1 2 4] else []

/-- On the 2 x 2 grid the rank `(0, 0)` owns particle 7 in state 5 and has it in
its modified set; the three other ranks hold ghost copies in state 3 and have
modified nothing. -/
def squareGhostWorld : Nat × Nat → RankData Int :=
  fun r =>
    if r = (0, 0) then rankOf [particleTS 7 1 5 false] [0]
    else rankOf [particleTS 7 1 3 true] []

/-- Particle 1 of type 1 is a ghost, particle 2 of type 2 is real; both are in
state 1. -/
def ghostAndReal : List (Particle Int) := [particleTS 1 1 1 true, particleTS 2 2 1 false]

/-- A topology manager in which particles `3m`, `3m+1`, `3m+2` form the residue
`m` and all particles are in different molecules. -/
def tmResidues : TopologyManager :=
  ⟨fun p => p / 3, fun p => p, fun a b => decide (a = b)⟩

/-- The reaction `plainReaction` with `intraresidual = true` and
`intramolecular = true`. -/
def intraReaction : Reaction :=
  { plainReaction with intraresidual := true, intramolecular := true }

/-- A generator that returns `N - 1`, the largest value of `[0, N)`. -/
def rngLast : Unit → Int → Int × Unit := fun s N => (N - 1, s)

/-- Three candidates of the key 1 at the same squared distance `2 * 10^19`. -/
def candidatesFar : List (Record Int) :=
  [rec0 1 2 20000000000000000000, rec0 1 3 20000000000000000000,
    rec0 1 4 20000000000000000000]

/-- Three candidates of the key 1 at the same squared distance 4, and one
farther away. -/
def candidatesTie : List (Record Int) := [rec0 1 2 4, rec0 1 5 9, rec0 1 3 4, rec0 1 4 4]

/-! ## Lemmas on the containers -/

theorem mmInsert_perm {K V : Type} [LinearOrder K] (l : List (K × V)) (x : K × V) :
    (mmInsert l x).Perm (x :: l) := by
  induction l with
  | nil => simp [mmInsert]
  | cons y ys ih =>
    unfold mmInsert
    split
    · exact List.Perm.refl _
    · exact (List.Perm.cons y ih).trans (List.Perm.swap x y ys)

theorem mem_mmInsert {K V : Type} [LinearOrder K] (l : List (K × V)) (x y : K × V) :
    y ∈ mmInsert l x ↔ y = x ∨ y ∈ l := by
  rw [(mmInsert_perm l x).mem_iff, List.mem_cons]

theorem length_mmInsert {K V : Type} [LinearOrder K] (l : List (K × V)) (x : K × V) :
    (mmInsert l x).length = l.length + 1 := by
  rw [(mmInsert_perm l x).length_eq, List.length_cons]

theorem countP_le_one_of_pairwise {α : Type} (p : α → Bool) (l : List α)
    (h : l.Pairwise (fun a b => ¬ (p a = true ∧ p b = true))) : l.countP p ≤ 1 := by
  induction l with
  | nil => simp
  | cons x xs ih =>
    rw [List.pairwise_cons] at h
    by_cases hx : p x = true
    · have hz : xs.countP p = 0 := by
        rw [List.countP_eq_zero]
        intro a ha hpa
        exact h.1 a ha ⟨hx, hpa⟩
      rw [List.countP_cons_of_pos _ _ hx, hz]
    · rw [List.countP_cons_of_neg _ _ hx]
      exact ih h.2

/-! ## Lemmas on pass C -/

section PassC

variable {R : Type}

/-- Induction over pass C: a property of the loop variables that holds at the
start and is kept by every acceptance holds at the end. -/
theorem passCInner_induction (tm : TopologyManager) (reaction_list : List Reaction)
    (max_per_interval : Int) (S : Record R → Prop) (P : GlobalState R → Prop)
    (hstep : ∀ st it reaction, S it → P st →
      reactionAt reaction_list it.2.2.reaction_id = some reaction →
      passCValid tm reaction st it = true → st.reaction_counter < max_per_interval →
      P (passCAccept tm st it)) :
    ∀ (m : List (Record R)) (st st1 : GlobalState R), (∀ it ∈ m, S it) → P st →
      passCInner tm reaction_list max_per_interval m st = some st1 → P st1 := by
  intro m
  induction m with
  | nil =>
    intro st st1 _ hP h
    simp only [passCInner, Option.some.injEq] at h
    exact h ▸ hP
  | cons it rest ih =>
    intro st st1 hS hP h
    have hSrest : ∀ it1 ∈ rest, S it1 := fun it1 h1 => hS it1 (List.mem_cons_of_mem _ h1)
    unfold passCInner at h
    by_cases hc : st.reaction_counter < max_per_interval
    · rw [if_pos hc] at h
      unfold passCBody at h
      cases hr : reactionAt reaction_list it.2.2.reaction_id with
      | none => rw [hr] at h; simp at h
      | some reaction =>
        rw [hr] at h
        by_cases hv : passCValid tm reaction st it = true
        · simp only [hv, if_true] at h
          exact ih _ _ hSrest
            (hstep st it reaction (hS it (List.mem_cons_self _ _)) hP hr hv hc) h
        · simp only [hv] at h
          exact ih _ _ hSrest hP h
    · rw [if_neg hc] at h
      simp only [Option.some.injEq] at h
      exact h ▸ hP

theorem passCOuter_induction (tm : TopologyManager) (reaction_list : List Reaction)
    (max_per_interval : Int) (S : Record R → Prop) (P : GlobalState R → Prop)
    (hstep : ∀ st it reaction, S it → P st →
      reactionAt reaction_list it.2.2.reaction_id = some reaction →
      passCValid tm reaction st it = true → st.reaction_counter < max_per_interval →
      P (passCAccept tm st it)) :
    ∀ (maps : List (ReactionMap R)) (st st1 : GlobalState R),
      (∀ m ∈ maps, ∀ it ∈ m, S it) → P st →
      passCOuter tm reaction_list max_per_interval maps st = some st1 → P st1 := by
  intro maps
  induction maps with
  | nil =>
    intro st st1 _ hP h
    simp only [passCOuter, Option.some.injEq] at h
    exact h ▸ hP
  | cons m rest ih =>
    intro st st1 hS hP h
    unfold passCOuter at h
    cases hi : passCInner tm reaction_list max_per_interval m st with
    | none => rw [hi] at h; simp at h
    | some st2 =>
      rw [hi] at h
      exact ih _ _ (fun m1 h1 => hS m1 (List.mem_cons_of_mem _ h1))
        (passCInner_induction tm reaction_list max_per_interval S P hstep m st st2
          (hS m (List.mem_cons_self _ _)) hP hi) h

/-- Induction over pass C, from the initial state to the broadcast map; `S`
is a property of the gathered records. -/
theorem passC_induction_on (tm : TopologyManager) (reaction_list : List Reaction)
    (max_per_interval : Int) (S : Record R → Prop) (P : GlobalState R → Prop)
    (hinit : P (GlobalState.init R))
    (hstep : ∀ st it reaction, S it → P st →
      reactionAt reaction_list it.2.2.reaction_id = some reaction →
      passCValid tm reaction st it = true → st.reaction_counter < max_per_interval →
      P (passCAccept tm st it))
    (global_maps : List (ReactionMap R)) (hS : ∀ m ∈ global_maps, ∀ it ∈ m, S it)
    (out : ReactionMap R)
    (h : passC tm reaction_list max_per_interval global_maps = some out) :
    ∃ st, P st ∧ st.mm = out := by
  unfold passC at h
  cases ho : passCOuter tm reaction_list max_per_interval global_maps (GlobalState.init R) with
  | none => rw [ho] at h; simp at h
  | some st =>
    rw [ho] at h
    simp only [Option.map_some', Option.some.injEq] at h
    exact ⟨st, passCOuter_induction tm reaction_list max_per_interval S P hstep _ _ _ hS
      hinit ho, h⟩

/-- Induction over pass C for a property of the loop variables alone. -/
theorem passC_induction (tm : TopologyManager) (reaction_list : List Reaction)
    (max_per_interval : Int) (P : GlobalState R → Prop)
    (hinit : P (GlobalState.init R))
    (hstep : ∀ st it reaction, P st →
      reactionAt reaction_list it.2.2.reaction_id = some reaction →
      passCValid tm reaction st it = true → st.reaction_counter < max_per_interval →
      P (passCAccept tm st it))
    (global_maps : List (ReactionMap R)) (out : ReactionMap R)
    (h : passC tm reaction_list max_per_interval global_maps = some out) :
    ∃ st, P st ∧ st.mm = out :=
  passC_induction_on tm reaction_list max_per_interval (fun _ => True) P hinit
    (fun st it reaction _ => hstep st it reaction) global_maps (fun _ _ _ _ => trivial) out h

theorem passCInner_isSome (tm : TopologyManager) (reaction_list : List Reaction)
    (max_per_interval : Int) :
    ∀ (m : List (Record R)) (st : GlobalState R),
      (∀ it ∈ m, (reactionAt reaction_list it.2.2.reaction_id).isSome = true) →
      (passCInner tm reaction_list max_per_interval m st).isSome = true := by
  intro m
  induction m with
  | nil => intro st _; simp [passCInner]
  | cons it rest ih =>
    intro st hreg
    unfold passCInner
    by_cases hc : st.reaction_counter < max_per_interval
    · rw [if_pos hc]
      have h1 := hreg it (List.mem_cons_self _ _)
      rw [Option.isSome_iff_exists] at h1
      obtain ⟨reaction, hr⟩ := h1
      have hrest : ∀ it1 ∈ rest, (reactionAt reaction_list it1.2.2.reaction_id).isSome = true :=
        fun it1 h => hreg it1 (List.mem_cons_of_mem _ h)
      unfold passCBody
      rw [hr]
      by_cases hv : passCValid tm reaction st it = true
      · simp only [hv, if_true]
        exact ih _ hrest
      · simp only [hv]
        exact ih _ hrest
    · rw [if_neg hc]; rfl

theorem passCOuter_isSome (tm : TopologyManager) (reaction_list : List Reaction)
    (max_per_interval : Int) :
    ∀ (maps : List (ReactionMap R)) (st : GlobalState R), RegisteredIds reaction_list maps →
      (passCOuter tm reaction_list max_per_interval maps st).isSome = true := by
  intro maps
  induction maps with
  | nil => intro st _; simp [passCOuter]
  | cons m rest ih =>
    intro st hreg
    unfold passCOuter
    have h1 := passCInner_isSome tm reaction_list max_per_interval m st
      (hreg m (List.mem_cons_self _ _))
    rw [Option.isSome_iff_exists] at h1
    obtain ⟨st2, h2⟩ := h1
    rw [h2]
    exact ih st2 (fun m1 h => hreg m1 (List.mem_cons_of_mem _ h))

/-- Pass C returns a map when every gathered record names a registered
reaction. -/
theorem passC_isSome (tm : TopologyManager) (reaction_list : List Reaction)
    (max_per_interval : Int) (global_maps : List (ReactionMap R))
    (hreg : RegisteredIds reaction_list global_maps) :
    (passC tm reaction_list max_per_interval global_maps).isSome = true := by
  unfold passC
  rw [Option.isSome_map']
  exact passCOuter_isSome tm reaction_list max_per_interval global_maps _ hreg

/-- The flag `valid` as a function of the nine tests it combines. -/
theorem passCValid_bool : ∀ (ir im b1 b2 b3 c1 c2 c3 c4 : Bool),
    (let valid0 := true
     let valid1 := if !ir then !b1 else valid0
     let valid2 := if valid1 && !im then (valid1 && !b2) && !b3 else valid1
     let valid3 := if valid2 then (valid2 && (!c1 && !c2)) && (!c3 && !c4) else valid2
     valid3) = true →
    (c1 = false ∧ c2 = false) ∧ (c3 = false ∧ c4 = false) ∧ (im = false → b3 = false) := by
  decide

theorem passCValid_true (tm : TopologyManager) (reaction : Reaction) (st : GlobalState R)
    (it : Record R) (h : passCValid tm reaction st it = true) :
    (it.1 ∉ st.particle_idx ∧ it.2.1 ∉ st.particle_idx) ∧
    (tm.getResId it.1 ∉ st.residue_idx ∧ tm.getResId it.2.1 ∉ st.residue_idx) ∧
    (reaction.intramolecular = false → tm.isSameMolecule it.1 it.2.1 = false) := by
  have hb := passCValid_bool reaction.intraresidual reaction.intramolecular _ _ _ _ _ _ _ h
  have hc : ∀ (x : Int) (l : List Int), l.contains x = false → x ∉ l := by
    intro x l hx hmem
    simp [hmem] at hx
  exact ⟨⟨hc _ _ hb.1.1, hc _ _ hb.1.2⟩, ⟨hc _ _ hb.2.1.1, hc _ _ hb.2.1.2⟩, hb.2.2⟩

/-- The exclusion kept by pass C for particles (`f` the identity, `used` the
set `particle_idx`) and for residues (`f = getResId`, `used` the set
`residue_idx`): inserting a record whose endpoints are not yet used keeps the
records pairwise disjoint. -/
theorem exclusive_insert (f : Int → Int) (used : List Int) (mm : ReactionMap R) (it : Record R)
    (hmem : ∀ rec ∈ mm, f rec.1 ∈ used ∧ f rec.2.1 ∈ used)
    (hpw : mm.Pairwise (fun r1 r2 => ∀ x, ¬ (touches f x r1 = true ∧ touches f x r2 = true)))
    (ha : f it.1 ∉ used) (hb : f it.2.1 ∉ used) :
    (∀ rec ∈ mmInsert mm (it.1, (it.2.1, it.2.2)),
        f rec.1 ∈ f it.2.1 :: f it.1 :: used ∧ f rec.2.1 ∈ f it.2.1 :: f it.1 :: used) ∧
    (mmInsert mm (it.1, (it.2.1, it.2.2))).Pairwise
      (fun r1 r2 => ∀ x, ¬ (touches f x r1 = true ∧ touches f x r2 = true)) := by
  constructor
  · intro rec hrec
    rw [mem_mmInsert] at hrec
    rcases hrec with rfl | hrec
    · simp
    · have := hmem rec hrec
      simp [this.1, this.2]
  · have hsymm : ∀ {r1 r2 : Record R},
        (∀ x, ¬ (touches f x r1 = true ∧ touches f x r2 = true)) →
        (∀ x, ¬ (touches f x r2 = true ∧ touches f x r1 = true)) :=
      fun h x hx => h x ⟨hx.2, hx.1⟩
    rw [(mmInsert_perm mm _).pairwise_iff hsymm, List.pairwise_cons]
    refine ⟨?_, hpw⟩
    intro rec hrec x hx
    have hm := hmem rec hrec
    simp only [touches, decide_eq_true_eq] at hx
    rcases hx with ⟨h1 | h1, h2 | h2⟩
    · exact ha (h1 ▸ h2 ▸ hm.1)
    · exact ha (h1 ▸ h2 ▸ hm.2)
    · exact hb (h1 ▸ h2 ▸ hm.1)
    · exact hb (h1 ▸ h2 ▸ hm.2)

/-- The invariant of pass C behind particle and residue exclusivity. -/
theorem passC_exclusive (tm : TopologyManager) (reaction_list : List Reaction)
    (max_per_interval : Int) (global_maps : List (ReactionMap R)) (out : ReactionMap R)
    (h : passC tm reaction_list max_per_interval global_maps = some out) :
    out.Pairwise (fun r1 r2 => ∀ x, ¬ (touches id x r1 = true ∧ touches id x r2 = true)) ∧
    out.Pairwise (fun r1 r2 => ∀ x,
      ¬ (touches tm.getResId x r1 = true ∧ touches tm.getResId x r2 = true)) := by
  obtain ⟨st, hP, rfl⟩ := passC_induction tm reaction_list max_per_interval
    (fun st =>
      ((∀ rec ∈ st.mm, id rec.1 ∈ st.particle_idx ∧ id rec.2.1 ∈ st.particle_idx) ∧
        st.mm.Pairwise (fun r1 r2 => ∀ x, ¬ (touches id x r1 = true ∧ touches id x r2 = true))) ∧
      ((∀ rec ∈ st.mm, tm.getResId rec.1 ∈ st.residue_idx ∧
          tm.getResId rec.2.1 ∈ st.residue_idx) ∧
        st.mm.Pairwise (fun r1 r2 => ∀ x,
          ¬ (touches tm.getResId x r1 = true ∧ touches tm.getResId x r2 = true))))
    ⟨⟨(fun _ h => absurd h (List.not_mem_nil _)), List.Pairwise.nil⟩, ⟨(fun _ h => absurd h (List.not_mem_nil _)), List.Pairwise.nil⟩⟩
    (by
      intro st it reaction hP _ hv _
      obtain ⟨hp, hr, _⟩ := passCValid_true tm reaction st it hv
      exact ⟨exclusive_insert id st.particle_idx st.mm it hP.1.1 hP.1.2 hp.1 hp.2,
        exclusive_insert tm.getResId st.residue_idx st.mm it hP.2.1 hP.2.2 hr.1 hr.2⟩)
    global_maps out h
  exact ⟨hP.1.2, hP.2.2⟩

theorem passCInner_full (tm : TopologyManager) (reaction_list : List Reaction)
    (max_per_interval : Int) (m : List (Record R)) (st : GlobalState R)
    (h : ¬ st.reaction_counter < max_per_interval) :
    passCInner tm reaction_list max_per_interval m st = some st := by
  cases m with
  | nil => rfl
  | cons it rest => unfold passCInner; rw [if_neg h]

theorem passCOuter_full (tm : TopologyManager) (reaction_list : List Reaction)
    (max_per_interval : Int) (maps : List (ReactionMap R)) (st : GlobalState R)
    (h : ¬ st.reaction_counter < max_per_interval) :
    passCOuter tm reaction_list max_per_interval maps st = some st := by
  induction maps with
  | nil => rfl
  | cons m rest ih =>
    unfold passCOuter
    rw [passCInner_full tm reaction_list max_per_interval m st h]
    exact ih

theorem passCOuter_skip_empty (tm : TopologyManager) (reaction_list : List Reaction)
    (max_per_interval : Int) (n : Nat) (maps : List (ReactionMap R)) (st : GlobalState R) :
    passCOuter tm reaction_list max_per_interval (List.replicate n [] ++ maps) st =
      passCOuter tm reaction_list max_per_interval maps st := by
  induction n with
  | zero => simp
  | succ k ih =>
    rw [List.replicate_succ, List.cons_append, passCOuter]
    simp only [passCInner]
    exact ih

theorem passCValid_init (tm : TopologyManager) (reaction : Reaction) (it : Record R)
    (h : reaction.intramolecular = false → tm.isSameMolecule it.1 it.2.1 = false) :
    passCValid tm reaction (GlobalState.init R) it = true := by
  have hb : ∀ (ir im b3 : Bool), (im = false → b3 = false) →
      (let valid0 := true
       let valid1 := if !ir then !false else valid0
       let valid2 := if valid1 && !im then (valid1 && !false) && !b3 else valid1
       let valid3 := if valid2 then (valid2 && (!false && !false)) && (!false && !false)
         else valid2
       valid3) = true := by decide
  exact hb reaction.intraresidual reaction.intramolecular _ h

end PassC

/-! ## Lemmas on the selection of uniqueA and uniqueB -/

section Selection

variable {R : Type} [LinearOrder R]

theorem mmInsert_sorted {V : Type} (l : List (R × V)) (x : R × V)
    (h : l.Pairwise (fun a b => a.1 ≤ b.1)) :
    (mmInsert l x).Pairwise (fun a b => a.1 ≤ b.1) := by
  induction l with
  | nil => simp [mmInsert]
  | cons y ys ih =>
    rw [List.pairwise_cons] at h
    unfold mmInsert
    by_cases hlt : x.1 < y.1
    · rw [if_pos hlt, List.pairwise_cons]
      refine ⟨?_, List.pairwise_cons.mpr h⟩
      intro z hz
      rcases List.mem_cons.mp hz with rfl | hz
      · exact le_of_lt hlt
      · exact le_trans (le_of_lt hlt) (h.1 z hz)
    · rw [if_neg hlt, List.pairwise_cons]
      refine ⟨?_, ih h.2⟩
      intro z hz
      rcases (mem_mmInsert ys x z).mp hz with rfl | hz
      · exact not_lt.mp hlt
      · exact h.1 z hz

/-- The two components of `nearestScan` are independent folds. -/
theorem nearestScan_eq (max_rc0 : R) (candidates : List (Record R)) :
    nearestScan max_rc0 candidates =
      (candidates.foldl (fun a jt =>
          if jt.2.2.reaction_r_sqr < a then jt.2.2.reaction_r_sqr else a) max_rc0,
        candidates.foldl (fun acc jt =>
          mmInsert acc (jt.2.2.reaction_r_sqr, (jt.2.1, jt.2.2))) []) := by
  unfold nearestScan
  generalize ([] : List (R × (Int × ReactionDef R))) = acc0
  induction candidates generalizing max_rc0 acc0 with
  | nil => rfl
  | cons jt rest ih => simp only [List.foldl_cons]; exact ih _ _

theorem minFold_le (candidates : List (Record R)) (a : R) :
    candidates.foldl (fun a jt =>
        if jt.2.2.reaction_r_sqr < a then jt.2.2.reaction_r_sqr else a) a ≤ a ∧
    ∀ jt ∈ candidates, candidates.foldl (fun a jt =>
        if jt.2.2.reaction_r_sqr < a then jt.2.2.reaction_r_sqr else a) a
          ≤ jt.2.2.reaction_r_sqr := by
  induction candidates generalizing a with
  | nil => simp
  | cons c rest ih =>
    simp only [List.foldl_cons]
    have h1 := ih (if c.2.2.reaction_r_sqr < a then c.2.2.reaction_r_sqr else a)
    have hle : (if c.2.2.reaction_r_sqr < a then c.2.2.reaction_r_sqr else a) ≤ a ∧
        (if c.2.2.reaction_r_sqr < a then c.2.2.reaction_r_sqr else a)
          ≤ c.2.2.reaction_r_sqr := by
      split
      · rename_i hlt; exact ⟨le_of_lt hlt, le_refl _⟩
      · rename_i hlt; exact ⟨le_refl _, not_lt.mp hlt⟩
    refine ⟨le_trans h1.1 hle.1, ?_⟩
    intro jt hjt
    rcases List.mem_cons.mp hjt with rfl | hjt
    · exact le_trans h1.1 hle.2
    · exact h1.2 jt hjt

theorem foldl_mmInsert_perm {α K V : Type} [LinearOrder K] (f : α → K × V) (l : List α)
    (acc : List (K × V)) :
    (l.foldl (fun acc x => mmInsert acc (f x)) acc).Perm (acc ++ l.map f) := by
  induction l generalizing acc with
  | nil => simp
  | cons c rest ih =>
    simp only [List.foldl_cons, List.map_cons]
    refine (ih _).trans ?_
    refine ((mmInsert_perm acc _).append_right _).trans ?_
    simp only [List.cons_append]
    exact List.perm_middle.symm

theorem sortFold_perm (candidates : List (Record R)) (acc : List (R × (Int × ReactionDef R))) :
    (candidates.foldl (fun acc jt =>
        mmInsert acc (jt.2.2.reaction_r_sqr, (jt.2.1, jt.2.2))) acc).Perm
      (acc ++ candidates.map (fun jt => (jt.2.2.reaction_r_sqr, (jt.2.1, jt.2.2)))) :=
  foldl_mmInsert_perm (fun jt : Record R => (jt.2.2.reaction_r_sqr, (jt.2.1, jt.2.2)))
    candidates acc

theorem sortFold_sorted (candidates : List (Record R)) (acc : List (R × (Int × ReactionDef R)))
    (h : acc.Pairwise (fun a b => a.1 ≤ b.1)) :
    (candidates.foldl (fun acc jt =>
        mmInsert acc (jt.2.2.reaction_r_sqr, (jt.2.1, jt.2.2))) acc).Pairwise
      (fun a b => a.1 ≤ b.1) := by
  induction candidates generalizing acc with
  | nil => simpa using h
  | cons c rest ih =>
    simp only [List.foldl_cons]
    exact ih _ (mmInsert_sorted acc _ h)

/-- In a key-ordered list bounded below by `m`, the entries with key `m` come
first. -/
theorem sorted_bucket_prefix {V : Type} (l : List (R × V)) (m : R)
    (hs : l.Pairwise (fun a b => a.1 ≤ b.1)) (hm : ∀ e ∈ l, m ≤ e.1) (i : Nat)
    (hi : i < mmCount l m) : ∃ e, l[i]? = some e ∧ e.1 = m := by
  induction l generalizing i with
  | nil => simp [mmCount] at hi
  | cons x xs ih =>
    rw [List.pairwise_cons] at hs
    unfold mmCount at hi
    by_cases hx : x.1 = m
    · rw [List.countP_cons_of_pos _ _ (by simpa using hx)] at hi
      cases i with
      | zero => exact ⟨x, by simp, hx⟩
      | succ j =>
        simp only [List.getElem?_cons_succ]
        exact ih hs.2 (fun e he => hm e (List.mem_cons_of_mem _ he)) j (by
          unfold mmCount; omega)
    · exfalso
      rw [List.countP_cons_of_neg _ _ (by simpa using hx)] at hi
      have hz : xs.countP (fun e => decide (e.1 = m)) = 0 := by
        rw [List.countP_eq_zero]
        intro e he
        simp only [decide_eq_true_eq]
        intro hem
        have h1 := hs.1 e he
        have h2 := hm x (List.mem_cons_self _ _)
        rw [hem] at h1
        exact hx (le_antisymm h1 h2)
      omega

theorem lowerBound_zero {V : Type} (l : List (R × V)) (m : R) (hm : ∀ e ∈ l, m ≤ e.1) :
    lowerBound l m = 0 := by
  cases l with
  | nil => rfl
  | cons x xs =>
    unfold lowerBound
    rw [List.findIdx_cons]
    have : ¬ x.1 < m := not_lt.mpr (hm x (List.mem_cons_self _ _))
    simp [this]

theorem sorted_head_le {V : Type} (l : List (R × V))
    (hs : l.Pairwise (fun a b => a.1 ≤ b.1)) (e : R × V) (he : l[0]? = some e) :
    ∀ d ∈ l, e.1 ≤ d.1 := by
  cases l with
  | nil => simp at he
  | cons x xs =>
    simp only [List.getElem?_cons_zero, Option.some.injEq] at he
    subst he
    intro d hd
    rcases List.mem_cons.mp hd with rfl | hd
    · exact le_refl _
    · exact (List.pairwise_cons.mp hs).1 d hd

theorem nearestPick_spec [NatCast R] {σ : Type} (rng : σ → Int → Int × σ) (hrng : RngInRange rng)
    (s : σ) (candidates : List (Record R)) (hne : candidates ≠ []) :
    ∃ jt ∈ candidates, ∃ s1, nearestPick rng s candidates = some ((jt.2.1, jt.2.2), s1) ∧
      ∀ d ∈ candidates, jt.2.2.reaction_r_sqr ≤ d.2.2.reaction_r_sqr := by
  unfold nearestPick
  rw [nearestScan_eq]
  simp only
  generalize hmax : candidates.foldl (fun a jt =>
          if jt.2.2.reaction_r_sqr < a then jt.2.2.reaction_r_sqr else a) (maxRcInit R) = max_rc
  generalize hrc : candidates.foldl (fun acc jt =>
          mmInsert acc (jt.2.2.reaction_r_sqr, (jt.2.1, jt.2.2))) [] = rc_idx
  have hperm := sortFold_perm candidates []
  have hsorted := sortFold_sorted candidates [] List.Pairwise.nil
  rw [hrc] at hperm hsorted
  rw [List.nil_append] at hperm
  have hfrom : ∀ e ∈ rc_idx, ∃ jt ∈ candidates, e = (jt.2.2.reaction_r_sqr, (jt.2.1, jt.2.2)) := by
    intro e he
    have := (hperm.mem_iff).mp he
    rw [List.mem_map] at this
    obtain ⟨jt, hjt, rfl⟩ := this
    exact ⟨jt, hjt, rfl⟩
  have hinto : ∀ d ∈ candidates, (d.2.2.reaction_r_sqr, (d.2.1, d.2.2)) ∈ rc_idx := by
    intro d hd
    exact (hperm.mem_iff).mpr (List.mem_map.mpr ⟨d, hd, rfl⟩)
  have hmin : ∀ e ∈ rc_idx, max_rc ≤ e.1 := by
    intro e he
    obtain ⟨jt, hjt, rfl⟩ := hfrom e he
    rw [← hmax]
    exact (minFold_le candidates _).2 jt hjt
  rw [lowerBound_zero rc_idx max_rc hmin]
  generalize hpick : (if ((mmCount rc_idx max_rc : Nat) : Int) > 1
      then rng s (((mmCount rc_idx max_rc : Nat) : Int) - 1) else (0, s)) = pick
  have hidx : 0 ≤ pick.1 ∧ (pick.1.toNat = 0 ∨ pick.1.toNat < mmCount rc_idx max_rc) := by
    by_cases hb : ((mmCount rc_idx max_rc : Nat) : Int) > 1
    · rw [if_pos hb] at hpick
      have := hrng s (((mmCount rc_idx max_rc : Nat) : Int) - 1) (by omega)
      rw [hpick] at this
      exact ⟨this.1, Or.inr (by omega)⟩
    · rw [if_neg hb] at hpick
      rw [← hpick]
      simp
  have hlen : 0 < rc_idx.length := by
    rw [hperm.length_eq, List.length_map]
    exact List.length_pos.mpr hne
  have hsel : ∃ e, rc_idx[pick.1.toNat]? = some e ∧ ∀ d ∈ rc_idx, e.1 ≤ d.1 := by
    rcases hidx.2 with h0 | hlt
    · rw [h0]
      have : rc_idx[0]? = some (rc_idx[0]) := List.getElem?_eq_getElem hlen
      exact ⟨_, this, sorted_head_le rc_idx hsorted _ this⟩
    · obtain ⟨e, he, hem⟩ := sorted_bucket_prefix rc_idx max_rc hsorted hmin _ hlt
      exact ⟨e, he, fun d hd => hem ▸ hmin d hd⟩
  obtain ⟨e, he, hle⟩ := hsel
  have hderef : derefAt rc_idx 0 pick.1 = some e := by
    unfold derefAt
    simp only [Nat.cast_zero, zero_add]
    rw [if_pos hidx.1]
    exact he
  rw [hderef]
  obtain ⟨jt, hjt, rfl⟩ := hfrom e (List.getElem?_mem he)
  exact ⟨jt, hjt, pick.2, rfl, fun d hd => hle _ (hinto d hd)⟩

theorem randomPick_spec {R : Type} {σ : Type} (rng : σ → Int → Int × σ) (hrng : RngInRange rng)
    (s : σ) (candidates : List (Record R)) (hne : candidates ≠ []) :
    ∃ jt ∈ candidates, ∃ s1, randomPick rng s candidates = some ((jt.2.1, jt.2.2), s1) := by
  unfold randomPick
  simp only [List.length_map]
  have hlen : 0 < candidates.length := List.length_pos.mpr hne
  have h := hrng s ((candidates.length : Nat) : Int) (by omega)
  generalize rng s ((candidates.length : Nat) : Int) = pick at h
  have hlt : pick.1.toNat < candidates.length := by omega
  unfold vectorAt
  rw [if_pos h.1, List.getElem?_map, List.getElem?_eq_getElem hlt]
  exact ⟨candidates[pick.1.toNat], List.getElem_mem _, pick.2, rfl⟩

theorem loopKeys_chosen {R σ : Type}
    (body : ReactionMap R × σ → Int → Option (ReactionMap R × σ))
    (key : Record R → Int) (Q : Record R → Prop) (ks : List Int)
    (hbody : ∀ st k, k ∈ ks →
      ∃ rec s1, body st k = some (mmInsert st.1 rec, s1) ∧ key rec = k ∧ Q rec)
    (st : ReactionMap R × σ) :
    ∃ out s1 chosen, loopKeys body ks st = some (out, s1) ∧ out.Perm (st.1 ++ chosen) ∧
      chosen.map key = ks ∧ ∀ rec ∈ chosen, Q rec := by
  induction ks generalizing st with
  | nil => exact ⟨st.1, st.2, [], rfl, by rw [List.append_nil], rfl, fun _ h => absurd h (List.not_mem_nil _)⟩
  | cons k ks ih =>
    obtain ⟨rec, s1, hb, hkey, hQ⟩ := hbody st k (List.mem_cons_self _ _)
    obtain ⟨out, s2, chosen, hloop, hperm, hmap, hall⟩ :=
      ih (fun st1 k1 hk1 => hbody st1 k1 (List.mem_cons_of_mem _ hk1)) (mmInsert st.1 rec, s1)
    refine ⟨out, s2, rec :: chosen, ?_, ?_, ?_, ?_⟩
    · unfold loopKeys
      rw [hb]
      exact hloop
    · refine hperm.trans ?_
      refine ((mmInsert_perm st.1 rec).append_right _).trans ?_
      simp only [List.cons_append]
      exact List.perm_middle.symm
    · simp [hkey, hmap]
    · intro r hr
      rcases List.mem_cons.mp hr with rfl | hr
      · exact hQ
      · exact hall r hr

theorem mem_equalRange {K V : Type} [DecidableEq K] (m : List (K × V)) (k : K) (e : K × V) :
    e ∈ equalRange m k ↔ e ∈ m ∧ e.1 = k := by
  simp [equalRange]

theorem uniqueAStep_spec [NatCast R] {σ : Type} (is_nearest : Bool) (toInt : Int → Int)
    (rng : σ → Int → Int × σ) (hrng : RngInRange rng) (m : ReactionMap R)
    (st : ReactionMap R × σ) (k : Int) (hk : toInt k = k) (hex : ∃ rec ∈ m, rec.1 = k) :
    ∃ rec s1, uniqueAStep is_nearest toInt rng m st k = some (mmInsert st.1 rec, s1) ∧
      rec.1 = k ∧ (rec ∈ m ∧ (is_nearest = true →
        ∀ c ∈ m, c.1 = k → rec.2.2.reaction_r_sqr ≤ c.2.2.reaction_r_sqr)) := by
  obtain ⟨rec0, hrec0, hkey0⟩ := hex
  have hne : equalRange m k ≠ [] :=
    List.ne_nil_of_mem ((mem_equalRange m k rec0).mpr ⟨hrec0, hkey0⟩)
  unfold uniqueAStep
  simp only [hk]
  cases is_nearest with
  | true =>
    obtain ⟨jt, hjt, s1, hpick, hmin⟩ := nearestPick_spec rng hrng st.2 _ hne
    rw [mem_equalRange] at hjt
    simp only [if_true, hpick]
    refine ⟨jt, s1, ?_, hjt.2, hjt.1, fun _ c hc hck => hmin c ((mem_equalRange m k c).mpr ⟨hc, hck⟩)⟩
    rw [← hjt.2]
  | false =>
    obtain ⟨jt, hjt, s1, hpick⟩ := randomPick_spec rng hrng st.2 _ hne
    rw [mem_equalRange] at hjt
    simp only [Bool.false_eq_true, if_false, List.length_pos.mpr hne, if_true, hpick]
    refine ⟨jt, s1, ?_, hjt.2, hjt.1, by simp⟩
    rw [← hjt.2]

theorem uniqueA_eq_loop [NatCast R] {σ : Type} (is_nearest : Bool) (toInt : Int → Int)
    (lookupRealParticle : Int → Bool) (hashOrder : List Int → List Int)
    (rng : σ → Int → Int × σ) (m : ReactionMap R) (s : σ) :
    uniqueA is_nearest toInt lookupRealParticle hashOrder rng m s =
      loopKeys (uniqueAStep is_nearest toInt rng m)
        (hashOrder ((m.filter (fun it => lookupRealParticle it.1)).map (fun it => it.1)))
        ([], s) := by
  unfold uniqueA
  simp only
  split
  · rfl
  · rename_i h
    have : hashOrder ((m.filter (fun it => lookupRealParticle it.1)).map (fun it => it.1)) = [] :=
      List.length_eq_zero.mp (by omega)
    rw [this]
    rfl

/-- The content of the map after `uniqueA`: a rearrangement of one chosen
record per element of `a_indexes`. -/
theorem uniqueA_chosen [NatCast R] {σ : Type} (is_nearest : Bool) (toInt : Int → Int)
    (lookupRealParticle : Int → Bool) (hashOrder : List Int → List Int)
    (rng : σ → Int → Int × σ) (m : ReactionMap R) (s : σ)
    (hrng : RngInRange rng) (hhash : EnumeratesSet hashOrder)
    (hint : ∀ rec ∈ m, toInt rec.1 = rec.1) :
    ∃ out s1 chosen,
      uniqueA is_nearest toInt lookupRealParticle hashOrder rng m s = some (out, s1) ∧
      out.Perm chosen ∧
      chosen.map (fun rec => rec.1) =
        hashOrder ((m.filter (fun it => lookupRealParticle it.1)).map (fun it => it.1)) ∧
      ∀ rec ∈ chosen, rec ∈ m ∧ (is_nearest = true →
        ∀ c ∈ m, c.1 = rec.1 → rec.2.2.reaction_r_sqr ≤ c.2.2.reaction_r_sqr) := by
  rw [uniqueA_eq_loop]
  have hbody : ∀ (st : ReactionMap R × σ) k,
      k ∈ hashOrder ((m.filter (fun it => lookupRealParticle it.1)).map (fun it => it.1)) →
      ∃ rec s1, uniqueAStep is_nearest toInt rng m st k = some (mmInsert st.1 rec, s1) ∧
        (fun rec : Record R => rec.1) rec = k ∧ (rec ∈ m ∧ (is_nearest = true →
          ∀ c ∈ m, c.1 = rec.1 → rec.2.2.reaction_r_sqr ≤ c.2.2.reaction_r_sqr)) := by
    intro st k hk
    rw [(hhash _).2, List.mem_map] at hk
    obtain ⟨rec, hrec, rfl⟩ := hk
    rw [List.mem_filter] at hrec
    obtain ⟨r, s1, h1, h2, h3, h4⟩ := uniqueAStep_spec is_nearest toInt rng hrng m st rec.1
      (hint rec hrec.1) ⟨rec, hrec.1, rfl⟩
    exact ⟨r, s1, h1, h2, h3, fun hn c hc hck => h4 hn c hc (hck.trans h2)⟩
  obtain ⟨out, s1, chosen, h1, h2, h3, h4⟩ := loopKeys_chosen
    (uniqueAStep is_nearest toInt rng m) (fun rec => rec.1) _ _ hbody ([], s)
  exact ⟨out, s1, chosen, h1, by simpa using h2, h3, h4⟩

theorem mem_reverseCandidates {R : Type} (lookupRealParticle : Int → Bool) (m : ReactionMap R)
    (e : Record R) :
    e ∈ reverseCandidates lookupRealParticle m ↔
      ∃ it ∈ m, lookupRealParticle it.2.1 = true ∧ e = (it.2.1, (it.1, it.2.2)) := by
  unfold reverseCandidates
  rw [(foldl_mmInsert_perm (fun it : Record R => (it.2.1, (it.1, it.2.2))) _ []).mem_iff]
  simp only [List.nil_append, List.mem_map, List.mem_filter]
  constructor
  · rintro ⟨it, ⟨h1, h2⟩, rfl⟩
    exact ⟨it, h1, h2, rfl⟩
  · rintro ⟨it, h1, h2, rfl⟩
    exact ⟨it, ⟨h1, h2⟩, rfl⟩

theorem uniqueBStep_spec [NatCast R] {σ : Type} (is_nearest : Bool) (toInt : Int → Int)
    (lookupRealParticle : Int → Bool)
    (rng : σ → Int → Int × σ) (hrng : RngInRange rng) (m : ReactionMap R)
    (st : ReactionMap R × σ) (k : Int) (hk : toInt k = k)
    (hex : ∃ rec ∈ m, rec.2.1 = k) (hown : lookupRealParticle k = true) :
    ∃ rec s1, uniqueBStep is_nearest toInt rng (reverseCandidates lookupRealParticle m) st k =
        some (mmInsert st.1 rec, s1) ∧
      rec.2.1 = k ∧ (rec ∈ m ∧ (is_nearest = true →
        ∀ c ∈ m, c.2.1 = k → rec.2.2.reaction_r_sqr ≤ c.2.2.reaction_r_sqr)) := by
  obtain ⟨rec0, hrec0, hkey0⟩ := hex
  have hinto : ∀ c ∈ m, c.2.1 = k →
      (c.2.1, (c.1, c.2.2)) ∈ equalRange (reverseCandidates lookupRealParticle m) k := by
    intro c hc hck
    rw [mem_equalRange, mem_reverseCandidates]
    exact ⟨⟨c, hc, hck ▸ hown, rfl⟩, hck⟩
  have hne : equalRange (reverseCandidates lookupRealParticle m) k ≠ [] :=
    List.ne_nil_of_mem (hinto rec0 hrec0 hkey0)
  have hfrom : ∀ jt ∈ equalRange (reverseCandidates lookupRealParticle m) k,
      (jt.2.1, (k, jt.2.2)) ∈ m := by
    intro jt hjt
    rw [mem_equalRange, mem_reverseCandidates] at hjt
    obtain ⟨⟨it, hit, _, rfl⟩, hjk⟩ := hjt
    simp only at hjk ⊢
    rw [← hjk]
    exact hit
  unfold uniqueBStep
  simp only [hk]
  cases is_nearest with
  | true =>
    obtain ⟨jt, hjt, s1, hpick, hmin⟩ := nearestPick_spec rng hrng st.2 _ hne
    simp only [if_true, hpick]
    exact ⟨(jt.2.1, (k, jt.2.2)), s1, rfl, rfl, hfrom jt hjt,
      fun _ c hc hck => hmin (c.2.1, (c.1, c.2.2)) (hinto c hc hck)⟩
  | false =>
    obtain ⟨jt, hjt, s1, hpick⟩ := randomPick_spec rng hrng st.2 _ hne
    simp only [Bool.false_eq_true, if_false, hpick]
    exact ⟨(jt.2.1, (k, jt.2.2)), s1, rfl, rfl, hfrom jt hjt, by simp⟩

theorem uniqueB_eq_loop [NatCast R] {σ : Type} (is_nearest : Bool) (toInt : Int → Int)
    (lookupRealParticle : Int → Bool) (hashOrder : List Int → List Int)
    (rng : σ → Int → Int × σ) (m : ReactionMap R) (s : σ) :
    uniqueB is_nearest toInt lookupRealParticle hashOrder rng m s =
      loopKeys (uniqueBStep is_nearest toInt rng (reverseCandidates lookupRealParticle m))
        (hashOrder ((m.filter (fun it => lookupRealParticle it.2.1)).map (fun it => it.2.1)))
        ([], s) := by
  unfold uniqueB
  simp only
  split
  · rfl
  · rename_i h
    have : hashOrder
        ((m.filter (fun it => lookupRealParticle it.2.1)).map (fun it => it.2.1)) = [] :=
      List.length_eq_zero.mp (by omega)
    rw [this]
    rfl

/-- The content of the map after `uniqueB`: a rearrangement of one chosen
record per element of `b_indexes`. -/
theorem uniqueB_chosen [NatCast R] {σ : Type} (is_nearest : Bool) (toInt : Int → Int)
    (lookupRealParticle : Int → Bool) (hashOrder : List Int → List Int)
    (rng : σ → Int → Int × σ) (m : ReactionMap R) (s : σ)
    (hrng : RngInRange rng) (hhash : EnumeratesSet hashOrder)
    (hint : ∀ rec ∈ m, toInt rec.2.1 = rec.2.1) :
    ∃ out s1 chosen,
      uniqueB is_nearest toInt lookupRealParticle hashOrder rng m s = some (out, s1) ∧
      out.Perm chosen ∧
      chosen.map (fun rec => rec.2.1) =
        hashOrder ((m.filter (fun it => lookupRealParticle it.2.1)).map (fun it => it.2.1)) ∧
      ∀ rec ∈ chosen, rec ∈ m ∧ (is_nearest = true →
        ∀ c ∈ m, c.2.1 = rec.2.1 → rec.2.2.reaction_r_sqr ≤ c.2.2.reaction_r_sqr) := by
  rw [uniqueB_eq_loop]
  have hbody : ∀ (st : ReactionMap R × σ) k,
      k ∈ hashOrder ((m.filter (fun it => lookupRealParticle it.2.1)).map (fun it => it.2.1)) →
      ∃ rec s1, uniqueBStep is_nearest toInt rng (reverseCandidates lookupRealParticle m) st k =
          some (mmInsert st.1 rec, s1) ∧
        (fun rec : Record R => rec.2.1) rec = k ∧ (rec ∈ m ∧ (is_nearest = true →
          ∀ c ∈ m, c.2.1 = rec.2.1 → rec.2.2.reaction_r_sqr ≤ c.2.2.reaction_r_sqr)) := by
    intro st k hk
    rw [(hhash _).2, List.mem_map] at hk
    obtain ⟨rec, hrec, rfl⟩ := hk
    rw [List.mem_filter] at hrec
    obtain ⟨r, s1, h1, h2, h3, h4⟩ := uniqueBStep_spec is_nearest toInt lookupRealParticle rng
      hrng m st rec.2.1 (hint rec hrec.1) ⟨rec, hrec.1, rfl⟩ hrec.2
    exact ⟨r, s1, h1, h2, h3, fun hn c hc hck => h4 hn c hc (hck.trans h2)⟩
  obtain ⟨out, s1, chosen, h1, h2, h3, h4⟩ := loopKeys_chosen
    (uniqueBStep is_nearest toInt rng (reverseCandidates lookupRealParticle m))
    (fun rec => rec.2.1) _ _ hbody ([], s)
  exact ⟨out, s1, chosen, h1, by simpa using h2, h3, h4⟩

/-- One record per visited key: the count of a key among the chosen records. -/
theorem countP_key_of_chosen {R : Type} (key : Record R → Int) (out chosen : ReactionMap R)
    (ks : List Int) (hperm : out.Perm chosen) (hmap : chosen.map key = ks) (hnd : ks.Nodup)
    (k : Int) (hk : k ∈ ks) : out.countP (fun rec => decide (key rec = k)) = 1 := by
  rw [hperm.countP_eq]
  have h1 : ks.count k = 1 := List.count_eq_one_of_mem hnd hk
  rw [← hmap, List.count_eq_countP, List.countP_map] at h1
  rw [← h1]
  apply List.countP_congr
  intro rec _
  simp

/-- The bucket of `nearestPick` holds at most the candidates that attain the
minimal squared distance. -/
theorem bucket_le_minAttained (max_rc0 : R) (candidates : List (Record R)) :
    mmCount (nearestScan max_rc0 candidates).2 (nearestScan max_rc0 candidates).1
      ≤ minAttained candidates := by
  rw [nearestScan_eq]
  simp only
  unfold mmCount minAttained
  rw [(sortFold_perm candidates []).countP_eq, List.nil_append, List.countP_map]
  apply List.countP_mono_left
  intro c _ hc
  simp only [Function.comp_apply, decide_eq_true_eq] at hc
  simp only [List.all_eq_true, decide_eq_true_eq]
  intro d hd
  rw [hc]
  exact (minFold_le candidates max_rc0).2 d hd

end Selection

/-! ## Lemmas on the generator -/

theorem rngZero_inRange : RngInRange rngZero := by
  intro s N hN
  exact ⟨le_refl _, hN⟩

theorem rngCount_inRange : RngInRange rngCount := by
  intro s N hN
  exact ⟨Int.emod_nonneg _ (ne_of_gt hN), Int.emod_lt_of_pos _ hN⟩

theorem orderRev_enumerates : EnumeratesSet orderRev := by
  intro l
  exact ⟨List.nodup_reverse.mpr (List.nodup_dedup l), fun x => by simp [orderRev]⟩

theorem loopKeys_eq_zero {R σ : Type}
    (body : ReactionMap R × σ → Int → Option (ReactionMap R × σ))
    (body0 : ReactionMap R × Unit → Int → Option (ReactionMap R × Unit))
    (ks : List Int)
    (hbody : ∀ o s k, k ∈ ks → body (o, s) k = (body0 (o, ()) k).map (fun r => (r.1, s)))
    (o : ReactionMap R) (s : σ) :
    loopKeys body ks (o, s) = (loopKeys body0 ks (o, ())).map (fun r => (r.1, s)) := by
  induction ks generalizing o with
  | nil => rfl
  | cons k ks ih =>
    unfold loopKeys
    rw [hbody o s k (List.mem_cons_self _ _)]
    cases h0 : body0 (o, ()) k with
    | none => rfl
    | some r =>
      simp only [Option.map_some']
      exact ih (fun o1 s1 k1 hk1 => hbody o1 s1 k1 (List.mem_cons_of_mem _ hk1)) r.1

section Determinism

variable {R : Type} [LinearOrder R] [NatCast R]

/-- With a bucket of at most one entry `nearestPick` does not call the
generator. -/
theorem nearestPick_eq_zero {σ : Type} (rng : σ → Int → Int × σ) (s : σ)
    (candidates : List (Record R)) (h : minAttained candidates ≤ 1) :
    nearestPick rng s candidates =
      (nearestPick rngZero () candidates).map (fun r => (r.1, s)) := by
  have hb := bucket_le_minAttained (maxRcInit R) candidates
  unfold nearestPick
  simp only
  have hnot : ¬ (((mmCount (nearestScan (maxRcInit R) candidates).2
      (nearestScan (maxRcInit R) candidates).1 : Nat) : Int) > 1) := by omega
  rw [if_neg hnot, if_neg hnot]
  cases derefAt (nearestScan (maxRcInit R) candidates).2
      (lowerBound (nearestScan (maxRcInit R) candidates).2
        (nearestScan (maxRcInit R) candidates).1) 0 with
  | none => rfl
  | some e => rfl

theorem uniqueA_eq_zero {σ : Type} (toInt : Int → Int)
    (lookupRealParticle : Int → Bool) (hashOrder : List Int → List Int)
    (rng : σ → Int → Int × σ) (m : ReactionMap R) (s : σ)
    (hhash : EnumeratesSet hashOrder) (hint : ∀ rec ∈ m, toInt rec.1 = rec.1)
    (hmin : ∀ rec ∈ m, minAttained (equalRange m rec.1) = 1) :
    uniqueA true toInt lookupRealParticle hashOrder rng m s =
      (uniqueA true toInt lookupRealParticle hashOrder rngZero m ()).map
        (fun r => (r.1, s)) := by
  rw [uniqueA_eq_loop, uniqueA_eq_loop]
  apply loopKeys_eq_zero
  intro o s1 k hk
  rw [(hhash _).2, List.mem_map] at hk
  obtain ⟨rec, hrec, rfl⟩ := hk
  rw [List.mem_filter] at hrec
  unfold uniqueAStep
  simp only [hint rec hrec.1, if_true]
  rw [nearestPick_eq_zero rng s1 _ (le_of_eq (hmin rec hrec.1))]
  cases nearestPick rngZero () (equalRange m rec.1) with
  | none => rfl
  | some r => rfl

theorem uniqueB_eq_zero {σ : Type} (toInt : Int → Int)
    (lookupRealParticle : Int → Bool) (hashOrder : List Int → List Int)
    (rng : σ → Int → Int × σ) (m : ReactionMap R) (s : σ)
    (hhash : EnumeratesSet hashOrder) (hint : ∀ rec ∈ m, toInt rec.2.1 = rec.2.1)
    (hmin : ∀ rec ∈ m, lookupRealParticle rec.2.1 = true →
      minAttained (equalRange (reverseCandidates lookupRealParticle m) rec.2.1) = 1) :
    uniqueB true toInt lookupRealParticle hashOrder rng m s =
      (uniqueB true toInt lookupRealParticle hashOrder rngZero m ()).map
        (fun r => (r.1, s)) := by
  rw [uniqueB_eq_loop, uniqueB_eq_loop]
  apply loopKeys_eq_zero
  intro o s1 k hk
  rw [(hhash _).2, List.mem_map] at hk
  obtain ⟨rec, hrec, rfl⟩ := hk
  rw [List.mem_filter] at hrec
  unfold uniqueBStep
  simp only [hint rec hrec.1, if_true]
  rw [nearestPick_eq_zero rng s1 _ (le_of_eq (hmin rec hrec.1 hrec.2))]
  cases nearestPick rngZero () (equalRange (reverseCandidates lookupRealParticle m) rec.2.1) with
  | none => rfl
  | some r => rfl

end Determinism

/-! ## Lemmas: the outputs are made of input records -/

section Soundness
variable {R : Type}

theorem derefAt_mem {α : Type} (l : List α) (pos : Nat) (off : Int) (e : α)
    (h : derefAt l pos off = some e) : e ∈ l := by
  unfold derefAt at h
  split at h
  · exact List.getElem?_mem h
  · simp at h

theorem vectorAt_mem {α : Type} (v : List α) (idx : Int) (e : α)
    (h : vectorAt v idx = some e) : e ∈ v := by
  unfold vectorAt at h
  split at h
  · exact List.getElem?_mem h
  · simp at h

theorem nearestPick_mem [LinearOrder R] [NatCast R] {σ : Type} (rng : σ → Int → Int × σ) (s : σ)
    (candidates : List (Record R)) (sel : (Int × ReactionDef R) × σ)
    (h : nearestPick rng s candidates = some sel) :
    ∃ jt ∈ candidates, sel.1 = (jt.2.1, jt.2.2) := by
  unfold nearestPick at h
  simp only at h
  split at h
  · simp at h
  · rename_i e he
    have hmem := derefAt_mem _ _ _ _ he
    rw [nearestScan_eq] at hmem
    simp only at hmem
    rw [(sortFold_perm candidates []).mem_iff, List.nil_append, List.mem_map] at hmem
    obtain ⟨jt, hjt, rfl⟩ := hmem
    simp only [Option.some.injEq] at h
    exact ⟨jt, hjt, by rw [← h]⟩

theorem randomPick_mem {σ : Type} (rng : σ → Int → Int × σ) (s : σ)
    (candidates : List (Record R)) (sel : (Int × ReactionDef R) × σ)
    (h : randomPick rng s candidates = some sel) :
    ∃ jt ∈ candidates, sel.1 = (jt.2.1, jt.2.2) := by
  unfold randomPick at h
  simp only at h
  split at h
  · simp at h
  · rename_i e he
    have hmem := vectorAt_mem _ _ _ he
    rw [List.mem_map] at hmem
    obtain ⟨jt, hjt, rfl⟩ := hmem
    simp only [Option.some.injEq] at h
    exact ⟨jt, hjt, by rw [← h]⟩

theorem loopKeys_invariant {α : Type} (body : α → Int → Option α) (P : α → Prop)
    (hbody : ∀ st k st1, body st k = some st1 → P st → P st1) :
    ∀ (ks : List Int) (st st1 : α), loopKeys body ks st = some st1 → P st → P st1 := by
  intro ks
  induction ks with
  | nil =>
    intro st st1 h hP
    simp only [loopKeys, Option.some.injEq] at h
    exact h ▸ hP
  | cons k ks ih =>
    intro st st1 h hP
    unfold loopKeys at h
    cases hb : body st k with
    | none => rw [hb] at h; simp at h
    | some st2 =>
      rw [hb] at h
      exact ih st2 st1 h (hbody st k st2 hb hP)

theorem uniqueAStep_mem [LinearOrder R] [NatCast R] {σ : Type} (is_nearest : Bool)
    (toInt : Int → Int) (rng : σ → Int → Int × σ) (m : ReactionMap R)
    (st st1 : ReactionMap R × σ) (k : Int)
    (h : uniqueAStep is_nearest toInt rng m st k = some st1)
    (hP : ∀ rec ∈ st.1, rec ∈ m) : ∀ rec ∈ st1.1, rec ∈ m := by
  have hins : ∀ (sel : (Int × ReactionDef R) × σ),
      (∃ jt ∈ equalRange m (toInt k), sel.1 = (jt.2.1, jt.2.2)) →
      ∀ rec ∈ mmInsert st.1 (toInt k, (sel.1.1, sel.1.2)), rec ∈ m := by
    rintro sel ⟨jt, hjt, hsel⟩ rec hrec
    rw [mem_equalRange] at hjt
    rcases (mem_mmInsert _ _ _).mp hrec with rfl | hrec
    · rw [hsel, ← hjt.2]
      exact hjt.1
    · exact hP rec hrec
  unfold uniqueAStep at h
  simp only at h
  split at h
  · split at h
    · simp at h
    · rename_i sel hsel
      simp only [Option.some.injEq] at h
      rw [← h]
      exact hins sel (nearestPick_mem rng st.2 _ sel hsel)
  · split at h
    · split at h
      · simp at h
      · rename_i sel hsel
        simp only [Option.some.injEq] at h
        rw [← h]
        exact hins sel (randomPick_mem rng st.2 _ sel hsel)
    · simp only [Option.some.injEq] at h
      rw [← h]
      exact hP

theorem uniqueBStep_mem [LinearOrder R] [NatCast R] {σ : Type} (is_nearest : Bool)
    (toInt : Int → Int) (lookupRealParticle : Int → Bool) (rng : σ → Int → Int × σ)
    (m : ReactionMap R) (st st1 : ReactionMap R × σ) (k : Int)
    (h : uniqueBStep is_nearest toInt rng (reverseCandidates lookupRealParticle m) st k =
      some st1)
    (hP : ∀ rec ∈ st.1, rec ∈ m) : ∀ rec ∈ st1.1, rec ∈ m := by
  have hins : ∀ (sel : (Int × ReactionDef R) × σ),
      (∃ jt ∈ equalRange (reverseCandidates lookupRealParticle m) (toInt k),
        sel.1 = (jt.2.1, jt.2.2)) →
      ∀ rec ∈ mmInsert st.1 (sel.1.1, (toInt k, sel.1.2)), rec ∈ m := by
    rintro sel ⟨jt, hjt, hsel⟩ rec hrec
    rw [mem_equalRange, mem_reverseCandidates] at hjt
    obtain ⟨⟨it, hit, _, rfl⟩, hjk⟩ := hjt
    rcases (mem_mmInsert _ _ _).mp hrec with rfl | hrec
    · rw [hsel, ← hjk]
      exact hit
    · exact hP rec hrec
  unfold uniqueBStep at h
  simp only at h
  split at h
  · split at h
    · simp at h
    · rename_i sel hsel
      simp only [Option.some.injEq] at h
      rw [← h]
      exact hins sel (nearestPick_mem rng st.2 _ sel hsel)
  · split at h
    · simp at h
    · rename_i sel hsel
      simp only [Option.some.injEq] at h
      rw [← h]
      exact hins sel (randomPick_mem rng st.2 _ sel hsel)

/-- Every record of the output of `uniqueA` is a record of its input. -/
theorem uniqueA_subset [LinearOrder R] [NatCast R] {σ : Type} (is_nearest : Bool)
    (toInt : Int → Int) (lookupRealParticle : Int → Bool) (hashOrder : List Int → List Int)
    (rng : σ → Int → Int × σ) (m : ReactionMap R) (s : σ) (out : ReactionMap R) (s1 : σ)
    (h : uniqueA is_nearest toInt lookupRealParticle hashOrder rng m s = some (out, s1)) :
    ∀ rec ∈ out, rec ∈ m := by
  rw [uniqueA_eq_loop] at h
  exact loopKeys_invariant (uniqueAStep is_nearest toInt rng m) (fun st => ∀ rec ∈ st.1, rec ∈ m)
    (fun st k st1 => uniqueAStep_mem is_nearest toInt rng m st st1 k) _ _ _ h
    (fun _ h => absurd h (List.not_mem_nil _))

/-- Every record of the output of `uniqueB` is a record of its input. -/
theorem uniqueB_subset [LinearOrder R] [NatCast R] {σ : Type} (is_nearest : Bool)
    (toInt : Int → Int) (lookupRealParticle : Int → Bool) (hashOrder : List Int → List Int)
    (rng : σ → Int → Int × σ) (m : ReactionMap R) (s : σ) (out : ReactionMap R) (s1 : σ)
    (h : uniqueB is_nearest toInt lookupRealParticle hashOrder rng m s = some (out, s1)) :
    ∀ rec ∈ out, rec ∈ m := by
  rw [uniqueB_eq_loop] at h
  exact loopKeys_invariant
    (uniqueBStep is_nearest toInt rng (reverseCandidates lookupRealParticle m))
    (fun st => ∀ rec ∈ st.1, rec ∈ m)
    (fun st k st1 => uniqueBStep_mem is_nearest toInt lookupRealParticle rng m st st1 k)
    _ _ _ h (fun _ h => absurd h (List.not_mem_nil _))

/-- One iteration of the local loop, by cases: the record is skipped when an
endpoint or the residue of an endpoint is in use; otherwise the behaviour is
undefined when the key is the larger id and `p_order` holds no value, and the
record is emitted in all other cases. -/
theorem localStep_eq (tm : TopologyManager) (st : LocalState R) (it : Record R) :
    localStep tm st it =
      if (st.particle_idx.contains it.1 || st.particle_idx.contains it.2.1) = true ∨
          (st.residue_idx.contains (tm.getResId it.1) ||
            st.residue_idx.contains (tm.getResId it.2.1)) = true then some st
      else if it.1 > it.2.1 ∧ st.p_order = none then none
      else some
        { out := mmInsert st.out (emitted it),
          particle_idx := (emitted it).2.1 :: (emitted it).1 :: st.particle_idx,
          residue_idx := tm.getResId it.2.1 :: tm.getResId it.1 :: st.residue_idx,
          p_order := some it.2.2.order } := by
  obtain ⟨k, b, d⟩ := it
  obtain ⟨rid, rate, rsq, o⟩ := d
  obtain ⟨out, pidx, ridx, po⟩ := st
  unfold localStep flipOrder emitted
  simp only
  by_cases hp : (pidx.contains k || pidx.contains b) = true
  · simp only [hp, if_true, true_or]
  · by_cases hr : (ridx.contains (tm.getResId k) || ridx.contains (tm.getResId b)) = true
    · simp only [hp, hr, if_true, if_false, or_true, Bool.false_eq_true]
    · simp only [hp, hr, if_false, or_self]
      by_cases hsw : k > b
      · cases po with
        | none => simp [hsw]
        | some q => simp [hsw]
      · cases po with
        | none => simp [hsw]
        | some q => simp [hsw]

/-- The records of `out` after one iteration of the local loop. -/
theorem localStep_out (tm : TopologyManager) (st st1 : LocalState R) (it : Record R)
    (h : localStep tm st it = some st1) :
    ∀ rec ∈ st1.out, rec ∈ st.out ∨ (rec.2.2 = it.2.2 ∧
      ((rec.1 = it.1 ∧ rec.2.1 = it.2.1 ∧ ¬ it.1 > it.2.1) ∨
        (rec.1 = it.2.1 ∧ rec.2.1 = it.1 ∧ it.1 > it.2.1))) := by
  intro rec hrec
  rw [localStep_eq] at h
  split at h
  · obtain rfl := Option.some.inj h
    exact Or.inl hrec
  · split at h
    · cases h
    · obtain rfl := Option.some.inj h
      rcases (mem_mmInsert _ _ _).mp hrec with rfl | hrec
      · right
        unfold emitted
        by_cases hgt : it.1 > it.2.1
        · simp [hgt]
        · simp [hgt]
      · exact Or.inl hrec

/-- The records of `out` at the end of the local loop. -/
theorem localLoop_from (tm : TopologyManager) (S : Record R → Prop) :
    ∀ (mm : ReactionMap R) (st stf : LocalState R), (∀ it ∈ mm, S it) →
      (∀ rec ∈ st.out, ∃ it, S it ∧ rec.2.2 = it.2.2 ∧
        ((rec.1 = it.1 ∧ rec.2.1 = it.2.1 ∧ ¬ it.1 > it.2.1) ∨
          (rec.1 = it.2.1 ∧ rec.2.1 = it.1 ∧ it.1 > it.2.1))) →
      localLoop tm mm st = some stf →
      ∀ rec ∈ stf.out, ∃ it, S it ∧ rec.2.2 = it.2.2 ∧
        ((rec.1 = it.1 ∧ rec.2.1 = it.2.1 ∧ ¬ it.1 > it.2.1) ∨
          (rec.1 = it.2.1 ∧ rec.2.1 = it.1 ∧ it.1 > it.2.1)) := by
  intro mm
  induction mm with
  | nil =>
    intro st stf _ h hrun
    obtain rfl := Option.some.inj hrun
    exact h
  | cons it rest ih =>
    intro st stf hS h hrun
    unfold localLoop at hrun
    cases hstep : localStep tm st it with
    | none => rw [hstep] at hrun; cases hrun
    | some st1 =>
      rw [hstep] at hrun
      apply ih st1 stf (fun it1 h1 => hS it1 (List.mem_cons_of_mem _ h1)) _ hrun
      intro rec hrec
      rcases localStep_out tm st st1 it hstep rec hrec with hold | hnew
      · exact h rec hold
      · exact ⟨it, hS it (List.mem_cons_self _ _), hnew⟩

/-- Every record of the map `out` of the local loop comes from a record of
the input: same ReactionDef, same ids, swapped when the key was the larger. -/
theorem localPass_from (tm : TopologyManager) (S : Record R → Prop) (mm : ReactionMap R)
    (hS : ∀ it ∈ mm, S it) (out : ReactionMap R) (hrun : localPass tm mm = some out) :
    ∀ rec ∈ out, ∃ it, S it ∧ rec.2.2 = it.2.2 ∧
      ((rec.1 = it.1 ∧ rec.2.1 = it.2.1 ∧ ¬ it.1 > it.2.1) ∨
        (rec.1 = it.2.1 ∧ rec.2.1 = it.1 ∧ it.1 > it.2.1)) := by
  unfold localPass at hrun
  cases hloop : localLoop tm mm ⟨[], [], [], none⟩ with
  | none => rw [hloop] at hrun; cases hrun
  | some stf =>
    rw [hloop] at hrun
    obtain rfl := Option.some.inj hrun
    exact localLoop_from tm S mm _ stf hS (fun _ h => absurd h (List.not_mem_nil _)) hloop

/-- Once `p_order` holds a value the local loop runs to its end. -/
theorem localLoop_isSome (tm : TopologyManager) :
    ∀ (mm : ReactionMap R) (st : LocalState R), st.p_order ≠ none →
      (localLoop tm mm st).isSome = true := by
  intro mm
  induction mm with
  | nil => intro st _; rfl
  | cons it rest ih =>
    intro st hst
    unfold localLoop
    rw [localStep_eq]
    by_cases hskip : (st.particle_idx.contains it.1 || st.particle_idx.contains it.2.1) = true ∨
        (st.residue_idx.contains (tm.getResId it.1) ||
          st.residue_idx.contains (tm.getResId it.2.1)) = true
    · rw [if_pos hskip]
      exact ih st hst
    · rw [if_neg hskip, if_neg (fun h => hst h.2)]
      exact ih _ (by simp)

/-- The local loop of a rank has a defined behaviour exactly when the first
record of the map, which is always kept, does not have a key larger than its
partner id: only the first kept record meets `p_order` without a value. -/
theorem localPass_isSome_iff (tm : TopologyManager) (mm : ReactionMap R) :
    (localPass tm mm).isSome = true ↔ ∀ it, mm.head? = some it → ¬ it.1 > it.2.1 := by
  unfold localPass
  have hmap : ∀ o : Option (LocalState R), (o.map (fun st => st.out)).isSome = o.isSome := by
    intro o
    cases o <;> rfl
  rw [hmap]
  cases mm with
  | nil =>
    constructor
    · intro _ it h; cases h
    · intro _; rfl
  | cons it rest =>
    unfold localLoop
    rw [localStep_eq]
    simp only [List.contains_nil, Bool.or_self, Bool.false_eq_true, or_self, if_false,
      and_true, List.head?_cons, Option.some.injEq, forall_eq']
    by_cases hgt : it.1 > it.2.1
    · rw [if_pos hgt]
      constructor
      · intro h; cases h
      · intro h; exact absurd hgt h
    · rw [if_neg hgt]
      constructor
      · intro _; exact hgt
      · intro _; exact localLoop_isSome tm rest _ (by simp)

/-- The gathered maps are the maps `out` of the ranks. -/
theorem gatherLocal_mem (tm : TopologyManager) :
    ∀ (ranks global_maps : List (ReactionMap R)), gatherLocal tm ranks = some global_maps →
      ∀ gm ∈ global_maps, ∃ r ∈ ranks, localPass tm r = some gm := by
  intro ranks
  induction ranks with
  | nil =>
    intro gms h gm hgm
    obtain rfl := Option.some.inj h
    cases hgm
  | cons mm rest ih =>
    intro gms h gm hgm
    unfold gatherLocal at h
    cases hl : localPass tm mm with
    | none => rw [hl] at h; cases h
    | some out =>
      rw [hl] at h
      cases hg : gatherLocal tm rest with
      | none => rw [hg] at h; cases h
      | some outs =>
        rw [hg] at h
        obtain rfl := Option.some.inj h
        rcases List.mem_cons.mp hgm with rfl | hgm
        · exact ⟨mm, List.mem_cons_self _ _, hl⟩
        · obtain ⟨r, hr, hrun⟩ := ih outs hg gm hgm
          exact ⟨r, List.mem_cons_of_mem _ hr, hrun⟩

/-- The maps are gathered exactly when the local loop of every rank has a
defined behaviour. -/
theorem gatherLocal_isSome_iff (tm : TopologyManager) (ranks : List (ReactionMap R)) :
    (gatherLocal tm ranks).isSome = true ↔ ∀ r ∈ ranks, (localPass tm r).isSome = true := by
  induction ranks with
  | nil =>
    constructor
    · intro _ r hr; cases hr
    · intro _; rfl
  | cons mm rest ih =>
    unfold gatherLocal
    cases hl : localPass tm mm with
    | none =>
      constructor
      · intro h; cases h
      · intro h
        have := h mm (List.mem_cons_self _ _)
        rw [hl] at this
        cases this
    | some out =>
      cases hg : gatherLocal tm rest with
      | none =>
        rw [hg] at ih
        constructor
        · intro h; cases h
        · intro h
          have := ih.mpr (fun r hr => h r (List.mem_cons_of_mem _ hr))
          cases this
      | some outs =>
        rw [hg] at ih
        constructor
        · intro _ r hr
          rcases List.mem_cons.mp hr with rfl | hr
          · rw [hl]; rfl
          · exact ih.mp rfl r hr
        · intro _; rfl

/-- The function `sortParticleReactionList` returns a map exactly when the local
loop of every rank has a defined behaviour, for records that name registered
reactions. -/
theorem sortParticleReactionList_isSome_iff (tm : TopologyManager)
    (reaction_list : List Reaction) (max_per_interval : Int) (ranks : List (ReactionMap R))
    (hreg : RegisteredIds reaction_list ranks) :
    (sortParticleReactionList tm reaction_list max_per_interval ranks).isSome = true ↔
      ∀ r ∈ ranks, ∀ it, r.head? = some it → ¬ it.1 > it.2.1 := by
  unfold sortParticleReactionList
  cases hg : gatherLocal tm ranks with
  | none =>
    constructor
    · intro h; cases h
    · intro h
      have : (gatherLocal tm ranks).isSome = true :=
        (gatherLocal_isSome_iff tm ranks).mpr
          (fun r hr => (localPass_isSome_iff tm r).mpr (h r hr))
      rw [hg] at this
      cases this
  | some gms =>
    have hall := (gatherLocal_isSome_iff tm ranks).mp (by rw [hg]; rfl)
    constructor
    · intro _ r hr
      exact (localPass_isSome_iff tm r).mp (hall r hr)
    · intro _
      apply passC_isSome
      intro gm hgm it hit
      obtain ⟨r, hr, hrun⟩ := gatherLocal_mem tm ranks gms hg gm hgm
      obtain ⟨it0, hsome, hdef, _⟩ := localPass_from tm
        (fun rec => (reactionAt reaction_list rec.2.2.reaction_id).isSome = true) r
        (hreg r hr) gm hrun it hit
      rw [hdef]
      exact hsome

/-- Every record of the output of pass C is a gathered record. -/
theorem passC_subset (tm : TopologyManager) (reaction_list : List Reaction)
    (max_per_interval : Int) (S : Record R → Prop) (global_maps : List (ReactionMap R))
    (hS : ∀ m ∈ global_maps, ∀ it ∈ m, S it) (out : ReactionMap R)
    (h : passC tm reaction_list max_per_interval global_maps = some out) :
    ∀ rec ∈ out, S rec := by
  obtain ⟨st, hP, rfl⟩ := passC_induction_on tm reaction_list max_per_interval S
    (fun st => ∀ rec ∈ st.mm, S rec) (fun _ h => absurd h (List.not_mem_nil _))
    (by
      intro st it reaction hit hP _ _ _ rec hrec
      simp only [passCAccept, mem_mmInsert] at hrec
      rcases hrec with rfl | hrec
      · exact hit
      · exact hP rec hrec)
    global_maps hS out h
  exact hP

/-- Every record that `sortParticleReactionList` returns comes from a record of
the map of a rank: same ReactionDef, same ids, swapped when the key was the
larger. -/
theorem sortParticleReactionList_from (tm : TopologyManager) (reaction_list : List Reaction)
    (max_per_interval : Int) (ranks : List (ReactionMap R)) (out : ReactionMap R)
    (h : sortParticleReactionList tm reaction_list max_per_interval ranks = some out) :
    ∀ rec ∈ out, ∃ r ∈ ranks, ∃ it ∈ r, rec.2.2 = it.2.2 ∧
      ((rec.1 = it.1 ∧ rec.2.1 = it.2.1 ∧ ¬ it.1 > it.2.1) ∨
        (rec.1 = it.2.1 ∧ rec.2.1 = it.1 ∧ it.1 > it.2.1)) := by
  unfold sortParticleReactionList at h
  cases hg : gatherLocal tm ranks with
  | none => rw [hg] at h; cases h
  | some gms =>
    rw [hg] at h
    refine passC_subset tm reaction_list max_per_interval
      (fun rec => ∃ r ∈ ranks, ∃ it ∈ r, rec.2.2 = it.2.2 ∧
        ((rec.1 = it.1 ∧ rec.2.1 = it.2.1 ∧ ¬ it.1 > it.2.1) ∨
          (rec.1 = it.2.1 ∧ rec.2.1 = it.1 ∧ it.1 > it.2.1))) gms ?_ out h
    intro gm hgm it hit
    obtain ⟨r, hr, hrun⟩ := gatherLocal_mem tm ranks gms hg gm hgm
    obtain ⟨it0, hin, hrest⟩ := localPass_from tm (fun rec => rec ∈ r) r
      (fun _ h => h) gm hrun it hit
    exact ⟨r, hr, it0, hin, hrest⟩

theorem scanRecord_lt (reaction_idx_ : Int) (p : ReactedPair R)
    (h : p.first.id ≠ p.second.id) :
    (scanRecord reaction_idx_ p).1 < (scanRecord reaction_idx_ p).2.1 := by
  unfold scanRecord
  simp only
  split
  · rename_i hgt; exact hgt
  · rename_i hgt; simp only; omega

theorem scanReactions_lt {σ : Type}
    (isValidPair : σ → Reaction → Particle R → Particle R → Option (ReactedPair R) × σ)
    (hdistinct : ∀ s reaction p1 p2 p, (isValidPair s reaction p1 p2).1 = some p →
      p.first.id ≠ p.second.id)
    (p1 p2 : Particle R) :
    ∀ (reactions : List Reaction) (reaction_idx_ : Int) (st : ReactionMap R × σ),
      (∀ rec ∈ st.1, rec.1 < rec.2.1) →
      ∀ rec ∈ (scanReactions isValidPair p1 p2 reactions reaction_idx_ st).1,
        rec.1 < rec.2.1 := by
  intro reactions
  induction reactions with
  | nil => intro _ st h; simpa [scanReactions] using h
  | cons reaction rest ih =>
    intro idx st h
    unfold scanReactions
    split
    · exact ih _ st h
    · simp only
      split
      · rename_i p hp
        apply ih
        intro rec hrec
        rcases (mem_mmInsert _ _ _).mp hrec with rfl | hrec
        · exact scanRecord_lt idx p (hdistinct _ _ _ _ p hp)
        · exact h rec hrec
      · exact ih _ _ h

theorem scanPairs_lt {σ : Type}
    (isValidPair : σ → Reaction → Particle R → Particle R → Option (ReactedPair R) × σ)
    (hdistinct : ∀ s reaction p1 p2 p, (isValidPair s reaction p1 p2).1 = some p →
      p.first.id ≠ p.second.id)
    (reaction_list : List Reaction) (pairs : List (Particle R × Particle R)) (s : σ) :
    ∀ rec ∈ (scanPairs isValidPair reaction_list pairs s).1, rec.1 < rec.2.1 := by
  unfold scanPairs
  have h0 : ∀ rec ∈ (([], s) : ReactionMap R × σ).1, rec.1 < rec.2.1 :=
    fun _ h => absurd h (List.not_mem_nil _)
  revert h0
  generalize (([], s) : ReactionMap R × σ) = st0
  induction pairs generalizing st0 with
  | nil => intro h; simpa using h
  | cons pr rest ih =>
    intro h
    simp only [List.foldl_cons]
    exact ih _ (scanReactions_lt isValidPair hdistinct pr.1 pr.2 reaction_list 0 st0 h)

end Soundness

/-! ## The claims on pass C -/

section Claims

variable {R : Type}

/-- C1: for every list of gathered maps, every topology manager and every
`max_per_interval`, no particle id is an endpoint of two records of the map
that pass C of `sortParticleReactionList` builds: for every id, at most one
record of the output has it as key or as partner.  Pass C returns a map
whenever the gathered records name registered reactions. -/
theorem passC_particle_once (tm : TopologyManager) (reaction_list : List Reaction)
    (max_per_interval : Int) (global_maps : List (ReactionMap R)) :
    (RegisteredIds reaction_list global_maps →
      (passC tm reaction_list max_per_interval global_maps).isSome = true) ∧
    ∀ out, passC tm reaction_list max_per_interval global_maps = some out →
      ∀ pid : Int, out.countP (fun rec => decide (rec.1 = pid ∨ rec.2.1 = pid)) ≤ 1 := by
  refine ⟨passC_isSome tm reaction_list max_per_interval global_maps, ?_⟩
  intro out h pid
  apply countP_le_one_of_pairwise
  exact (passC_exclusive tm reaction_list max_per_interval global_maps out h).1.imp
    (fun hx => hx pid)

theorem passC_particle_once_witness :
    passC tmPairs oneReaction 2 gatheredTwoRanks = some [rec0 1 2 4, rec0 3 4 9] ∧
    ∀ pid : Int, [rec0 1 2 4, rec0 3 4 9].countP
      (fun rec => decide (rec.1 = pid ∨ rec.2.1 = pid)) ≤ 1 :=
  ⟨by decide, (passC_particle_once tmPairs oneReaction 2 gatheredTwoRanks).2 _ (by decide)⟩

/-- C2: when all registered reactions have `intraresidual = false`, for every
residue `r` at most one record of the output of pass C has an endpoint whose
residue id is `r`.  The proof does not use the flag: the test on `residue_idx`
of line 458 is applied to every reaction. -/
theorem passC_residue_once (tm : TopologyManager) (reaction_list : List Reaction)
    (max_per_interval : Int) (global_maps : List (ReactionMap R))
    (_hflag : ∀ reaction ∈ reaction_list, reaction.intraresidual = false) :
    (RegisteredIds reaction_list global_maps →
      (passC tm reaction_list max_per_interval global_maps).isSome = true) ∧
    ∀ out, passC tm reaction_list max_per_interval global_maps = some out →
      ∀ r : Int, out.countP
        (fun rec => decide (tm.getResId rec.1 = r ∨ tm.getResId rec.2.1 = r)) ≤ 1 := by
  refine ⟨passC_isSome tm reaction_list max_per_interval global_maps, ?_⟩
  intro out h r
  apply countP_le_one_of_pairwise
  exact (passC_exclusive tm reaction_list max_per_interval global_maps out h).2.imp
    (fun hx => hx r)

theorem passC_residue_once_witness :
    (∀ reaction ∈ oneReaction, reaction.intraresidual = false) ∧
    ∀ r : Int, [rec0 1 2 4, rec0 3 4 9].countP
      (fun rec => decide (tmPairs.getResId rec.1 = r ∨ tmPairs.getResId rec.2.1 = r)) ≤ 1 :=
  ⟨by decide,
    (passC_residue_once tmPairs oneReaction 2 gatheredTwoRanks (by decide)).2 _ (by decide)⟩

/-- C3: when `isSameMolecule a b` answers true exactly for equal molecule ids,
every record `(a, b)` of the output of pass C whose reaction has
`intramolecular = false` has endpoints in different molecules. -/
theorem passC_intermolecular (tm : TopologyManager) (reaction_list : List Reaction)
    (max_per_interval : Int) (global_maps : List (ReactionMap R))
    (hsame : ∀ a b, tm.isSameMolecule a b = true ↔ tm.getMoleculeId a = tm.getMoleculeId b) :
    (RegisteredIds reaction_list global_maps →
      (passC tm reaction_list max_per_interval global_maps).isSome = true) ∧
    ∀ out, passC tm reaction_list max_per_interval global_maps = some out →
      ∀ rec ∈ out, ∀ reaction, reactionAt reaction_list rec.2.2.reaction_id = some reaction →
        reaction.intramolecular = false →
        tm.getMoleculeId rec.1 ≠ tm.getMoleculeId rec.2.1 := by
  refine ⟨passC_isSome tm reaction_list max_per_interval global_maps, ?_⟩
  intro out h
  obtain ⟨st, hP, rfl⟩ := passC_induction tm reaction_list max_per_interval
    (fun st => ∀ rec ∈ st.mm, ∀ reaction,
      reactionAt reaction_list rec.2.2.reaction_id = some reaction →
      reaction.intramolecular = false → tm.isSameMolecule rec.1 rec.2.1 = false)
    (fun _ h => absurd h (List.not_mem_nil _))
    (by
      intro st it reaction hP hr hv _ rec hrec reaction1 hr1 hintra
      simp only [passCAccept, mem_mmInsert] at hrec
      rcases hrec with rfl | hrec
      · simp only at hr1 ⊢
        rw [hr] at hr1
        cases hr1
        exact (passCValid_true tm reaction st it hv).2.2 hintra
      · exact hP rec hrec reaction1 hr1 hintra)
    global_maps out h
  intro rec hrec reaction hr hintra heq
  have h1 := hP rec hrec reaction hr hintra
  rw [(hsame rec.1 rec.2.1).mpr heq] at h1
  exact Bool.noConfusion h1

theorem passC_intermolecular_witness :
    (∀ a b, tmPairs.isSameMolecule a b = true ↔ tmPairs.getMoleculeId a = tmPairs.getMoleculeId b) ∧
    ∀ rec ∈ [rec0 1 2 4, rec0 3 4 9], ∀ reaction,
      reactionAt oneReaction rec.2.2.reaction_id = some reaction →
      reaction.intramolecular = false →
      tmPairs.getMoleculeId rec.1 ≠ tmPairs.getMoleculeId rec.2.1 :=
  ⟨fun a b => by simp [tmPairs],
    (passC_intermolecular tmPairs oneReaction 2 gatheredTwoRanks
      (fun a b => by simp [tmPairs])).2 _ (by decide)⟩

/-- C4: for every input and every `max_per_interval ≥ 0`, the map built by
pass C has at most `max_per_interval` records, and none when
`max_per_interval = 0`. -/
theorem passC_count_le_max (tm : TopologyManager) (reaction_list : List Reaction)
    (max_per_interval : Int) (global_maps : List (ReactionMap R))
    (hmax : 0 ≤ max_per_interval) :
    (RegisteredIds reaction_list global_maps →
      (passC tm reaction_list max_per_interval global_maps).isSome = true) ∧
    ∀ out, passC tm reaction_list max_per_interval global_maps = some out →
      (out.length : Int) ≤ max_per_interval ∧ (max_per_interval = 0 → out = []) := by
  refine ⟨passC_isSome tm reaction_list max_per_interval global_maps, ?_⟩
  intro out h
  obtain ⟨st, hP, rfl⟩ := passC_induction tm reaction_list max_per_interval
    (fun st => (st.mm.length : Int) = st.reaction_counter ∧
      st.reaction_counter ≤ max_per_interval)
    (by simpa [GlobalState.init] using hmax)
    (by
      intro st it reaction hP _ _ hc
      simp only [passCAccept, length_mmInsert]
      constructor
      · push_cast
        rw [hP.1]
      · omega)
    global_maps out h
  have hlen : (st.mm.length : Int) ≤ max_per_interval := hP.1 ▸ hP.2
  refine ⟨hlen, fun h0 => ?_⟩
  rw [h0] at hlen
  exact List.length_eq_zero.mp (by omega)

theorem passC_count_le_max_witness :
    (0 : Int) ≤ 2 ∧ passC tmPairs oneReaction 2 gatheredTwoRanks = some [rec0 1 2 4, rec0 3 4 9] ∧
    (([rec0 1 2 4, rec0 3 4 9] : ReactionMap Int).length : Int) ≤ 2 :=
  ⟨by decide, by decide,
    ((passC_count_le_max tmPairs oneReaction 2 gatheredTwoRanks (by decide)).2 _
      (by decide)).1⟩

/-- C5: with `max_per_interval = 1`, when the first candidate in gather order
(the first record of the lowest-numbered rank whose gathered map is not empty)
names a registered reaction and is not excluded by the intramolecular rule,
pass C returns exactly that record; the gathered maps being ordered by key, it
has the smallest key of its map. -/
theorem passC_max_one_first (tm : TopologyManager) (reaction_list : List Reaction)
    (n : Nat) (first : Record R) (rest : ReactionMap R) (later : List (ReactionMap R))
    (helig : Eligible tm reaction_list first)
    (hsorted : (first :: rest).Pairwise (fun x y => x.1 ≤ y.1)) :
    passC tm reaction_list 1 (List.replicate n [] ++ (first :: rest) :: later) = some [first] ∧
    ∀ it ∈ rest, first.1 ≤ it.1 := by
  obtain ⟨reaction, hr, hmol⟩ := helig
  refine ⟨?_, (List.pairwise_cons.mp hsorted).1⟩
  unfold passC
  rw [passCOuter_skip_empty]
  unfold passCOuter
  have hinner : passCInner tm reaction_list 1 (first :: rest) (GlobalState.init R) =
      some (passCAccept tm (GlobalState.init R) first) := by
    unfold passCInner
    rw [if_pos (by simp [GlobalState.init])]
    unfold passCBody
    rw [hr]
    simp only [passCValid_init tm reaction first hmol, if_true]
    exact passCInner_full tm reaction_list 1 rest _ (by simp [passCAccept, GlobalState.init])
  rw [hinner]
  simp only
  rw [passCOuter_full tm reaction_list 1 later _ (by simp [passCAccept, GlobalState.init])]
  simp [passCAccept, GlobalState.init, mmInsert]

theorem passC_max_one_first_witness :
    passC tmPairs oneReaction 1
      (List.replicate 1 [] ++ (rec0 1 2 4 :: [rec0 3 4 9]) :: [[rec0 5 6 2]]) =
        some [rec0 1 2 4] ∧
    ∀ it ∈ [rec0 3 4 9], (rec0 1 2 4).1 ≤ it.1 :=
  passC_max_one_first tmPairs oneReaction 1 (rec0 1 2 4) [rec0 3 4 9] [[rec0 5 6 2]]
    ⟨plainReaction, by decide, fun _ => by decide⟩ (by decide)

end Claims

section ClaimsUnique

variable {R : Type} [LinearOrder R] [NatCast R]

/-- C6: for every candidate map, every set of real particles and every
generator with `rng(N)` in `[0, N)`, in nearest and in random mode, `uniqueA`
returns a map that holds exactly one record for each key that is real on the
rank and has a candidate, whose records all have such a key, and whose records
are records of the input (same key, partner id and ReactionDef).  The keys are
taken in the range where the conversion to `int` keeps their value. -/
theorem uniqueA_one_per_owned_key {σ : Type} (is_nearest : Bool) (toInt : Int → Int)
    (lookupRealParticle : Int → Bool) (hashOrder : List Int → List Int)
    (rng : σ → Int → Int × σ) (m : ReactionMap R) (s : σ)
    (hrng : RngInRange rng) (hhash : EnumeratesSet hashOrder)
    (hint : ∀ rec ∈ m, toInt rec.1 = rec.1) :
    ∃ out s1,
      uniqueA is_nearest toInt lookupRealParticle hashOrder rng m s = some (out, s1) ∧
      (∀ k, lookupRealParticle k = true → (∃ rec ∈ m, rec.1 = k) →
        out.countP (fun rec => decide (rec.1 = k)) = 1) ∧
      (∀ rec ∈ out, lookupRealParticle rec.1 = true ∧ rec ∈ m) := by
  obtain ⟨out, s1, chosen, hrun, hperm, hmap, hall⟩ := uniqueA_chosen is_nearest toInt
    lookupRealParticle hashOrder rng m s hrng hhash hint
  refine ⟨out, s1, hrun, ?_, ?_⟩
  · intro k hown ⟨rec, hrec, hk⟩
    refine countP_key_of_chosen (fun rec => rec.1) out chosen _ hperm hmap (hhash _).1 k ?_
    rw [(hhash _).2, List.mem_map]
    exact ⟨rec, List.mem_filter.mpr ⟨hrec, hk ▸ hown⟩, hk⟩
  · intro rec hrec
    have hc : rec ∈ chosen := hperm.mem_iff.mp hrec
    refine ⟨?_, (hall rec hc).1⟩
    have : rec.1 ∈ chosen.map (fun rec => rec.1) := List.mem_map.mpr ⟨rec, hc, rfl⟩
    rw [hmap, (hhash _).2, List.mem_map] at this
    obtain ⟨r, hr, hk⟩ := this
    rw [List.mem_filter] at hr
    exact hk ▸ hr.2

theorem uniqueA_one_per_owned_key_witness :
    RngInRange rngCount ∧ EnumeratesSet orderRev ∧ (∀ rec ∈ candidatesA, id rec.1 = rec.1) ∧
    uniqueA false id ownedLow orderRev rngCount candidatesA 0 =
      some ([rec0 1 5 9, rec0 3 4 9], 2) ∧
    ∃ out s1,
      uniqueA false id ownedLow orderRev rngCount candidatesA 0 = some (out, s1) ∧
      (∀ k, ownedLow k = true → (∃ rec ∈ candidatesA, rec.1 = k) →
        out.countP (fun rec => decide (rec.1 = k)) = 1) ∧
      (∀ rec ∈ out, ownedLow rec.1 = true ∧ rec ∈ candidatesA) :=
  ⟨rngCount_inRange, orderRev_enumerates, fun _ _ => rfl, by decide,
    uniqueA_one_per_owned_key false id ownedLow orderRev rngCount candidatesA 0
      rngCount_inRange orderRev_enumerates (fun _ _ => rfl)⟩

/-- C7: for every candidate map, every set of real particles and every
generator with `rng(N)` in `[0, N)`, `uniqueB` returns an effective map that
holds exactly one record for each partner id that is real on the rank and
occurs in the input, no record whose partner id is not real, and only records
(key, partner id, ReactionDef) of the input.  The partner ids are taken in the
range where the conversion to `int` keeps their value. -/
theorem uniqueB_one_per_owned_partner {σ : Type} (is_nearest : Bool) (toInt : Int → Int)
    (lookupRealParticle : Int → Bool) (hashOrder : List Int → List Int)
    (rng : σ → Int → Int × σ) (m : ReactionMap R) (s : σ)
    (hrng : RngInRange rng) (hhash : EnumeratesSet hashOrder)
    (hint : ∀ rec ∈ m, toInt rec.2.1 = rec.2.1) :
    ∃ out s1,
      uniqueB is_nearest toInt lookupRealParticle hashOrder rng m s = some (out, s1) ∧
      (∀ b, lookupRealParticle b = true → (∃ rec ∈ m, rec.2.1 = b) →
        out.countP (fun rec => decide (rec.2.1 = b)) = 1) ∧
      (∀ rec ∈ out, lookupRealParticle rec.2.1 = true ∧ rec ∈ m) := by
  obtain ⟨out, s1, chosen, hrun, hperm, hmap, hall⟩ := uniqueB_chosen is_nearest toInt
    lookupRealParticle hashOrder rng m s hrng hhash hint
  refine ⟨out, s1, hrun, ?_, ?_⟩
  · intro k hown ⟨rec, hrec, hk⟩
    refine countP_key_of_chosen (fun rec => rec.2.1) out chosen _ hperm hmap (hhash _).1 k ?_
    rw [(hhash _).2, List.mem_map]
    exact ⟨rec, List.mem_filter.mpr ⟨hrec, hk ▸ hown⟩, hk⟩
  · intro rec hrec
    have hc : rec ∈ chosen := hperm.mem_iff.mp hrec
    refine ⟨?_, (hall rec hc).1⟩
    have : rec.2.1 ∈ chosen.map (fun rec => rec.2.1) := List.mem_map.mpr ⟨rec, hc, rfl⟩
    rw [hmap, (hhash _).2, List.mem_map] at this
    obtain ⟨r, hr, hk⟩ := this
    rw [List.mem_filter] at hr
    exact hk ▸ hr.2

theorem uniqueB_one_per_owned_partner_witness :
    RngInRange rngCount ∧ EnumeratesSet orderRev ∧
    (∀ rec ∈ candidatesB, id rec.2.1 = rec.2.1) ∧
    uniqueB false id ownedLow orderRev rngCount candidatesB 0 =
      some ([rec0 1 4 4, rec0 5 2 1], 2) ∧
    ∃ out s1,
      uniqueB false id ownedLow orderRev rngCount candidatesB 0 = some (out, s1) ∧
      (∀ b, ownedLow b = true → (∃ rec ∈ candidatesB, rec.2.1 = b) →
        out.countP (fun rec => decide (rec.2.1 = b)) = 1) ∧
      (∀ rec ∈ out, ownedLow rec.2.1 = true ∧ rec ∈ candidatesB) :=
  ⟨rngCount_inRange, orderRev_enumerates, fun _ _ => rfl, by decide,
    uniqueB_one_per_owned_partner false id ownedLow orderRev rngCount candidatesB 0
      rngCount_inRange orderRev_enumerates (fun _ _ => rfl)⟩

/-- C8: in nearest mode, with a generator with `rng(N)` in `[0, N)`, every
record that `uniqueA` keeps has a squared distance at most that of every input
candidate with the same key; the squared distances are compared exactly and no
bound is put on them, so values at or above `10e18` are covered. -/
theorem uniqueA_nearest_minimal {σ : Type} (toInt : Int → Int)
    (lookupRealParticle : Int → Bool) (hashOrder : List Int → List Int)
    (rng : σ → Int → Int × σ) (m : ReactionMap R) (s : σ)
    (hrng : RngInRange rng) (hhash : EnumeratesSet hashOrder)
    (hint : ∀ rec ∈ m, toInt rec.1 = rec.1) :
    ∃ out s1,
      uniqueA true toInt lookupRealParticle hashOrder rng m s = some (out, s1) ∧
      (∀ a, lookupRealParticle a = true → (∃ rec ∈ m, rec.1 = a) → ∃ rec ∈ out, rec.1 = a) ∧
      ∀ rec ∈ out, ∀ c ∈ m, c.1 = rec.1 →
        rec.2.2.reaction_r_sqr ≤ c.2.2.reaction_r_sqr := by
  obtain ⟨out, s1, chosen, hrun, hperm, hmap, hall⟩ := uniqueA_chosen true toInt
    lookupRealParticle hashOrder rng m s hrng hhash hint
  refine ⟨out, s1, hrun, ?_, ?_⟩
  · intro a hown ⟨rec, hrec, hk⟩
    have : a ∈ chosen.map (fun rec => rec.1) := by
      rw [hmap, (hhash _).2, List.mem_map]
      exact ⟨rec, List.mem_filter.mpr ⟨hrec, hk ▸ hown⟩, hk⟩
    rw [List.mem_map] at this
    obtain ⟨r, hr, hra⟩ := this
    exact ⟨r, hperm.mem_iff.mpr hr, hra⟩
  · intro rec hrec c hc hck
    exact (hall rec (hperm.mem_iff.mp hrec)).2 rfl c hc hck

theorem uniqueA_nearest_minimal_witness :
    RngInRange rngCount ∧ EnumeratesSet orderRev ∧ (∀ rec ∈ candidatesA, id rec.1 = rec.1) ∧
    uniqueA true id ownedLow orderRev rngCount candidatesA 0 =
      some ([rec0 1 2 4, rec0 3 4 9], 1) ∧
    ∃ out s1,
      uniqueA true id ownedLow orderRev rngCount candidatesA 0 = some (out, s1) ∧
      (∀ a, ownedLow a = true → (∃ rec ∈ candidatesA, rec.1 = a) → ∃ rec ∈ out, rec.1 = a) ∧
      ∀ rec ∈ out, ∀ c ∈ candidatesA, c.1 = rec.1 →
        rec.2.2.reaction_r_sqr ≤ c.2.2.reaction_r_sqr :=
  ⟨rngCount_inRange, orderRev_enumerates, fun _ _ => rfl, by decide,
    uniqueA_nearest_minimal id ownedLow orderRev rngCount candidatesA 0
      rngCount_inRange orderRev_enumerates (fun _ _ => rfl)⟩

/-- C9: in nearest mode, when for every key of the input of `uniqueA` and for
every real partner id of the input of `uniqueB` exactly one candidate attains
the minimal squared distance, the two functions return the same map for every
two generators, and every kept record is nearest among the candidates of its
key (of its partner id). -/
theorem unique_nearest_deterministic {σ₁ σ₂ : Type} (toInt : Int → Int)
    (lookupRealParticle : Int → Bool) (hashOrder : List Int → List Int)
    (rng₁ : σ₁ → Int → Int × σ₁) (rng₂ : σ₂ → Int → Int × σ₂) (s₁ : σ₁) (s₂ : σ₂)
    (mA mB : ReactionMap R) (hhash : EnumeratesSet hashOrder)
    (hintA : ∀ rec ∈ mA, toInt rec.1 = rec.1) (hintB : ∀ rec ∈ mB, toInt rec.2.1 = rec.2.1)
    (hminA : ∀ rec ∈ mA, minAttained (equalRange mA rec.1) = 1)
    (hminB : ∀ rec ∈ mB, lookupRealParticle rec.2.1 = true →
      minAttained (equalRange (reverseCandidates lookupRealParticle mB) rec.2.1) = 1) :
    (∃ out,
      uniqueA true toInt lookupRealParticle hashOrder rng₁ mA s₁ = some (out, s₁) ∧
      uniqueA true toInt lookupRealParticle hashOrder rng₂ mA s₂ = some (out, s₂) ∧
      ∀ rec ∈ out, rec ∈ mA ∧ ∀ c ∈ mA, c.1 = rec.1 →
        rec.2.2.reaction_r_sqr ≤ c.2.2.reaction_r_sqr) ∧
    (∃ out,
      uniqueB true toInt lookupRealParticle hashOrder rng₁ mB s₁ = some (out, s₁) ∧
      uniqueB true toInt lookupRealParticle hashOrder rng₂ mB s₂ = some (out, s₂) ∧
      ∀ rec ∈ out, rec ∈ mB ∧ ∀ c ∈ mB, c.2.1 = rec.2.1 →
        rec.2.2.reaction_r_sqr ≤ c.2.2.reaction_r_sqr) := by
  constructor
  · obtain ⟨out, u, chosen, hrun, hperm, _, hall⟩ := uniqueA_chosen true toInt
      lookupRealParticle hashOrder rngZero mA () rngZero_inRange hhash hintA
    refine ⟨out, ?_, ?_, ?_⟩
    · rw [uniqueA_eq_zero toInt lookupRealParticle hashOrder rng₁ mA s₁ hhash hintA hminA, hrun]
      rfl
    · rw [uniqueA_eq_zero toInt lookupRealParticle hashOrder rng₂ mA s₂ hhash hintA hminA, hrun]
      rfl
    · intro rec hrec
      have := hall rec (hperm.mem_iff.mp hrec)
      exact ⟨this.1, this.2 rfl⟩
  · obtain ⟨out, u, chosen, hrun, hperm, _, hall⟩ := uniqueB_chosen true toInt
      lookupRealParticle hashOrder rngZero mB () rngZero_inRange hhash hintB
    refine ⟨out, ?_, ?_, ?_⟩
    · rw [uniqueB_eq_zero toInt lookupRealParticle hashOrder rng₁ mB s₁ hhash hintB hminB, hrun]
      rfl
    · rw [uniqueB_eq_zero toInt lookupRealParticle hashOrder rng₂ mB s₂ hhash hintB hminB, hrun]
      rfl
    · intro rec hrec
      have := hall rec (hperm.mem_iff.mp hrec)
      exact ⟨this.1, this.2 rfl⟩

theorem unique_nearest_deterministic_witness :
    (∀ rec ∈ candidatesNear, minAttained (equalRange candidatesNear rec.1) = 1) ∧
    (∀ rec ∈ candidatesB, ownedLow rec.2.1 = true →
      minAttained (equalRange (reverseCandidates ownedLow candidatesB) rec.2.1) = 1) ∧
    uniqueA true id ownedLow orderRev rngCount candidatesNear 5 =
      some ([rec0 1 2 4, rec0 3 4 9], 5) ∧
    uniqueB true id ownedLow orderRev rngCount candidatesB 5 =
      some ([rec0 1 4 4, rec0 5 2 1], 5) ∧
    ((∃ out,
      uniqueA true id ownedLow orderRev rngCount candidatesNear 5 = some (out, 5) ∧
      uniqueA true id ownedLow orderRev rngZero candidatesNear () = some (out, ()) ∧
      ∀ rec ∈ out, rec ∈ candidatesNear ∧ ∀ c ∈ candidatesNear, c.1 = rec.1 →
        rec.2.2.reaction_r_sqr ≤ c.2.2.reaction_r_sqr) ∧
    (∃ out,
      uniqueB true id ownedLow orderRev rngCount candidatesB 5 = some (out, 5) ∧
      uniqueB true id ownedLow orderRev rngZero candidatesB () = some (out, ()) ∧
      ∀ rec ∈ out, rec ∈ candidatesB ∧ ∀ c ∈ candidatesB, c.2.1 = rec.2.1 →
        rec.2.2.reaction_r_sqr ≤ c.2.2.reaction_r_sqr)) :=
  ⟨by decide, by decide, by decide, by decide,
    unique_nearest_deterministic id ownedLow orderRev rngCount rngZero 5 () candidatesNear
      candidatesB orderRev_enumerates (fun _ _ => rfl) (fun _ _ => rfl) (by decide)
      (by decide)⟩

/-- C10: every record that the scan of `React` builds for a pair with distinct
ids has key < partner id, hence every record of the scanned map when
`isValidPair` returns pairs with distinct ids; and `uniqueA`, `uniqueB` and
`sortParticleReactionList` keep the property: when every record of the input
has key < partner id, so has every record of the output.  The functions
`uniqueA` and `uniqueB` return an output under the contracts of the generator
and of the set iteration; `sortParticleReactionList` returns one, for records
that name registered reactions, exactly when the first record of the map of
every rank does not have a key larger than its partner id (line 399 reads
`p_order` before it holds a value otherwise), hence for all inputs whose
records have key < partner id. -/
theorem key_lt_partner_kept {σ τ : Type}
    (isValidPair : τ → Reaction → Particle R → Particle R → Option (ReactedPair R) × τ)
    (reaction_list : List Reaction) (pairs : List (Particle R × Particle R)) (t : τ)
    (is_nearest : Bool) (toInt : Int → Int) (lookupRealParticle : Int → Bool)
    (hashOrder : List Int → List Int) (rng : σ → Int → Int × σ) (m : ReactionMap R) (s : σ)
    (tm : TopologyManager) (max_per_interval : Int) (ranks : List (ReactionMap R)) :
    (∀ reaction_idx_ (p : ReactedPair R), p.first.id ≠ p.second.id →
      (scanRecord reaction_idx_ p).1 < (scanRecord reaction_idx_ p).2.1) ∧
    ((∀ t1 reaction p1 p2 p, (isValidPair t1 reaction p1 p2).1 = some p →
        p.first.id ≠ p.second.id) →
      ∀ rec ∈ (scanPairs isValidPair reaction_list pairs t).1, rec.1 < rec.2.1) ∧
    ((RngInRange rng → EnumeratesSet hashOrder → (∀ rec ∈ m, toInt rec.1 = rec.1) →
        (uniqueA is_nearest toInt lookupRealParticle hashOrder rng m s).isSome = true) ∧
      ((∀ rec ∈ m, rec.1 < rec.2.1) → ∀ out s1,
        uniqueA is_nearest toInt lookupRealParticle hashOrder rng m s = some (out, s1) →
        ∀ rec ∈ out, rec.1 < rec.2.1)) ∧
    ((RngInRange rng → EnumeratesSet hashOrder → (∀ rec ∈ m, toInt rec.2.1 = rec.2.1) →
        (uniqueB is_nearest toInt lookupRealParticle hashOrder rng m s).isSome = true) ∧
      ((∀ rec ∈ m, rec.1 < rec.2.1) → ∀ out s1,
        uniqueB is_nearest toInt lookupRealParticle hashOrder rng m s = some (out, s1) →
        ∀ rec ∈ out, rec.1 < rec.2.1)) ∧
    ((RegisteredIds reaction_list ranks →
        ((sortParticleReactionList tm reaction_list max_per_interval ranks).isSome = true ↔
          ∀ r ∈ ranks, ∀ it, r.head? = some it → it.1 ≤ it.2.1)) ∧
      ((∀ r ∈ ranks, ∀ rec ∈ r, rec.1 < rec.2.1) →
        (RegisteredIds reaction_list ranks →
          (sortParticleReactionList tm reaction_list max_per_interval ranks).isSome = true) ∧
        ∀ out, sortParticleReactionList tm reaction_list max_per_interval ranks = some out →
          ∀ rec ∈ out, rec.1 < rec.2.1)) := by
  refine ⟨fun idx p h => scanRecord_lt idx p h,
    fun h => scanPairs_lt isValidPair h reaction_list pairs t, ⟨?_, ?_⟩, ⟨?_, ?_⟩, ⟨?_, ?_⟩⟩
  · intro hrng hhash hint
    obtain ⟨out, s1, _, hrun, _⟩ := uniqueA_chosen is_nearest toInt lookupRealParticle
      hashOrder rng m s hrng hhash hint
    rw [hrun]
    rfl
  · intro hm out s1 h rec hrec
    exact hm rec (uniqueA_subset is_nearest toInt lookupRealParticle hashOrder rng m s out s1 h
      rec hrec)
  · intro hrng hhash hint
    obtain ⟨out, s1, _, hrun, _⟩ := uniqueB_chosen is_nearest toInt lookupRealParticle
      hashOrder rng m s hrng hhash hint
    rw [hrun]
    rfl
  · intro hm out s1 h rec hrec
    exact hm rec (uniqueB_subset is_nearest toInt lookupRealParticle hashOrder rng m s out s1 h
      rec hrec)
  · intro hreg
    rw [sortParticleReactionList_isSome_iff tm reaction_list max_per_interval ranks hreg]
    simp only [gt_iff_lt, not_lt]
  · intro hr
    refine ⟨fun hreg => ?_, fun out h rec hrec => ?_⟩
    · rw [sortParticleReactionList_isSome_iff tm reaction_list max_per_interval ranks hreg]
      intro r hrm it hit
      exact not_lt.mpr (le_of_lt (hr r hrm it (List.mem_of_mem_head? hit)))
    · obtain ⟨r, hrm, it0, hin, _, hcase⟩ := sortParticleReactionList_from tm reaction_list
        max_per_interval ranks out h rec hrec
      rcases hcase with ⟨h1, h2, _⟩ | ⟨h1, h2, h3⟩
      · rw [h1, h2]; exact hr r hrm it0 hin
      · rw [h1, h2]; exact h3

theorem key_lt_partner_kept_witness :
    scanPairs validAlways oneReaction [(particleOf 2, particleOf 1)] () =
      ([(1, (2, ⟨0, 1, 1, 2⟩))], ()) ∧
    sortParticleReactionList tmPairs oneReaction 2 [candidatesNear] =
      some [rec0 1 2 4, rec0 3 4 9] ∧
    ∀ rec ∈ [rec0 1 2 4, rec0 3 4 9], rec.1 < rec.2.1 :=
  ⟨by decide, by decide,
    ((key_lt_partner_kept validAlways oneReaction [(particleOf 2, particleOf 1)] () true id
      ownedLow orderRev rngCount candidatesNear 0 tmPairs 2 [candidatesNear]).2.2.2.2.2
      (by decide)).2 _ (by decide)⟩

end ClaimsUnique

/-! ## Lemmas on applyAR and applyDR -/

section Association
variable {R L : Type}

/-- A candidate with a registered reaction, both endpoints stored and a passing
check is associated. -/
theorem applyARStep_valid (ops : PairListOps L)
    (postProcess_T1 postProcess_T2 : Reaction → Memory R → Nat → Nat → List Nat × Memory R)
    (tm : TopologyManager) (lookupLocalParticle : Int → Option Nat)
    (reaction_list_ : List Reaction) (save_pd_ : Bool) (st : ReactState R L) (it : Record R)
    (reaction : Reaction) (p1 p2 : Nat)
    (hreac : reaction_list_[toSizeT it.2.2.reaction_id]? = some reaction)
    (hlook : lookupEndpoints lookupLocalParticle it = some (some p1, some p2))
    (hvalid : validState reaction st.mem p1 p2 = true) :
    applyARStep ops postProcess_T1 postProcess_T2 tm lookupLocalParticle reaction_list_
        save_pd_ st it =
      Outcome.value
        (associate ops postProcess_T1 postProcess_T2 tm save_pd_ reaction st it p1 p2) := by
  unfold applyARStep
  rw [hreac]
  simp only [hlook, hvalid, if_true]

/-- A candidate with a missing endpoint or a failing check leaves the state as it is. -/
theorem applyARStep_skip (ops : PairListOps L)
    (postProcess_T1 postProcess_T2 : Reaction → Memory R → Nat → Nat → List Nat × Memory R)
    (tm : TopologyManager) (lookupLocalParticle : Int → Option Nat)
    (reaction_list_ : List Reaction) (save_pd_ : Bool) (st : ReactState R L) (it : Record R)
    (reaction : Reaction) (ends : Option Nat × Option Nat)
    (hreac : reaction_list_[toSizeT it.2.2.reaction_id]? = some reaction)
    (hlook : lookupEndpoints lookupLocalParticle it = some ends)
    (hbad : ∀ p1 p2, ends = (some p1, some p2) → validState reaction st.mem p1 p2 = false) :
    applyARStep ops postProcess_T1 postProcess_T2 tm lookupLocalParticle reaction_list_
        save_pd_ st it = Outcome.value st := by
  unfold applyARStep
  rw [hreac]
  simp only [hlook]
  obtain ⟨e1, e2⟩ := ends
  cases e1 with
  | none => rfl
  | some p1 =>
    cases e2 with
    | none => rfl
    | some p2 =>
      simp only [hbad p1 p2 rfl]
      rfl

/-- The check of `applyAR` fails exactly when one of the two endpoints fails. -/
theorem validState_false_iff (reaction : Reaction) (mem : Memory R) (p1 p2 : Nat) :
    validState reaction mem p1 p2 = false ↔
      ¬ (reaction.type_1 = (mem p1).type ∧ isValidState_T1 reaction (mem p1) = true) ∨
      ¬ (reaction.type_2 = (mem p2).type ∧ isValidState_T2 reaction (mem p2) = true) := by
  unfold validState
  simp only [Bool.and_eq_false_iff, Bool.and_eq_true, decide_eq_true_eq, decide_eq_false_iff_not,
    not_and_or, Bool.not_eq_true]

/-- Reading a vector after `vectorIncr`. -/
theorem vectorIncr_getElem? (v : List Int) (i j : Nat) :
    (vectorIncr v i)[j]? = if j = i then (v[j]?).map (fun x => x + 1) else v[j]? := by
  induction v generalizing i j with
  | nil => cases i <;> simp [vectorIncr]
  | cons x xs ih =>
    cases i with
    | zero =>
      cases j with
      | zero => simp [vectorIncr]
      | succ k => simp [vectorIncr]
    | succ n =>
      cases j with
      | zero => simp [vectorIncr]
      | succ k =>
        simp only [vectorIncr, List.getElem?_cons_succ, ih n k, Nat.succ.injEq]

/-- The bond lists after `associate`. -/
theorem associate_pair_lists (ops : PairListOps L)
    (postProcess_T1 postProcess_T2 : Reaction → Memory R → Nat → Nat → List Nat × Memory R)
    (tm : TopologyManager) (save_pd_ : Bool) (reaction : Reaction)
    (st : ReactState R L) (it : Record R) (p1 p2 : Nat) :
    (associate ops postProcess_T1 postProcess_T2 tm save_pd_ reaction st it p1 p2).pair_lists =
      if bondWanted reaction
          (associate ops postProcess_T1 postProcess_T2 tm save_pd_ reaction st it p1 p2).mem
          p1 p2 = true then
        Function.update st.pair_lists reaction.fixed_pair_list_
          (ops.iadd (st.pair_lists reaction.fixed_pair_list_) it.1 it.2.1).2
      else st.pair_lists := by
  unfold associate
  simp only
  split
  · rename_i hw
    split
    · simp only [hw, if_true]
    · simp only [hw, if_true]
  · rename_i hw
    simp only [hw]

/-- The counters after `associate`. -/
theorem associate_counters (ops : PairListOps L)
    (postProcess_T1 postProcess_T2 : Reaction → Memory R → Nat → Nat → List Nat × Memory R)
    (tm : TopologyManager) (save_pd_ : Bool) (reaction : Reaction)
    (st : ReactState R L) (it : Record R) (p1 p2 : Nat) :
    (associate ops postProcess_T1 postProcess_T2 tm save_pd_ reaction st it p1 p2).tmp_reaction_counters =
      if (bondWanted reaction
          (associate ops postProcess_T1 postProcess_T2 tm save_pd_ reaction st it p1 p2).mem
          p1 p2 && (ops.iadd (st.pair_lists reaction.fixed_pair_list_) it.1 it.2.1).1) = true then
        vectorIncr st.tmp_reaction_counters (toSizeT it.2.2.reaction_id)
      else st.tmp_reaction_counters := by
  unfold associate
  simp only
  split
  · rename_i hw
    split
    · rename_i hr
      simp only [hw, hr, Bool.and_self, if_true]
    · rename_i hr
      simp only [hw, hr, Bool.and_false]
      rfl
  · rename_i hw
    simp only [hw, Bool.false_and]
    rfl

end Association

section Dissociation
variable {R L τ : Type}

/-- Without post-processors `applyDR` never inserts into `modified_particles`. -/
theorem applyDR_modified_unchanged (ops : PairListOps L)
    (isValidPair : τ → Reaction → Memory R → Nat → Nat → Option (ReactedPointers R) × τ)
    (reverse_reaction_list_ : List Reaction) (st : ReactState R L) (t : τ) :
    (applyDR ops isValidPair noPostProcess noPostProcess reverse_reaction_list_ st t).1.modified_particles
      = st.modified_particles := by
  unfold applyDR
  have hpair : ∀ (reaction : Reaction) (prs : List (Nat × Nat))
      (acc : (ReactState R L × τ) × Bool),
      (prs.foldl (applyDRPair ops isValidPair noPostProcess noPostProcess reaction)
        acc).1.1.modified_particles = acc.1.1.modified_particles := by
    intro reaction prs
    induction prs with
    | nil => intro acc; rfl
    | cons pr rest ih =>
      intro acc
      simp only [List.foldl_cons]
      rw [ih]
      unfold applyDRPair
      simp only
      split
      · rfl
      · rfl
  have hreact : ∀ (reaction : Reaction) (acc : ReactState R L × τ),
      (applyDRReaction ops isValidPair noPostProcess noPostProcess acc
        reaction).1.modified_particles = acc.1.modified_particles := by
    intro reaction acc
    unfold applyDRReaction
    simp only
    split
    · rfl
    · split
      · exact hpair reaction _ _
      · exact hpair reaction _ _
  generalize hacc : (st, t) = acc
  have hst : st.modified_particles = acc.1.modified_particles := by rw [← hacc]
  rw [hst]
  clear hst hacc
  induction reverse_reaction_list_ generalizing acc with
  | nil => rfl
  | cons reaction rest ih =>
    simp only [List.foldl_cons]
    rw [ih, hreact]

end Dissociation

section RoundTrip
variable {R τ : Type}

end RoundTrip

/-! ## Lemmas on the concrete inputs -/

/-- The lookup `lookupIn` returns the address of a particle with the id. -/
theorem lookupIn_id (ps : List (Particle Int)) (pid : Int) (a : Nat)
    (h : lookupIn ps pid = some a) : (memOf ps a).id = pid := by
  unfold lookupIn at h
  split at h
  · rename_i hlt
    cases h
    have hfound := List.findIdx_getElem (w := hlt)
    unfold memOf
    rw [List.getD_eq_getElem _ _ hlt]
    exact of_decide_eq_true hfound
  · cases h

/-! ## Lemmas on updateGhost -/

section Ghost
variable {R : Type}

/-- A record never changes an id or a ghost flag, and never a real particle. -/
theorem unpackRecord_frame (lookupLocalParticle : Int → Option Nat) (mem : Memory R)
    (rec : GhostRecord R) (b : Nat) :
    (unpackRecord lookupLocalParticle mem rec b).id = (mem b).id ∧
    (unpackRecord lookupLocalParticle mem rec b).ghost = (mem b).ghost ∧
    ((mem b).ghost = false → unpackRecord lookupLocalParticle mem rec b = mem b) := by
  unfold unpackRecord
  cases hl : lookupLocalParticle rec.p_id with
  | none => exact ⟨rfl, rfl, fun _ => rfl⟩
  | some particle =>
    simp only
    by_cases hgh : (mem particle).ghost = true
    · rw [if_pos hgh]
      by_cases hb : b = particle
      · subst hb
        rw [Function.update_same]
        refine ⟨rfl, rfl, fun h => ?_⟩
        rw [h] at hgh
        cases hgh
      · rw [Function.update_noteq hb]
        exact ⟨rfl, rfl, fun _ => rfl⟩
    · rw [if_neg hgh]
      exact ⟨rfl, rfl, fun _ => rfl⟩

/-- A record leaves every particle other than the one found by the lookup. -/
theorem unpackRecord_other (lookupLocalParticle : Int → Option Nat) (mem : Memory R)
    (rec : GhostRecord R) (b : Nat) (h : lookupLocalParticle rec.p_id ≠ some b) :
    unpackRecord lookupLocalParticle mem rec b = mem b := by
  unfold unpackRecord
  cases hl : lookupLocalParticle rec.p_id with
  | none => rfl
  | some particle =>
    simp only
    have hb : b ≠ particle := by
      intro hb
      rw [hl, hb] at h
      exact h rfl
    split
    · rw [Function.update_noteq hb]
    · rfl

/-- A record whose id is found at a ghost overwrites the six attributes. -/
theorem unpackRecord_hit (lookupLocalParticle : Int → Option Nat) (mem : Memory R)
    (rec : GhostRecord R) (a : Nat) (hl : lookupLocalParticle rec.p_id = some a)
    (hgh : (mem a).ghost = true) :
    unpackRecord lookupLocalParticle mem rec a =
      { mem a with
        type := rec.p_type, mass := rec.p_mass, q := rec.p_q, res_id := rec.p_res_id,
        lambda := rec.p_lambda, state := rec.p_state } := by
  unfold unpackRecord
  rw [hl]
  simp only
  rw [if_pos hgh, Function.update_same]

/-- The particles after `updateGhost`: the buffers of the schedule are unpacked
one after the other. -/
theorem updateGhost_schedule (getGridSize : Nat → Int)
    (received : Nat → List (GhostRecord R)) (lookupLocalParticle : Int → Option Nat)
    (mem : Memory R) :
    updateGhost getGridSize received lookupLocalParticle mem =
      (recvSchedule getGridSize).foldl
        (fun m j => (received j).foldl (unpackRecord lookupLocalParticle) m) mem := by
  have hdir : ∀ (m : Memory R) (direction : Nat),
      updateGhostDirection getGridSize received lookupLocalParticle m direction =
        (dirSchedule getGridSize direction).foldl
          (fun m j => (received j).foldl (unpackRecord lookupLocalParticle) m) m := by
    intro m direction
    unfold updateGhostDirection dirSchedule
    simp only
    split
    · rfl
    · split
      · rfl
      · rfl
  unfold updateGhost recvSchedule
  simp only [List.foldl_cons, List.foldl_nil, List.foldl_append, hdir]

end Ghost

/-! ## The claims on the construction, the lookup of reactions and the order -/

section ClaimsEngine

variable {R : Type}

/-- C11: for every ordered pair `(A, B)` returned by `isValidPair` with
distinct ids, the record built by the scan of `React` has order 1 exactly when
`id(A) < id(B)` and order 2 otherwise, and the decoding of `applyAR` looks up
`p1` with `id(A)` and `p2` with `id(B)`. -/
theorem order_round_trip (reaction_idx_ : Int) (p : ReactedPair R)
    (lookupLocalParticle : Int → Option Nat) (h : p.first.id ≠ p.second.id) :
    ((scanRecord reaction_idx_ p).2.2.order = 1 ↔ p.first.id < p.second.id) ∧
    (¬ p.first.id < p.second.id → (scanRecord reaction_idx_ p).2.2.order = 2) ∧
    lookupEndpoints lookupLocalParticle (scanRecord reaction_idx_ p) =
      some (lookupLocalParticle p.first.id, lookupLocalParticle p.second.id) := by
  by_cases hgt : p.first.id > p.second.id
  · have hrec : scanRecord reaction_idx_ p =
        (p.second.id, (p.first.id, ReactionDef.mk reaction_idx_ p.reaction_rate p.r_sqr 2)) := by
      unfold scanRecord
      exact if_pos hgt
    rw [hrec]
    have h21 : ¬ ((2 : Int) = 1) := by decide
    refine ⟨⟨fun h1 => absurd h1 h21, fun h1 => by omega⟩, fun _ => rfl, ?_⟩
    unfold lookupEndpoints
    rw [if_neg h21, if_pos rfl]
  · have hrec : scanRecord reaction_idx_ p =
        (p.first.id, (p.second.id, ReactionDef.mk reaction_idx_ p.reaction_rate p.r_sqr 1)) := by
      unfold scanRecord
      exact if_neg hgt
    rw [hrec]
    refine ⟨⟨fun _ => by omega, fun _ => rfl⟩, fun h1 => by omega, ?_⟩
    unfold lookupEndpoints
    rw [if_pos rfl]
theorem order_round_trip_witness :
    (particleOf 5).id ≠ (particleOf 3).id ∧
    scanRecord 0 (⟨particleOf 5, particleOf 3, 1, 1⟩ : ReactedPair Int) =
      (3, (5, ⟨0, 1, 1, 2⟩)) ∧
    lookupEndpoints (fun pid => some pid.toNat)
        (scanRecord 0 (⟨particleOf 5, particleOf 3, 1, 1⟩ : ReactedPair Int)) =
      some (some 5, some 3) :=
  ⟨by decide, by decide,
    (order_round_trip 0 (⟨particleOf 5, particleOf 3, 1, 1⟩ : ReactedPair Int)
      (fun pid => some pid.toNat) (by decide)).2.2⟩

/-- C19: `getReaction` on a list shorter than `2^63` at a `longint` index.  At
the index equal to the number of registered reactions the guard
`reaction_idx > reaction_list_.size()` lets the call pass and the read
`reaction_list_[reaction_idx]` is past the end of the vector: no exception is
thrown.  The indices inside the range return the registered reaction; the
indices above the size and the negative ones throw when at most 28 reactions
are registered, and beyond that the operand of the `throw` is undefined. -/
theorem getReaction_at_size (reaction_list_ : List Reaction) (reaction_idx : Int)
    (hlen : reaction_list_.length < 9223372036854775808)
    (hidx : -9223372036854775808 ≤ reaction_idx ∧ reaction_idx < 9223372036854775808) :
    (∀ i (hi : i < reaction_list_.length), reaction_idx = (i : Int) →
      getReaction reaction_list_ reaction_idx = Outcome.value reaction_list_[i]) ∧
    (reaction_idx = (reaction_list_.length : Int) →
      getReaction reaction_list_ reaction_idx = Outcome.undefined) ∧
    ((reaction_list_.length : Int) < reaction_idx ∨ reaction_idx < 0 →
      getReaction reaction_list_ reaction_idx =
        if reaction_list_.length ≤ 28 then Outcome.thrown else Outcome.undefined) := by
  unfold getReaction toSizeT
  refine ⟨?_, ?_, ?_⟩
  · intro i hi hidx1
    have hu : (reaction_idx % 18446744073709551616).toNat = i := by omega
    rw [hu, if_neg (by omega), List.getElem?_eq_getElem hi]
  · intro hidx1
    have hu : (reaction_idx % 18446744073709551616).toNat = reaction_list_.length := by omega
    rw [hu, if_neg (by omega), List.getElem?_eq_none (le_refl _)]
  · intro hidx1
    rw [if_pos (by omega)]

theorem getReaction_at_size_witness :
    getReaction oneReaction 1 = Outcome.undefined ∧
    getReaction oneReaction 0 = Outcome.value plainReaction ∧
    getReaction oneReaction 2 = Outcome.thrown ∧
    getReaction oneReaction (-1) = Outcome.thrown :=
  ⟨(getReaction_at_size oneReaction 1 (by decide) (by decide)).2.1 (by decide),
    (getReaction_at_size oneReaction 0 (by decide) (by decide)).1 0 (by decide) (by decide),
    (getReaction_at_size oneReaction 2 (by decide) (by decide)).2.2 (Or.inl (by decide)),
    (getReaction_at_size oneReaction (-1) (by decide) (by decide)).2.2 (Or.inr (by decide))⟩

/-- C20, as stated, fails: the engine built by the constructor has interval 0,
not 1. -/
theorem interval_default_not_one :
    ∃ e : Engine Int, construct (3 : Int) true 9223372036854775807 = Outcome.value e ∧
      interval e = 0 ∧ interval e ≠ 1 :=
  ⟨_, rfl, rfl, by decide⟩

/-- C20, amended: a newly constructed engine has interval 0, the value of the
value-initialised `boost::make_shared<int>()`; `interval()` returns 0 before
any call of `set_interval` and the value set after such a call. -/
theorem interval_default_zero [NatCast R] (current_cutoff : R) (longintMax : Int) :
    ∃ e : Engine R, construct current_cutoff true longintMax = Outcome.value e ∧
      interval e = 0 ∧ ∀ n, interval (set_interval e n) = n :=
  ⟨_, rfl, rfl, fun _ => rfl⟩

end ClaimsEngine

/-! ## The claims on applyAR and applyDR -/

section ClaimsReact
variable {R L τ : Type}

/-- C13: in `applyAR`, a candidate of a registered reaction whose lookup
returns `NULL` for an endpoint, or whose `p1` or `p2` fails the type check or
the state window of the reaction, leaves everything as it was: the particles,
the bond lists, the set `modified_particles`, the counters and
`pair_distances_`; in particular `p1` keeps its state when only `p2` is
invalid. -/
theorem applyAR_invalid_unchanged (ops : PairListOps L)
    (postProcess_T1 postProcess_T2 : Reaction → Memory R → Nat → Nat → List Nat × Memory R)
    (tm : TopologyManager) (lookupLocalParticle : Int → Option Nat)
    (reaction_list_ : List Reaction) (save_pd_ : Bool) (st : ReactState R L) (it : Record R)
    (reaction : Reaction) (ends : Option Nat × Option Nat)
    (hreac : reaction_list_[toSizeT it.2.2.reaction_id]? = some reaction)
    (hlook : lookupEndpoints lookupLocalParticle it = some ends)
    (hbad : ends.1 = none ∨ ends.2 = none ∨
      ∃ p1 p2, ends = (some p1, some p2) ∧
        (¬ (reaction.type_1 = (st.mem p1).type ∧ isValidState_T1 reaction (st.mem p1) = true) ∨
          ¬ (reaction.type_2 = (st.mem p2).type ∧
            isValidState_T2 reaction (st.mem p2) = true))) :
    applyARStep ops postProcess_T1 postProcess_T2 tm lookupLocalParticle reaction_list_
        save_pd_ st it = Outcome.value st := by
  apply applyARStep_skip ops postProcess_T1 postProcess_T2 tm lookupLocalParticle reaction_list_
    save_pd_ st it reaction ends hreac hlook
  intro p1 p2 hends
  rw [validState_false_iff]
  rcases hbad with h1 | h2 | ⟨q1, q2, hq, hinv⟩
  · rw [hends] at h1; cases h1
  · rw [hends] at h2; cases h2
  · rw [hends] at hq
    cases hq
    exact hinv

theorem applyAR_invalid_unchanged_witness :
    applyARStep (specPairList (lookupIn [particleTS 1 1 0 false, particleTS 2 2 5 false]))
      noPostProcess noPostProcess tmPairs
      (lookupIn [particleTS 1 1 0 false, particleTS 2 2 5 false]) [plainReaction] true
      (stateOf [particleTS 1 1 0 false, particleTS 2 2 5 false] []) (rec0 1 2 4) =
      Outcome.value (stateOf [particleTS 1 1 0 false, particleTS 2 2 5 false] []) :=
  applyAR_invalid_unchanged _ noPostProcess noPostProcess tmPairs _ [plainReaction] true
    (stateOf [particleTS 1 1 0 false, particleTS 2 2 5 false] []) (rec0 1 2 4) plainReaction
    (some 0, some 1) (by decide) (by decide)
    (Or.inr (Or.inr ⟨0, 1, rfl, Or.inr (by decide)⟩))

/-- C14: for a candidate that `applyAR` applies, the bond list of the reaction
becomes the list returned by `iadd(key, partner id)` exactly when the reaction
is not virtual and not both endpoints are ghosts, and is left alone otherwise;
the other bond lists are not touched.  The arguments are the key and the
partner id of the record whatever its order, so a list that stores the pair as
it is given holds the lower id first when key < partner id. -/
theorem applyAR_bond_insertion (ops : PairListOps L)
    (postProcess_T1 postProcess_T2 : Reaction → Memory R → Nat → Nat → List Nat × Memory R)
    (tm : TopologyManager) (lookupLocalParticle : Int → Option Nat)
    (reaction_list_ : List Reaction) (save_pd_ : Bool) (st : ReactState R L) (it : Record R)
    (reaction : Reaction) (p1 p2 : Nat)
    (hreac : reaction_list_[toSizeT it.2.2.reaction_id]? = some reaction)
    (hlook : lookupEndpoints lookupLocalParticle it = some (some p1, some p2))
    (hvalid : validState reaction st.mem p1 p2 = true) :
    ∃ st1, applyARStep ops postProcess_T1 postProcess_T2 tm lookupLocalParticle reaction_list_
        save_pd_ st it = Outcome.value st1 ∧
      st1.pair_lists reaction.fixed_pair_list_ =
        (if (!reaction.virtual_reaction && !((st1.mem p1).ghost && (st1.mem p2).ghost)) = true
          then (ops.iadd (st.pair_lists reaction.fixed_pair_list_) it.1 it.2.1).2
          else st.pair_lists reaction.fixed_pair_list_) ∧
      (∀ h, h ≠ reaction.fixed_pair_list_ → st1.pair_lists h = st.pair_lists h) ∧
      (∀ (lookup : Int → Option Nat) (l : List (Int × Int)),
        (it.1, it.2.1) ∈ ((specPairList lookup).iadd l it.1 it.2.1).2 ∧
        (it.1 < it.2.1 → ∀ pr ∈ ((specPairList lookup).iadd l it.1 it.2.1).2,
          pr ∉ l → pr.1 < pr.2)) := by
  refine ⟨_, applyARStep_valid ops postProcess_T1 postProcess_T2 tm lookupLocalParticle
    reaction_list_ save_pd_ st it reaction p1 p2 hreac hlook hvalid, ?_, ?_, ?_⟩
  · rw [associate_pair_lists]
    unfold bondWanted
    split
    · rw [Function.update_same]
    · rfl
  · intro h hne
    rw [associate_pair_lists]
    split
    · rw [Function.update_noteq hne]
    · rfl
  · intro lookup l
    unfold specPairList
    simp only
    by_cases hin : (it.1, it.2.1) ∈ l
    · simp only [hin, if_true, true_and]
      intro _ pr hpr hnot
      exact absurd hpr hnot
    · simp only [hin, if_false, List.mem_append, List.mem_singleton, or_true, true_and]
      intro hlt pr hpr hnot
      rcases hpr with hpr | hpr
      · exact absurd hpr hnot
      · rw [hpr]; exact hlt

theorem applyAR_bond_insertion_witness :
    ∃ st1, applyARStep (specPairList (lookupIn twoParticles)) noPostProcess noPostProcess
        tmPairs (lookupIn twoParticles) [plainReaction] true (stateOf twoParticles [])
        (rec0 1 2 4) = Outcome.value st1 ∧
      st1.pair_lists 0 = [(1, 2)] :=
  match applyAR_bond_insertion (specPairList (lookupIn twoParticles)) noPostProcess
    noPostProcess tmPairs (lookupIn twoParticles) [plainReaction] true
    (stateOf twoParticles []) (rec0 1 2 4) plainReaction 0 1 (by decide) (by decide)
    (by decide) with
  | ⟨st1, h1, h2, _⟩ => ⟨st1, h1, by
      have hst : st1 = associate (specPairList (lookupIn twoParticles)) noPostProcess
          noPostProcess tmPairs true plainReaction (stateOf twoParticles []) (rec0 1 2 4) 0 1 := by
        have h0 := applyARStep_valid (specPairList (lookupIn twoParticles)) noPostProcess
          noPostProcess tmPairs (lookupIn twoParticles) [plainReaction] true
          (stateOf twoParticles []) (rec0 1 2 4) plainReaction 0 1 (by decide) (by decide)
          (by decide)
        rw [h0] at h1
        exact (Outcome.value.inj h1).symm
      subst hst
      decide⟩

/-- C15: for a candidate that `applyAR` applies (both endpoints present, the
predicates hold, the states are changed by the deltas), the counter of its
reaction index is increased by 1 only when the reaction is not virtual, not
both endpoints are ghosts and `iadd` returns true (lines 977-981); in every
other case, a virtual reaction and an `iadd` that returns false included, no
counter is changed, although the reaction was executed and
ChemicalReactionExt.hpp, line 199, documents the counter as the number of times
the reaction is executed.  The counters of the other indices are never
changed. -/
theorem applyAR_counter_iff_bond_added (ops : PairListOps L)
    (postProcess_T1 postProcess_T2 : Reaction → Memory R → Nat → Nat → List Nat × Memory R)
    (tm : TopologyManager) (lookupLocalParticle : Int → Option Nat)
    (reaction_list_ : List Reaction) (save_pd_ : Bool) (st : ReactState R L) (it : Record R)
    (reaction : Reaction) (p1 p2 : Nat)
    (hreac : reaction_list_[toSizeT it.2.2.reaction_id]? = some reaction)
    (hlook : lookupEndpoints lookupLocalParticle it = some (some p1, some p2))
    (hvalid : validState reaction st.mem p1 p2 = true) :
    ∃ st1, applyARStep ops postProcess_T1 postProcess_T2 tm lookupLocalParticle reaction_list_
        save_pd_ st it = Outcome.value st1 ∧
      ((!reaction.virtual_reaction && !((st1.mem p1).ghost && (st1.mem p2).ghost) &&
          (ops.iadd (st.pair_lists reaction.fixed_pair_list_) it.1 it.2.1).1) = true →
        st1.tmp_reaction_counters[toSizeT it.2.2.reaction_id]? =
          (st.tmp_reaction_counters[toSizeT it.2.2.reaction_id]?).map (fun x => x + 1)) ∧
      ((!reaction.virtual_reaction && !((st1.mem p1).ghost && (st1.mem p2).ghost) &&
          (ops.iadd (st.pair_lists reaction.fixed_pair_list_) it.1 it.2.1).1) = false →
        st1.tmp_reaction_counters = st.tmp_reaction_counters) ∧
      (∀ j, j ≠ toSizeT it.2.2.reaction_id →
        st1.tmp_reaction_counters[j]? = st.tmp_reaction_counters[j]?) := by
  refine ⟨_, applyARStep_valid ops postProcess_T1 postProcess_T2 tm lookupLocalParticle
    reaction_list_ save_pd_ st it reaction p1 p2 hreac hlook hvalid, ?_, ?_, ?_⟩
  · intro hc
    rw [associate_counters]
    unfold bondWanted
    rw [if_pos hc, vectorIncr_getElem?, if_pos rfl]
  · intro hc
    rw [associate_counters]
    unfold bondWanted
    rw [if_neg (by rw [hc]; decide)]
  · intro j hj
    rw [associate_counters]
    split
    · rw [vectorIncr_getElem?, if_neg hj]
    · rfl

theorem applyAR_counter_iff_bond_added_witness :
    (∃ st1, applyARStep (specPairList (lookupIn twoParticles)) noPostProcess noPostProcess
        tmPairs (lookupIn twoParticles) [plainReaction] true (stateOf twoParticles [])
        (rec0 1 2 4) = Outcome.value st1 ∧
      st1.tmp_reaction_counters[0]? = some 1) ∧
    (applyAR (specPairList (lookupIn twoParticles)) noPostProcess noPostProcess tmPairs
      (lookupIn twoParticles) [virtualReaction] true 7 [rec0 1 2 4] (stateOf twoParticles [])
      ⟨[], []⟩).toOption.map (fun r => (snapshot 2 r.1, r.2.time_reaction_counter_)) =
      some (⟨[1, 1], [], [0, 1], [0], [0, 0], []⟩, [(7, [0])]) ∧
    (applyAR (specPairList (lookupIn twoParticles)) noPostProcess noPostProcess tmPairs
      (lookupIn twoParticles) [plainReaction] true 7 [rec0 1 2 4]
      (stateOf twoParticles [(1, 2)]) ⟨[], []⟩).toOption.map
        (fun r => (snapshot 2 r.1, r.2.time_reaction_counter_)) =
      some (⟨[1, 1], [(1, 2)], [0, 1], [0], [0, 0], []⟩, [(7, [0])]) ∧
    (applyAR (specPairList (lookupIn twoParticles)) noPostProcess noPostProcess tmPairs
      (lookupIn twoParticles) [plainReaction] true 7 [rec0 1 2 4] (stateOf twoParticles [])
      ⟨[], []⟩).toOption.map (fun r => (snapshot 2 r.1, r.2.time_reaction_counter_)) =
      some (⟨[1, 1], [(1, 2)], [0, 1], [1], [0, 1], [4]⟩, [(7, [1])]) :=
  ⟨match applyAR_counter_iff_bond_added (specPairList (lookupIn twoParticles)) noPostProcess
    noPostProcess tmPairs (lookupIn twoParticles) [plainReaction] true
    (stateOf twoParticles []) (rec0 1 2 4) plainReaction 0 1 (by decide) (by decide)
    (by decide) with
  | ⟨st1, h1, _, _⟩ => ⟨st1, h1, by
      have hst : st1 = associate (specPairList (lookupIn twoParticles)) noPostProcess
          noPostProcess tmPairs true plainReaction (stateOf twoParticles []) (rec0 1 2 4) 0 1 := by
        have h0 := applyARStep_valid (specPairList (lookupIn twoParticles)) noPostProcess
          noPostProcess tmPairs (lookupIn twoParticles) [plainReaction] true
          (stateOf twoParticles []) (rec0 1 2 4) plainReaction 0 1 (by decide) (by decide)
          (by decide)
        rw [h0] at h1
        exact (Outcome.value.inj h1).symm
      subst hst
      decide⟩,
    by decide, by decide, by decide⟩

/-- C16: `applyDR` with no post-processor on the bond list (1, 2), (3, 4) of an
active reverse reaction that accepts both bonds: both bonds are removed and the
four states go from 1 to 0, but the set `modified_particles` stays empty.  In
general, without post-processors `applyDR` never inserts a particle into
`modified_particles`, whatever bonds it removes: the endpoints are inserted by
`applyAR` only. -/
theorem applyDR_endpoints_not_inserted :
    snapshot 4 (stateOf fourParticles [(1, 2), (3, 4)]) =
      ⟨[1, 1, 1, 1], [(1, 2), (3, 4)], [], [0], [0, 0], []⟩ ∧
    snapshot 4 (applyDR (specPairList (lookupIn fourParticles)) isValidPairSpec noPostProcess
      noPostProcess [reverseReaction] (stateOf fourParticles [(1, 2), (3, 4)]) ()).1 =
      ⟨[0, 0, 0, 0], [], [], [0], [0, 0], []⟩ ∧
    ∀ (ops : PairListOps L)
      (isValidPair : τ → Reaction → Memory R → Nat → Nat → Option (ReactedPointers R) × τ)
      (reverse_reaction_list_ : List Reaction) (st : ReactState R L) (t : τ),
      (applyDR ops isValidPair noPostProcess noPostProcess reverse_reaction_list_ st
        t).1.modified_particles = st.modified_particles :=
  ⟨by decide, by decide, fun ops isValidPair reverse_reaction_list_ st t =>
    applyDR_modified_unchanged ops isValidPair reverse_reaction_list_ st t⟩

end ClaimsReact

/-! ## The claims on updateGhost -/

section ClaimsGhost
variable {R ρ : Type}

/-- C17: `updateGhost` treats a received record (pid, type, mass, charge, resId,
lambda, state) as follows, in a storage whose lookup returns particles of the id
asked for.  If the lookup finds a particle for the pid and it is a ghost, its
type, mass, charge, resId, lambda and state become the values of the record and
its id and ghost flag stay; every real particle and every particle with another
id is left as it was. -/
theorem unpackRecord_spec (lookupLocalParticle : Int → Option Nat) (mem : Memory R)
    (rec : GhostRecord R)
    (hstore : ∀ a, lookupLocalParticle rec.p_id = some a → (mem a).id = rec.p_id) :
    (∀ a, lookupLocalParticle rec.p_id = some a → (mem a).ghost = true →
      unpackRecord lookupLocalParticle mem rec a =
        { mem a with
          type := rec.p_type, mass := rec.p_mass, q := rec.p_q, res_id := rec.p_res_id,
          lambda := rec.p_lambda, state := rec.p_state }) ∧
    (∀ b, (mem b).ghost = false → unpackRecord lookupLocalParticle mem rec b = mem b) ∧
    (∀ b, (mem b).id ≠ rec.p_id → unpackRecord lookupLocalParticle mem rec b = mem b) := by
  refine ⟨fun a hl hgh => unpackRecord_hit lookupLocalParticle mem rec a hl hgh,
    fun b hb => (unpackRecord_frame lookupLocalParticle mem rec b).2.2 hb, fun b hb => ?_⟩
  apply unpackRecord_other
  intro hl
  exact hb (hstore b hl)

theorem unpackRecord_spec_witness :
    unpackRecord (lookupIn [particleTS 7 1 9 true, particleTS 8 1 0 true])
      (memOf [particleTS 7 1 9 true, particleTS 8 1 0 true]) ⟨7, 2, 3, 4, 5, 6, 8⟩ 0 =
      ⟨7, 2, 8, 5, 3, 4, 6, true⟩ ∧
    unpackRecord (lookupIn [particleTS 7 1 9 true, particleTS 8 1 0 true])
      (memOf [particleTS 7 1 9 true, particleTS 8 1 0 true]) ⟨7, 2, 3, 4, 5, 6, 8⟩ 1 =
      particleTS 8 1 0 true :=
  ⟨(unpackRecord_spec (lookupIn [particleTS 7 1 9 true, particleTS 8 1 0 true])
      (memOf [particleTS 7 1 9 true, particleTS 8 1 0 true]) ⟨7, 2, 3, 4, 5, 6, 8⟩
      (fun a h => lookupIn_id _ _ a h)).1 0 (by decide) (by decide),
    (unpackRecord_spec (lookupIn [particleTS 7 1 9 true, particleTS 8 1 0 true])
      (memOf [particleTS 7 1 9 true, particleTS 8 1 0 true]) ⟨7, 2, 3, 4, 5, 6, 8⟩
      (fun a h => lookupIn_id _ _ a h)).2.2 1 (by decide)⟩

end ClaimsGhost

/-! ## Lemmas on React -/

/-- The remainder of the truncated division is zero exactly when the remainder
of the Euclidean division is. -/
theorem tmod_ne_zero_iff (s k : Int) : Int.tmod s k ≠ 0 ↔ s % k ≠ 0 := by
  rw [Ne, Ne, ← Int.dvd_iff_emod_eq_zero]
  constructor
  · intro h hd
    exact h (Int.tmod_eq_zero_of_dvd hd)
  · intro h hd
    exact h (Int.dvd_of_tmod_eq_zero hd)

/-! ## Lemmas on sendMultiMap -/

section Payload
variable {R : Type}

/-- The buffer after a run of writes. -/
theorem foldl_write (toInt : Int → Int) (mm : ReactionMap R) (init : Buffer R) :
    mm.foldl (fun out_buffer it => out_buffer ++ writeRecord toInt it) init =
      init ++ (mm.map (writeRecord toInt)).flatten := by
  induction mm generalizing init with
  | nil => simp
  | cons it rest ih =>
    simp only [List.foldl_cons, List.map_cons, List.flatten_cons]
    rw [ih, List.append_assoc]

/-- The buffer `out_buffer`: the count, then the records. -/
theorem fillOutBuffer_eq (toInt : Int → Int) (mm : ReactionMap R) :
    fillOutBuffer toInt mm =
      Item.int (mm.length : Nat) :: (mm.map (writeRecord toInt)).flatten := by
  unfold fillOutBuffer
  rw [foldl_write]
  rfl

/-- Reading the six values written for a record. -/
theorem readRecord_write (toInt : Int → Int) (it : Record R) (rest : Buffer R) :
    readRecord (writeRecord toInt it ++ rest) = some (narrowRecord toInt it, rest) := rfl

/-- A record whose ids fit is read back as it was. -/
theorem narrowRecord_fits (toInt : Int → Int) (it : Record R) (h : FitsInt toInt it) :
    narrowRecord toInt it = it := by
  obtain ⟨k, b, d⟩ := it
  obtain ⟨rid, rate, rsq, o⟩ := d
  obtain ⟨h1, h2, h3⟩ := h
  simp only at h1 h2 h3
  unfold narrowRecord
  simp only [h1, h2, h3]

/-- Reading back a run of written records inserts them in the order written. -/
theorem readRecords_write (toInt : Int → Int) (recs : ReactionMap R) (rest : Buffer R)
    (mm : ReactionMap R) :
    readRecords recs.length ((recs.map (writeRecord toInt)).flatten ++ rest) mm =
      some ((recs.map (narrowRecord toInt)).foldl mmInsert mm) := by
  induction recs generalizing mm with
  | nil => rfl
  | cons it tail ih =>
    simp only [List.length_cons, List.map_cons, List.flatten_cons, List.append_assoc,
      List.foldl_cons]
    rw [readRecords, readRecord_write toInt it _]
    exact ih _

/-- Unpacking the `out_buffer` of a map inserts the records read back, in
iteration order. -/
theorem unpackBuffer_fill_narrow (toInt : Int → Int) (sent mm : ReactionMap R) :
    unpackBuffer (fillOutBuffer toInt sent) mm =
      some ((sent.map (narrowRecord toInt)).foldl mmInsert mm) := by
  rw [fillOutBuffer_eq]
  unfold unpackBuffer
  simp only [Int.toNat_ofNat]
  have := readRecords_write toInt sent [] mm
  rw [List.append_nil] at this
  exact this

/-- Unpacking the `out_buffer` of a map whose ids fit inserts its records in
iteration order. -/
theorem unpackBuffer_fill (toInt : Int → Int) (sent mm : ReactionMap R)
    (h : ∀ it ∈ sent, FitsInt toInt it) :
    unpackBuffer (fillOutBuffer toInt sent) mm = some (sent.foldl mmInsert mm) := by
  rw [unpackBuffer_fill_narrow]
  have : sent.map (narrowRecord toInt) = sent := by
    conv_rhs => rw [← List.map_id sent]
    apply List.map_congr_left
    intro it hit
    exact narrowRecord_fits toInt it (h it hit)
  rw [this]

/-- The map after the insertion of a run of records holds the previous records
and the inserted ones. -/
theorem foldl_mmInsert_records (recs mm : ReactionMap R) :
    (recs.foldl mmInsert mm).Perm (mm ++ recs) := by
  have h := foldl_mmInsert_perm (fun x : Record R => x) recs mm
  simp only [List.map_id'] at h
  exact h

end Payload
section Exchanges
variable {R B : Type}

/-- The lr loop of one direction: the buffers received and the exchanges
logged. -/
theorem exchangeLoop_eq (s : Int) (d : Nat) (out : B) (received : Nat → B)
    (c : CommState B) :
    [0, 1].foldl (exchangeStep s d out received) c =
      if s = 2 then
        ⟨received (2 * d + 1), c.in_buffer_1, c.log ++ [⟨d, 0, 2 * d + 0, 2 * d + 1, out⟩]⟩
      else
        ⟨received (2 * d + 1), received (2 * d + 0),
          c.log ++ [⟨d, 0, 2 * d + 0, 2 * d + 1, out⟩, ⟨d, 1, 2 * d + 1, 2 * d + 0, out⟩]⟩ := by
  simp only [List.foldl_cons, List.foldl_nil, exchangeStep]
  by_cases h : s = 2
  · simp [h]
  · simp [h]

/-- One direction of `sendMultiMap`: the buffers of the schedule are unpacked
in order, and the exchanges of the direction are logged. -/
theorem sendMultiMapDirection_eq (getGridSize : Nat → Int) (received : Nat → Buffer R)
    (out : Buffer R) (acc : CommState (Buffer R) × Option (ReactionMap R)) (d : Nat) :
    (sendMultiMapDirection getGridSize received out acc d).2 =
      (dirSchedule getGridSize d).foldl
        (fun m j => m.bind (unpackBuffer (received j))) acc.2 ∧
    (sendMultiMapDirection getGridSize received out acc d).1.log =
      acc.1.log ++ dirExchanges getGridSize d out := by
  unfold sendMultiMapDirection dirSchedule dirExchanges
  simp only
  by_cases h1 : getGridSize d = 1
  · simp [h1]
  · rw [if_neg h1, if_neg h1, if_neg h1, exchangeLoop_eq]
    by_cases h2 : getGridSize d = 2
    · simp only [h2, if_true, List.foldl_cons, List.foldl_nil, unpackStep]
      simp
      cases acc.2 <;> rfl
    · simp only [h2, if_false, List.foldl_cons, List.foldl_nil, unpackStep]
      simp
      cases acc.2 with
      | none => rfl
      | some m =>
        simp only [Option.some_bind]
        cases unpackBuffer (received (2 * d + 1)) m <;> rfl

/-- The function `sendMultiMap`: the buffers of the schedule are unpacked in
order into the map, and the exchanges of the three directions are logged. -/
theorem sendMultiMap_eq (toInt : Int → Int) (getGridSize : Nat → Int)
    (received : Nat → Buffer R) (mm : ReactionMap R) :
    (sendMultiMap toInt getGridSize received mm).1 =
      (recvSchedule getGridSize).foldl
        (fun m j => m.bind (unpackBuffer (received j))) (some mm) ∧
    (sendMultiMap toInt getGridSize received mm).2 =
      dirExchanges getGridSize 0 (fillOutBuffer toInt mm) ++
        dirExchanges getGridSize 1 (fillOutBuffer toInt mm) ++
        dirExchanges getGridSize 2 (fillOutBuffer toInt mm) := by
  unfold sendMultiMap recvSchedule
  simp only [List.foldl_cons, List.foldl_nil, List.foldl_append]
  refine ⟨?_, ?_⟩
  · rw [(sendMultiMapDirection_eq _ _ _ _ 2).1, (sendMultiMapDirection_eq _ _ _ _ 1).1,
      (sendMultiMapDirection_eq _ _ _ _ 0).1]
  · rw [(sendMultiMapDirection_eq _ _ _ _ 2).2, (sendMultiMapDirection_eq _ _ _ _ 1).2,
      (sendMultiMapDirection_eq _ _ _ _ 0).2]
    simp only [List.nil_append]

/-- One direction of `updateGhost` with the communication written out: the
particles are those of `updateGhostDirection`, and the exchanges of the
direction are logged. -/
theorem ghostExchangeDirection_eq (getGridSize : Nat → Int)
    (received : Nat → List (GhostRecord R)) (lookupLocalParticle : Int → Option Nat)
    (out : List (GhostRecord R)) (acc : CommState (List (GhostRecord R)) × Memory R)
    (d : Nat) :
    (ghostExchangeDirection getGridSize received lookupLocalParticle out acc d).2 =
      updateGhostDirection getGridSize received lookupLocalParticle acc.2 d ∧
    (ghostExchangeDirection getGridSize received lookupLocalParticle out acc d).1.log =
      acc.1.log ++ dirExchanges getGridSize d out := by
  unfold ghostExchangeDirection updateGhostDirection dirExchanges
  simp only
  by_cases h1 : getGridSize d = 1
  · simp [h1]
  · rw [if_neg h1, if_neg h1, if_neg h1, exchangeLoop_eq]
    by_cases h2 : getGridSize d = 2
    · simp only [h2, if_true, List.foldl_cons, List.foldl_nil, ghostUnpackStep]
      simp
    · simp only [h2, if_false, List.foldl_cons, List.foldl_nil, ghostUnpackStep]
      simp

/-- The function `updateGhost` with the communication written out: the
particles are those of `updateGhost`, and the exchanges of the three directions
are logged. -/
theorem updateGhostExchanges_eq (getGridSize : Nat → Int)
    (received : Nat → List (GhostRecord R)) (lookupLocalParticle : Int → Option Nat)
    (mem : Memory R) (modified_particles : List Nat) :
    (updateGhostExchanges getGridSize received lookupLocalParticle mem modified_particles).1 =
      updateGhost getGridSize received lookupLocalParticle mem ∧
    (updateGhostExchanges getGridSize received lookupLocalParticle mem modified_particles).2 =
      dirExchanges getGridSize 0 (packModified mem modified_particles) ++
        dirExchanges getGridSize 1 (packModified mem modified_particles) ++
        dirExchanges getGridSize 2 (packModified mem modified_particles) := by
  unfold updateGhostExchanges updateGhost
  simp only [List.foldl_cons, List.foldl_nil]
  refine ⟨?_, ?_⟩
  · rw [(ghostExchangeDirection_eq _ _ _ _ _ 2).1, (ghostExchangeDirection_eq _ _ _ _ _ 1).1,
      (ghostExchangeDirection_eq _ _ _ _ _ 0).1]
  · rw [(ghostExchangeDirection_eq _ _ _ _ _ 2).2, (ghostExchangeDirection_eq _ _ _ _ _ 1).2,
      (ghostExchangeDirection_eq _ _ _ _ _ 0).2]
    simp only [List.nil_append]

/-- The exchanges logged for the three directions are those of the plan. -/
theorem dirExchanges_plan (getGridSize : Nat → Int) (out : B) :
    (dirExchanges getGridSize 0 out ++ dirExchanges getGridSize 1 out ++
        dirExchanges getGridSize 2 out).map
      (fun e => (e.direction, e.left_right_dir, e.receiver, e.sender)) =
      exchangePlanSpec getGridSize := by
  have hd : ∀ d : Nat, (dirExchanges getGridSize d out).map
      (fun e => (e.direction, e.left_right_dir, e.receiver, e.sender)) =
      (if getGridSize d = 1 then []
        else if getGridSize d = 2 then [(d, 0, 2 * d + 0, 2 * d + 1)]
        else [(d, 0, 2 * d + 0, 2 * d + 1), (d, 1, 2 * d + 1, 2 * d + 0)]) := by
    intro d
    unfold dirExchanges
    split
    · rfl
    · split <;> rfl
  unfold exchangePlanSpec
  simp only [List.map_append, hd, List.map_cons, List.map_nil, List.flatten_cons,
    List.flatten_nil, List.append_nil, List.append_assoc]

/-- The number of exchanges of the plan. -/
theorem exchangePlanSpec_length (s : Nat → Int) (hs : ∀ d, d < 3 → 1 ≤ s d) :
    ((exchangePlanSpec s).length : Int) =
      min (s 0 - 1) 2 + min (s 1 - 1) 2 + min (s 2 - 1) 2 := by
  have h0 := hs 0 (by decide)
  have h1 := hs 1 (by decide)
  have h2 := hs 2 (by decide)
  unfold exchangePlanSpec
  simp only [List.map_cons, List.map_nil, List.flatten_cons, List.flatten_nil,
    List.length_append, List.append_nil, Nat.cast_add]
  have hd : ∀ d : Nat, 1 ≤ s d →
      (((if s d = 1 then []
        else if s d = 2 then [(d, 0, 2 * d + 0, 2 * d + 1)]
        else [(d, 0, 2 * d + 0, 2 * d + 1), (d, 1, 2 * d + 1, 2 * d + 0)] :
          List (Nat × Nat × Nat × Nat)).length : Nat) : Int) = min (s d - 1) 2 := by
    intro d hd
    by_cases e1 : s d = 1
    · rw [if_pos e1, e1]; rfl
    · rw [if_neg e1]
      by_cases e2 : s d = 2
      · rw [if_pos e2, e2]; rfl
      · rw [if_neg e2]
        simp only [List.length_cons, List.length_nil]
        omega
  rw [hd 0 h0, hd 1 h1, hd 2 h2, add_assoc]

/-- The senders of the exchanges of a direction are the neighbours of the
schedule. -/
theorem dirExchanges_senders (getGridSize : Nat → Int) (d : Nat) (out : B) :
    (dirExchanges getGridSize d out).map (fun e => e.sender) = dirSchedule getGridSize d := by
  unfold dirExchanges dirSchedule
  split
  · rfl
  · split <;> rfl

/-- The senders of the exchanges of the three directions. -/
theorem exchanges_senders (getGridSize : Nat → Int) (out : B) :
    (dirExchanges getGridSize 0 out ++ dirExchanges getGridSize 1 out ++
      dirExchanges getGridSize 2 out).map (fun e => e.sender) = recvSchedule getGridSize := by
  unfold recvSchedule
  rw [List.map_append, List.map_append, dirExchanges_senders, dirExchanges_senders,
    dirExchanges_senders]

/-- The map after `sendMultiMap`: for every exchange of the log, in order, the
buffer received from the sender of the exchange is unpacked. -/
theorem sendMultiMap_flow (toInt : Int → Int) (getGridSize : Nat → Int)
    (received : Nat → Buffer R) (mm : ReactionMap R) :
    (sendMultiMap toInt getGridSize received mm).1 =
      (sendMultiMap toInt getGridSize received mm).2.foldl
        (fun m e => m.bind (unpackBuffer (received e.sender))) (some mm) := by
  rw [(sendMultiMap_eq toInt getGridSize received mm).1,
    (sendMultiMap_eq toInt getGridSize received mm).2,
    ← exchanges_senders getGridSize (fillOutBuffer toInt mm), List.foldl_map]

/-- The particles after `updateGhost`: for every exchange of the log, in order,
the records received from the sender of the exchange are unpacked. -/
theorem updateGhostExchanges_flow (getGridSize : Nat → Int)
    (received : Nat → List (GhostRecord R)) (lookupLocalParticle : Int → Option Nat)
    (mem : Memory R) (modified_particles : List Nat) :
    (updateGhostExchanges getGridSize received lookupLocalParticle mem modified_particles).1 =
      (updateGhostExchanges getGridSize received lookupLocalParticle mem
        modified_particles).2.foldl
        (fun m e => (received e.sender).foldl (unpackRecord lookupLocalParticle) m) mem := by
  rw [(updateGhostExchanges_eq getGridSize received lookupLocalParticle mem
      modified_particles).1,
    (updateGhostExchanges_eq getGridSize received lookupLocalParticle mem
      modified_particles).2, updateGhost_schedule,
    ← exchanges_senders getGridSize (packModified mem modified_particles), List.foldl_map]

end Exchanges

section NotForwarded
variable {R : Type}

/-- Unpacking the `out_buffer` of the maps `w j` of a schedule: the result holds
the previous records and the records of these maps. -/
theorem schedule_unpack (toInt : Int → Int) (w : Nat → ReactionMap R) (sched : List Nat)
    (m : ReactionMap R) (hfit : ∀ j ∈ sched, ∀ it ∈ w j, FitsInt toInt it) :
    ∃ out, sched.foldl (fun m j => m.bind (unpackBuffer (fillOutBuffer toInt (w j))))
        (some m) = some out ∧
      out.Perm (m ++ (sched.map w).flatten) := by
  induction sched generalizing m with
  | nil => exact ⟨m, rfl, by simp⟩
  | cons j rest ih =>
    simp only [List.foldl_cons, Option.some_bind, List.map_cons, List.flatten_cons]
    rw [unpackBuffer_fill toInt (w j) m (hfit j (List.mem_cons_self _ _))]
    obtain ⟨out, hout, hperm⟩ := ih ((w j).foldl mmInsert m)
      (fun k hk => hfit k (List.mem_cons_of_mem _ hk))
    refine ⟨out, hout, hperm.trans ?_⟩
    rw [← List.append_assoc]
    exact List.Perm.append_right _ (foldl_mmInsert_records (w j) m)

/-- Every exchange of a direction sends the buffer given. -/
theorem dirExchanges_sent {B : Type} (getGridSize : Nat → Int) (d : Nat) (out : B) :
    ∀ e ∈ dirExchanges getGridSize d out, e.sent = out := by
  intro e he
  unfold dirExchanges at he
  split at he
  · cases he
  · split at he
    · simp only [List.mem_singleton] at he
      rw [he]
    · simp only [List.mem_cons, List.mem_singleton, List.not_mem_nil, or_false] at he
      rcases he with he | he <;> rw [he]

end NotForwarded

/-! ## Lemmas on the local loop -/

section LocalLoop
variable {R : Type}

/-- One iteration of the local loop: the record is skipped when an endpoint or
the residue of an endpoint is in use; otherwise it is emitted, unless the key is
the larger id and `p_order` holds no value, where the behaviour is undefined. -/
theorem localStep_cases (tm : TopologyManager) (st : LocalState R) (it : Record R) :
    ((st.particle_idx.contains it.1 || st.particle_idx.contains it.2.1) = true ∨
        (st.residue_idx.contains (tm.getResId it.1) ||
          st.residue_idx.contains (tm.getResId it.2.1)) = true →
      localStep tm st it = some st) ∧
    ((st.particle_idx.contains it.1 || st.particle_idx.contains it.2.1) = false →
      (st.residue_idx.contains (tm.getResId it.1) ||
          st.residue_idx.contains (tm.getResId it.2.1)) = false →
      (it.1 > it.2.1 → st.p_order ≠ none) →
      localStep tm st it = some
        { out := mmInsert st.out (emitted it),
          particle_idx := (emitted it).2.1 :: (emitted it).1 :: st.particle_idx,
          residue_idx := tm.getResId it.2.1 :: tm.getResId it.1 :: st.residue_idx,
          p_order := some it.2.2.order }) ∧
    ((st.particle_idx.contains it.1 || st.particle_idx.contains it.2.1) = false →
      (st.residue_idx.contains (tm.getResId it.1) ||
          st.residue_idx.contains (tm.getResId it.2.1)) = false →
      it.1 > it.2.1 → st.p_order = none → localStep tm st it = none) := by
  refine ⟨?_, ?_, ?_⟩
  · intro h
    rw [localStep_eq, if_pos h]
  · intro hp hr hval
    rw [localStep_eq, if_neg (by rw [hp, hr]; simp), if_neg (fun h => hval h.1 h.2)]
  · intro hp hr hgt hnone
    rw [localStep_eq, if_neg (by rw [hp, hr]; simp), if_pos ⟨hgt, hnone⟩]

end LocalLoop

section LocalResidues
variable {R : Type}

/-- A value that `contains` does not find is not in the list. -/
theorem contains_false_not_mem (x : Int) (l : List Int) (h : l.contains x = false) :
    x ∉ l := by
  intro hmem
  simp [hmem] at h

/-- A value of the list is found by `contains`. -/
theorem mem_contains_true (x : Int) (l : List Int) (h : x ∈ l) : l.contains x = true := by
  simp [h]

/-- The residues of the emitted record are those of the input record. -/
theorem emitted_residues (tm : TopologyManager) (it : Record R) :
    (tm.getResId (emitted it).1 = tm.getResId it.1 ∧
        tm.getResId (emitted it).2.1 = tm.getResId it.2.1) ∨
      (tm.getResId (emitted it).1 = tm.getResId it.2.1 ∧
        tm.getResId (emitted it).2.1 = tm.getResId it.1) := by
  unfold emitted
  split
  · exact Or.inr ⟨rfl, rfl⟩
  · exact Or.inl ⟨rfl, rfl⟩

/-- The invariant of the local loop behind residue exclusivity: the residues of
the emitted records are in `residue_idx`, and no two emitted records share a
residue. -/
theorem localLoop_residues (tm : TopologyManager) (mm : ReactionMap R)
    (st stf : LocalState R)
    (hmem : ∀ rec ∈ st.out,
      tm.getResId rec.1 ∈ st.residue_idx ∧ tm.getResId rec.2.1 ∈ st.residue_idx)
    (hpw : st.out.Pairwise (fun r1 r2 => ∀ x,
      ¬ (touches tm.getResId x r1 = true ∧ touches tm.getResId x r2 = true)))
    (hrun : localLoop tm mm st = some stf) :
    stf.out.Pairwise (fun r1 r2 => ∀ x,
      ¬ (touches tm.getResId x r1 = true ∧ touches tm.getResId x r2 = true)) := by
  induction mm generalizing st with
  | nil =>
    obtain rfl := Option.some.inj hrun
    exact hpw
  | cons it rest ih =>
    unfold localLoop at hrun
    rw [localStep_eq] at hrun
    by_cases hskip : (st.particle_idx.contains it.1 || st.particle_idx.contains it.2.1) = true ∨
        (st.residue_idx.contains (tm.getResId it.1) ||
          st.residue_idx.contains (tm.getResId it.2.1)) = true
    · rw [if_pos hskip] at hrun
      exact ih st hmem hpw hrun
    · rw [if_neg hskip] at hrun
      have hb : (st.residue_idx.contains (tm.getResId it.1) ||
          st.residue_idx.contains (tm.getResId it.2.1)) = false := by
        cases hx : (st.residue_idx.contains (tm.getResId it.1) ||
          st.residue_idx.contains (tm.getResId it.2.1))
        · rfl
        · exact absurd (Or.inr hx) hskip
      have hb1 : tm.getResId it.1 ∉ st.residue_idx ∧ tm.getResId it.2.1 ∉ st.residue_idx := by
        rw [Bool.or_eq_false_iff] at hb
        exact ⟨contains_false_not_mem _ _ hb.1, contains_false_not_mem _ _ hb.2⟩
      have hres := emitted_residues tm it
      have hnot : tm.getResId (emitted it).1 ∉ st.residue_idx ∧
          tm.getResId (emitted it).2.1 ∉ st.residue_idx := by
        rcases hres with ⟨e1, e2⟩ | ⟨e1, e2⟩
        · rw [e1, e2]; exact hb1
        · rw [e1, e2]; exact ⟨hb1.2, hb1.1⟩
      have hins := exclusive_insert tm.getResId st.residue_idx st.out (emitted it) hmem hpw
        hnot.1 hnot.2
      have heta : ((emitted it).1, ((emitted it).2.1, (emitted it).2.2)) = emitted it := rfl
      rw [heta] at hins
      by_cases hub : it.1 > it.2.1 ∧ st.p_order = none
      · rw [if_pos hub] at hrun
        cases hrun
      · rw [if_neg hub] at hrun
        refine ih _ ?_ hins.2 hrun
        intro rec hrec
        have := hins.1 rec hrec
        rcases hres with ⟨e1, e2⟩ | ⟨e1, e2⟩
        · rw [e1, e2] at this
          exact this
        · rw [e1, e2] at this
          simp only [List.mem_cons] at this ⊢
          tauto

end LocalResidues

/-! ## The claims on React and on the exchanges -/

section ClaimsReactLoop
variable {R L σ : Type}

/-- C21: for every interval > 0 and every integrator step `s` with
`s mod interval ≠ 0`, `React` returns with the data of the rank as they were:
the candidate maps, the particles, the bond lists, the counters and the
statistics are not changed.  The body of `React`, from the scan of the Verlet
list to the update of the ghosts, runs exactly when `s mod interval = 0`. -/
theorem React_off_interval [LinearOrder R] [NatCast R] (env : ReactEnv R L σ) (step : Int)
    (st : ReactData R L σ) (hint : 0 < st.engine.interval_) :
    (step % st.engine.interval_ ≠ 0 → React env step st = Outcome.value st) ∧
    (step % st.engine.interval_ = 0 → React env step st = reactPipeline env step st) := by
  have h0 : st.engine.interval_ ≠ 0 := ne_of_gt hint
  unfold React
  rw [if_neg h0]
  constructor
  · intro h
    rw [if_pos ((tmod_ne_zero_iff _ _).mpr h)]
  · intro h
    rw [if_neg (fun hn => (tmod_ne_zero_iff _ _).mp hn h)]

theorem React_off_interval_witness :
    React envOne 3 dataOne = Outcome.value dataOne ∧
    React envOne 4 dataOne = reactPipeline envOne 4 dataOne :=
  ⟨(React_off_interval envOne 3 dataOne (by decide)).1 (by decide),
    (React_off_interval envOne 4 dataOne (by decide)).2 (by decide)⟩

end ClaimsReactLoop

section ClaimsExchanges
variable {R : Type}

/-- C22: for every process grid, the exchanges performed by `sendMultiMap` and
by `updateGhost` are those of the plan: for the directions 0, 1, 2 in this
order none when the size is 1, the exchange `lr = 0` when it is 2, and `lr = 0`
then `lr = 1` otherwise, each sending to the neighbour index `2d + lr` and
receiving from the neighbour index `2d + (1 - lr)`.  Every exchange sends the
outgoing buffer of the rank, and the result of the call is obtained by
unpacking, exchange after exchange, the buffer that arrives from the sender of
the exchange.  For sizes at least 1 the number of exchanges is the sum over `d`
of `min(s_d - 1, 2)`: 6 when every size is at least 3, and 0 on a grid of one
rank, where the map and the particles are unchanged. -/
theorem exchanges_follow_plan (toInt : Int → Int) (getGridSize : Nat → Int)
    (received : Nat → Buffer R) (mm : ReactionMap R)
    (receivedGhost : Nat → List (GhostRecord R)) (lookupLocalParticle : Int → Option Nat)
    (mem : Memory R) (modified_particles : List Nat)
    (hsize : ∀ d, d < 3 → 1 ≤ getGridSize d) :
    (sendMultiMap toInt getGridSize received mm).2.map
        (fun e => (e.direction, e.left_right_dir, e.receiver, e.sender)) =
      exchangePlanSpec getGridSize ∧
    (updateGhostExchanges getGridSize receivedGhost lookupLocalParticle mem
        modified_particles).2.map
        (fun e => (e.direction, e.left_right_dir, e.receiver, e.sender)) =
      exchangePlanSpec getGridSize ∧
    ((exchangePlanSpec getGridSize).length : Int) =
      min (getGridSize 0 - 1) 2 + min (getGridSize 1 - 1) 2 + min (getGridSize 2 - 1) 2 ∧
    ((∀ d, d < 3 → 3 ≤ getGridSize d) → (exchangePlanSpec getGridSize).length = 6) ∧
    ((∀ d, d < 3 → getGridSize d = 1) →
      (exchangePlanSpec getGridSize).length = 0 ∧
      (sendMultiMap toInt getGridSize received mm).1 = some mm ∧
      (updateGhostExchanges getGridSize receivedGhost lookupLocalParticle mem
        modified_particles).1 = mem) ∧
    (∀ e ∈ (sendMultiMap toInt getGridSize received mm).2,
      e.sent = fillOutBuffer toInt mm) ∧
    (∀ e ∈ (updateGhostExchanges getGridSize receivedGhost lookupLocalParticle mem
        modified_particles).2, e.sent = packModified mem modified_particles) ∧
    (sendMultiMap toInt getGridSize received mm).1 =
      (exchangePlanSpec getGridSize).foldl
        (fun m e => m.bind (unpackBuffer (received e.2.2.2))) (some mm) ∧
    (updateGhostExchanges getGridSize receivedGhost lookupLocalParticle mem
        modified_particles).1 =
      (exchangePlanSpec getGridSize).foldl
        (fun m e => (receivedGhost e.2.2.2).foldl (unpackRecord lookupLocalParticle) m)
        mem := by
  have hlen := exchangePlanSpec_length getGridSize hsize
  have hp1 : (sendMultiMap toInt getGridSize received mm).2.map
        (fun e => (e.direction, e.left_right_dir, e.receiver, e.sender)) =
      exchangePlanSpec getGridSize := by
    rw [(sendMultiMap_eq toInt getGridSize received mm).2]
    exact dirExchanges_plan getGridSize _
  have hp2 : (updateGhostExchanges getGridSize receivedGhost lookupLocalParticle mem
        modified_particles).2.map
        (fun e => (e.direction, e.left_right_dir, e.receiver, e.sender)) =
      exchangePlanSpec getGridSize := by
    rw [(updateGhostExchanges_eq getGridSize receivedGhost lookupLocalParticle mem
      modified_particles).2]
    exact dirExchanges_plan getGridSize _
  refine ⟨hp1, hp2, hlen, ?_, ?_, ?_, ?_, ?_, ?_⟩
  · intro h3
    have h0 := h3 0 (by decide)
    have h1 := h3 1 (by decide)
    have h2 := h3 2 (by decide)
    omega
  · intro hone
    have h0 := hone 0 (by decide)
    have h1 := hone 1 (by decide)
    have h2 := hone 2 (by decide)
    refine ⟨by omega, ?_, ?_⟩
    · rw [(sendMultiMap_eq toInt getGridSize received mm).1]
      unfold recvSchedule dirSchedule
      rw [if_pos h0, if_pos h1, if_pos h2]
      rfl
    · rw [(updateGhostExchanges_eq getGridSize receivedGhost lookupLocalParticle mem
        modified_particles).1, updateGhost_schedule]
      unfold recvSchedule dirSchedule
      rw [if_pos h0, if_pos h1, if_pos h2]
      rfl
  · intro e he
    rw [(sendMultiMap_eq toInt getGridSize received mm).2] at he
    simp only [List.mem_append] at he
    rcases he with (he | he) | he
    · exact dirExchanges_sent getGridSize 0 _ e he
    · exact dirExchanges_sent getGridSize 1 _ e he
    · exact dirExchanges_sent getGridSize 2 _ e he
  · intro e he
    rw [(updateGhostExchanges_eq getGridSize receivedGhost lookupLocalParticle mem
      modified_particles).2] at he
    simp only [List.mem_append] at he
    rcases he with (he | he) | he
    · exact dirExchanges_sent getGridSize 0 _ e he
    · exact dirExchanges_sent getGridSize 1 _ e he
    · exact dirExchanges_sent getGridSize 2 _ e he
  · rw [sendMultiMap_flow, ← hp1, List.foldl_map]
  · rw [updateGhostExchanges_flow, ← hp2, List.foldl_map]

theorem exchanges_follow_plan_witness :
    (sendMultiMap toInt32 ringGridSize (fun j => fillOutBuffer toInt32 [rec0 (10 + j) 20 1])
        [rec0 1 2 4]).2.map
        (fun e => (e.direction, e.left_right_dir, e.receiver, e.sender)) =
      [(0, 0, 0, 1), (0, 1, 1, 0)] ∧
    ((exchangePlanSpec ringGridSize).length : Int) =
      min (ringGridSize 0 - 1) 2 + min (ringGridSize 1 - 1) 2 + min (ringGridSize 2 - 1) 2 ∧
    (sendMultiMap toInt32 ringGridSize (fun j => fillOutBuffer toInt32 [rec0 (10 + j) 20 1])
        [rec0 1 2 4]).1 =
      (exchangePlanSpec ringGridSize).foldl
        (fun m e => m.bind
          (unpackBuffer (fillOutBuffer toInt32 [rec0 (10 + ((e.2.2.2 : Nat) : Int)) 20 1])))
        (some [rec0 1 2 4]) ∧
    (sendMultiMap toInt32 ringGridSize (fun j => fillOutBuffer toInt32 [rec0 (10 + j) 20 1])
        [rec0 1 2 4]).1 = some [rec0 1 2 4, rec0 10 20 1, rec0 11 20 1] :=
  ⟨(exchanges_follow_plan toInt32 ringGridSize
      (fun j => fillOutBuffer toInt32 [rec0 (10 + j) 20 1]) [rec0 1 2 4]
      (fun _ => []) (fun _ => none) (memOf []) [] (by decide)).1,
    (exchanges_follow_plan toInt32 ringGridSize
      (fun j => fillOutBuffer toInt32 [rec0 (10 + j) 20 1]) [rec0 1 2 4]
      (fun _ => ([] : List (GhostRecord Int))) (fun _ => none) (memOf []) []
      (by decide)).2.2.1,
    (exchanges_follow_plan toInt32 ringGridSize
      (fun j => fillOutBuffer toInt32 [rec0 (10 + j) 20 1]) [rec0 1 2 4]
      (fun _ => ([] : List (GhostRecord Int))) (fun _ => none) (memOf []) []
      (by decide)).2.2.2.2.2.2.2.1,
    by decide⟩

end ClaimsExchanges
section ClaimsPayload
variable {R : Type}

/-- C23: for a candidate map whose particle ids and reaction ids are kept by the
conversion to `int`, the buffer written by `sendMultiMap` starts with the number
of records, followed by the six values of every record in iteration order;
unpacking it reads the same records back, with the same key, partner id,
reaction id, rate, squared distance and order, and inserts them in that order
into the map of the receiver, which afterwards holds all its previous records
and all received ones.  The conversion to a 32-bit `int` keeps every id of the
range of `int`. -/
theorem payload_round_trip (toInt : Int → Int) (sent mm : ReactionMap R)
    (hfit : ∀ it ∈ sent, FitsInt toInt it) :
    fillOutBuffer toInt sent =
      Item.int (sent.length : Nat) :: (sent.map (writeRecord toInt)).flatten ∧
    (∀ it ∈ sent, ∀ rest, readRecord (writeRecord toInt it ++ rest) = some (it, rest)) ∧
    unpackBuffer (fillOutBuffer toInt sent) mm = some (sent.foldl mmInsert mm) ∧
    (sent.foldl mmInsert mm).Perm (mm ++ sent) ∧
    (∀ x : Int, -2147483648 ≤ x → x < 2147483648 → toInt32 x = x) :=
  ⟨fillOutBuffer_eq toInt sent, fun it hit rest => by
      rw [readRecord_write, narrowRecord_fits toInt it (hfit it hit)],
    unpackBuffer_fill toInt sent mm hfit, foldl_mmInsert_records sent mm,
    fun x h1 h2 => by unfold toInt32; omega⟩

theorem payload_round_trip_witness :
    fillOutBuffer toInt32 [rec0 1 2 4, rec0 3 4 9] =
      Item.int 2 :: ([rec0 1 2 4, rec0 3 4 9].map (writeRecord toInt32)).flatten ∧
    unpackBuffer (fillOutBuffer toInt32 [rec0 1 2 4, rec0 3 4 9]) [rec0 1 4 1] =
      some [rec0 1 4 1, rec0 1 2 4, rec0 3 4 9] :=
  ⟨(payload_round_trip toInt32 [rec0 1 2 4, rec0 3 4 9] [rec0 1 4 1]
      (by unfold FitsInt; decide)).1,
    (payload_round_trip toInt32 [rec0 1 2 4, rec0 3 4 9] [rec0 1 4 1]
      (by unfold FitsInt; decide)).2.2.1⟩

end ClaimsPayload
section ClaimsNotForwarded
variable {R ρ : Type}

/-- C29: in `sendMultiMap` and in `updateGhost` the buffer `out_buffer` is
filled once, before the direction loop.  Every exchange, on every direction,
sends the content that the rank held at entry, whatever was received before:
the records of the map at entry in `sendMultiMap`, and in `updateGhost` the
record `packParticle` of every modified particle as it was at entry.  A record
received on an earlier direction is not forwarded.  When all ranks run
`sendMultiMap` on maps whose ids fit an `int`, the map of a rank afterwards
holds its own records and the records that the neighbours of its schedule held
at entry, and nothing else; when all ranks run `updateGhost`, the particles of
a rank afterwards are obtained by unpacking, neighbour after neighbour of the
schedule, the records of the particles that this neighbour had modified, with
the attributes they had at entry. -/
theorem out_buffer_filled_once (toInt : Int → Int) (getGridSize : Nat → Int)
    (received : Nat → Buffer R) (mm : ReactionMap R)
    (receivedGhost : Nat → List (GhostRecord R)) (lookupLocalParticle : Int → Option Nat)
    (mem : Memory R) (modified_particles : List Nat)
    (getNodeNeighborIndex : ρ → Nat → ρ) (world : ρ → ReactionMap R)
    (ghostWorld : ρ → RankData R) (r : ρ)
    (hfit : ∀ j ∈ recvSchedule getGridSize,
      ∀ it ∈ world (getNodeNeighborIndex r j), FitsInt toInt it) :
    (∀ e ∈ (sendMultiMap toInt getGridSize received mm).2, e.sent = fillOutBuffer toInt mm) ∧
    (∀ e ∈ (updateGhostExchanges getGridSize receivedGhost lookupLocalParticle mem
        modified_particles).2,
      e.sent = modified_particles.map (fun it => packParticle (mem it))) ∧
    (∃ out, sendMultiMapAll toInt getGridSize getNodeNeighborIndex world r = some out ∧
      out.Perm (world r ++
        ((recvSchedule getGridSize).map (fun j => world (getNodeNeighborIndex r j))).flatten)) ∧
    (updateGhostExchanges getGridSize receivedGhost lookupLocalParticle mem
        modified_particles).1 =
      (recvSchedule getGridSize).foldl
        (fun m j => (receivedGhost j).foldl (unpackRecord lookupLocalParticle) m) mem ∧
    (updateGhostExchanges getGridSize
        (fun j => (ghostWorld (getNodeNeighborIndex r j)).modified_particles.map
          (fun it => packParticle ((ghostWorld (getNodeNeighborIndex r j)).mem it)))
        (ghostWorld r).lookupLocalParticle (ghostWorld r).mem
        (ghostWorld r).modified_particles).1 =
      updateGhostAll getGridSize getNodeNeighborIndex ghostWorld r ∧
    updateGhostAll getGridSize getNodeNeighborIndex ghostWorld r =
      (recvSchedule getGridSize).foldl
        (fun m j =>
          ((ghostWorld (getNodeNeighborIndex r j)).modified_particles.map
            (fun it => packParticle ((ghostWorld (getNodeNeighborIndex r j)).mem it))).foldl
            (unpackRecord (ghostWorld r).lookupLocalParticle) m)
        (ghostWorld r).mem := by
  refine ⟨?_, ?_, ?_, ?_, ?_, ?_⟩
  · intro e he
    rw [(sendMultiMap_eq toInt getGridSize received mm).2] at he
    simp only [List.mem_append] at he
    rcases he with (he | he) | he
    · exact dirExchanges_sent getGridSize 0 _ e he
    · exact dirExchanges_sent getGridSize 1 _ e he
    · exact dirExchanges_sent getGridSize 2 _ e he
  · intro e he
    rw [(updateGhostExchanges_eq getGridSize receivedGhost lookupLocalParticle mem
      modified_particles).2] at he
    simp only [List.mem_append] at he
    rcases he with (he | he) | he
    · exact dirExchanges_sent getGridSize 0 _ e he
    · exact dirExchanges_sent getGridSize 1 _ e he
    · exact dirExchanges_sent getGridSize 2 _ e he
  · unfold sendMultiMapAll
    rw [(sendMultiMap_eq toInt getGridSize _ (world r)).1]
    exact schedule_unpack toInt (fun j => world (getNodeNeighborIndex r j))
      (recvSchedule getGridSize) (world r) hfit
  · rw [(updateGhostExchanges_eq getGridSize receivedGhost lookupLocalParticle mem
      modified_particles).1, updateGhost_schedule]
  · rw [(updateGhostExchanges_eq getGridSize _ _ _ _).1]
    rfl
  · unfold updateGhostAll
    rw [updateGhost_schedule]
    rfl

theorem out_buffer_filled_once_witness :
    (∃ out, sendMultiMapAll toInt32 squareGridSize squareNeighbor squareWorld (1, 0) =
        some out ∧
      out.Perm (squareWorld (1, 0) ++
        ((recvSchedule squareGridSize).map
          (fun j => squareWorld (squareNeighbor (1, 0) j))).flatten)) ∧
    sendMultiMapAll toInt32 squareGridSize squareNeighbor squareWorld (1, 0) =
      some [rec0 1 2 4] ∧
    sendMultiMapAll toInt32 squareGridSize squareNeighbor squareWorld (0, 1) =
      some [rec0 1 2 4] ∧
    sendMultiMapAll toInt32 squareGridSize squareNeighbor squareWorld (1, 1) = some [] ∧
    (updateGhostExchanges squareGridSize (fun _ => []) (squareGhostWorld (0, 0)).lookupLocalParticle
        (squareGhostWorld (0, 0)).mem (squareGhostWorld (0, 0)).modified_particles).2.map
        (fun e => e.sent) =
      [[packParticle (particleTS 7 1 5 false)], [packParticle (particleTS 7 1 5 false)]] ∧
    (updateGhostAll squareGridSize squareNeighbor squareGhostWorld (1, 0) 0).state = 5 ∧
    (updateGhostAll squareGridSize squareNeighbor squareGhostWorld (0, 1) 0).state = 5 ∧
    (updateGhostAll squareGridSize squareNeighbor squareGhostWorld (1, 1) 0).state = 3 :=
  ⟨(out_buffer_filled_once toInt32 squareGridSize (fun _ => []) [] (fun _ => [])
      (fun _ => none) (memOf []) [] squareNeighbor squareWorld squareGhostWorld (1, 0)
      (by unfold FitsInt; decide)).2.2.1,
    by decide, by decide, by decide, by decide, by decide, by decide, by decide⟩

end ClaimsNotForwarded

section ClaimsRemoval
variable {R L τ : Type}

/-- C24: in `applyDR`, for a pair `(p1, p2)` of the bond list that `isValidPair`
accepts, the bond list of the reaction becomes the result of
`remove(p2.id, p1.id)` when `p1` is a ghost and `p2` is not, and the result of
`remove(p1.id, p2.id)` in the three other cases of the ghost flags: the key is
the id of the real particle when exactly one of the two is a ghost, and the id
of `p1` otherwise.  The other bond lists are not changed. -/
theorem applyDR_removal_key (ops : PairListOps L)
    (isValidPair : τ → Reaction → Memory R → Nat → Nat → Option (ReactedPointers R) × τ)
    (postProcess_T1 postProcess_T2 : Reaction → Memory R → Nat → Nat → List Nat × Memory R)
    (reaction : Reaction) (acc : (ReactState R L × τ) × Bool) (pr : Nat × Nat)
    (p : ReactedPointers R)
    (h : (isValidPair acc.1.2 reaction acc.1.1.mem pr.1 pr.2).1 = some p) :
    (applyDRPair ops isValidPair postProcess_T1 postProcess_T2 reaction acc
        pr).1.1.pair_lists reaction.fixed_pair_list_ =
      (if (acc.1.1.mem pr.1).ghost = true ∧ (acc.1.1.mem pr.2).ghost = false then
        ops.remove (acc.1.1.pair_lists reaction.fixed_pair_list_) (acc.1.1.mem pr.2).id
          (acc.1.1.mem pr.1).id
      else
        ops.remove (acc.1.1.pair_lists reaction.fixed_pair_list_) (acc.1.1.mem pr.1).id
          (acc.1.1.mem pr.2).id) ∧
    ∀ l, l ≠ reaction.fixed_pair_list_ →
      (applyDRPair ops isValidPair postProcess_T1 postProcess_T2 reaction acc
        pr).1.1.pair_lists l = acc.1.1.pair_lists l := by
  unfold applyDRPair
  simp only [h]
  refine ⟨?_, fun l hl => Function.update_noteq hl _ _⟩
  rw [Function.update_same]
  unfold removeBond
  cases h1 : (acc.1.1.mem pr.1).ghost <;> cases h2 : (acc.1.1.mem pr.2).ghost <;> simp

theorem applyDR_removal_key_witness :
    (applyDRPair (specPairList (lookupIn ghostAndReal)) isValidPairSpec noPostProcess
        noPostProcess reverseReaction ((stateOf ghostAndReal [(2, 1)], ()), false)
        (0, 1)).1.1.pair_lists reverseReaction.fixed_pair_list_ =
      (if ((stateOf ghostAndReal [(2, 1)]).mem 0).ghost = true ∧
          ((stateOf ghostAndReal [(2, 1)]).mem 1).ghost = false then
        (specPairList (lookupIn ghostAndReal)).remove [(2, 1)] 2 1
      else (specPairList (lookupIn ghostAndReal)).remove [(2, 1)] 1 2) ∧
    (specPairList (lookupIn ghostAndReal)).remove [(2, 1)] 2 1 = [] :=
  ⟨(applyDR_removal_key (specPairList (lookupIn ghostAndReal)) isValidPairSpec noPostProcess
      noPostProcess reverseReaction ((stateOf ghostAndReal [(2, 1)], ()), false) (0, 1)
      ⟨0, 1, 1, 1⟩ (by decide)).1, by decide⟩

end ClaimsRemoval
/-! ## The claims on sortParticleReactionList -/

section ClaimsLocal
variable {R : Type}

end ClaimsLocal
section ClaimsResidues
variable {R : Type}

/-- C28: residue exclusivity in `sortParticleReactionList` does not read the
flag `intraresidual`.  In the local loop a candidate is skipped whenever the
residue of one of its endpoints is in `residue_idx`, the residues of the
endpoints of the records emitted before; in pass C a candidate of any reaction,
also one with `intraresidual = true`, is not valid whenever the residue of one
of its endpoints is in `residue_idx`, and the state is left as it was.  So for
every list of reactions no two records emitted by the local loop, and no two
records of the output of pass C, have endpoints in a common residue.  The local
loop emits a map exactly when the first record of its input does not have a key
larger than its partner id (the read of `p_order` at line 399 is undefined
otherwise). -/
theorem residue_exclusive_any_flag (tm : TopologyManager) (reaction_list : List Reaction)
    (max_per_interval : Int) (global_maps : List (ReactionMap R)) (mm : ReactionMap R) :
    (∀ (st : LocalState R) (it : Record R),
      tm.getResId it.1 ∈ st.residue_idx ∨ tm.getResId it.2.1 ∈ st.residue_idx →
      localStep tm st it = some st) ∧
    (∀ (reaction : Reaction) (st : GlobalState R) (it : Record R),
      tm.getResId it.1 ∈ st.residue_idx ∨ tm.getResId it.2.1 ∈ st.residue_idx →
      passCValid tm reaction st it = false ∧
      (reactionAt reaction_list it.2.2.reaction_id = some reaction →
        passCBody tm reaction_list st it = some st)) ∧
    ((localPass tm mm).isSome = true ↔ ∀ it, mm.head? = some it → it.1 ≤ it.2.1) ∧
    (∀ out, localPass tm mm = some out →
      out.Pairwise (fun r1 r2 => ∀ x,
        ¬ (touches tm.getResId x r1 = true ∧ touches tm.getResId x r2 = true))) ∧
    (∀ out, passC tm reaction_list max_per_interval global_maps = some out →
      out.Pairwise (fun r1 r2 => ∀ x,
        ¬ (touches tm.getResId x r1 = true ∧ touches tm.getResId x r2 = true))) ∧
    passC tmResidues [intraReaction] 10 [[rec0 0 3 4, rec0 1 6 4, rec0 7 9 4]] =
      some [rec0 0 3 4, rec0 7 9 4] := by
  refine ⟨?_, ?_, ?_, ?_, ?_, by decide⟩
  · intro st it h
    apply (localStep_cases tm st it).1
    right
    rw [Bool.or_eq_true]
    exact h.imp (mem_contains_true _ _) (mem_contains_true _ _)
  · intro reaction st it h
    have hv : passCValid tm reaction st it = false := by
      cases hval : passCValid tm reaction st it
      · rfl
      · have := (passCValid_true tm reaction st it hval).2.1
        rcases h with h | h
        · exact absurd h this.1
        · exact absurd h this.2
    refine ⟨hv, fun hreg => ?_⟩
    unfold passCBody
    rw [hreg]
    simp only [hv, Bool.false_eq_true, if_false]
  · rw [localPass_isSome_iff]
    simp only [gt_iff_lt, not_lt]
  · intro out hrun
    unfold localPass at hrun
    cases hloop : localLoop tm mm ⟨[], [], [], none⟩ with
    | none => rw [hloop] at hrun; cases hrun
    | some stf =>
      rw [hloop] at hrun
      obtain rfl := Option.some.inj hrun
      exact localLoop_residues tm mm _ stf (fun rec hrec => by cases hrec) List.Pairwise.nil
        hloop
  · intro out h
    exact (passC_exclusive tm reaction_list max_per_interval global_maps out h).2

end ClaimsResidues

section ClaimsSound
variable {R : Type}

/-- C30: for inputs of `sortParticleReactionList` whose records have key <
partner id, every record of the map that rank 0 broadcasts is a record of the
input map of some rank, with the same key, partner id and ReactionDef, and for
every key the map has at most one record.  The function returns a map whenever
the input records name registered reactions. -/
theorem sort_sound (tm : TopologyManager) (reaction_list : List Reaction)
    (max_per_interval : Int) (ranks : List (ReactionMap R))
    (hlt : ∀ r ∈ ranks, ∀ rec ∈ r, rec.1 < rec.2.1) :
    (RegisteredIds reaction_list ranks →
      (sortParticleReactionList tm reaction_list max_per_interval ranks).isSome = true) ∧
    ∀ out, sortParticleReactionList tm reaction_list max_per_interval ranks = some out →
      (∀ rec ∈ out, ∃ r ∈ ranks, rec ∈ r) ∧
      ∀ key : Int, out.countP (fun rec => decide (rec.1 = key)) ≤ 1 := by
  refine ⟨?_, ?_⟩
  · intro hreg
    rw [sortParticleReactionList_isSome_iff tm reaction_list max_per_interval ranks hreg]
    intro r hrm it hit
    exact not_lt.mpr (le_of_lt (hlt r hrm it (List.mem_of_mem_head? hit)))
  · intro out h
    refine ⟨?_, ?_⟩
    · intro rec hrec
      obtain ⟨r, hrm, it0, hin, hdef, hcase⟩ := sortParticleReactionList_from tm
        reaction_list max_per_interval ranks out h rec hrec
      refine ⟨r, hrm, ?_⟩
      rcases hcase with ⟨h1, h2, _⟩ | ⟨_, _, h3⟩
      · have : rec = it0 := by
          apply Prod.ext h1
          exact Prod.ext h2 hdef
        rw [this]
        exact hin
      · exact absurd h3 (not_lt.mpr (le_of_lt (hlt r hrm it0 hin)))
    · intro key
      unfold sortParticleReactionList at h
      cases hg : gatherLocal tm ranks with
      | none => rw [hg] at h; cases h
      | some gms =>
        rw [hg] at h
        apply countP_le_one_of_pairwise
        refine (passC_exclusive tm reaction_list max_per_interval _ out h).1.imp ?_
        intro r1 r2 hx hboth
        apply hx key
        unfold touches
        simp only [decide_eq_true_eq] at hboth
        simp only [id_eq, decide_eq_true_eq]
        exact ⟨Or.inl hboth.1, Or.inl hboth.2⟩

theorem sort_sound_witness :
    (∀ rec ∈ [rec0 1 2 4, rec0 3 4 9], ∃ r ∈ [[rec0 1 2 4, rec0 3 4 9],
        [rec0 1 4 1, rec0 5 6 2]], rec ∈ r) ∧
    sortParticleReactionList tmPairs oneReaction 2
      [[rec0 1 2 4, rec0 3 4 9], [rec0 1 4 1, rec0 5 6 2]] =
      some [rec0 1 2 4, rec0 3 4 9] :=
  ⟨((sort_sound tmPairs oneReaction 2
      [[rec0 1 2 4, rec0 3 4 9], [rec0 1 4 1, rec0 5 6 2]] (by decide)).2
      [rec0 1 2 4, rec0 3 4 9] (by decide)).1, by decide⟩

end ClaimsSound

/-! ## Lemmas on the ties of the nearest mode -/

section Ties
variable {R : Type} [LinearOrder R]

/-- In a key-ordered list the insertion keeps the entries of a key in insertion
order: the new entry comes last among the entries of its key. -/
theorem mmInsert_filter_key {V : Type} (l : List (R × V)) (x : R × V) (m : R)
    (hs : l.Pairwise (fun a b => a.1 ≤ b.1)) :
    (mmInsert l x).filter (fun e => decide (e.1 = m)) =
      if x.1 = m then l.filter (fun e => decide (e.1 = m)) ++ [x]
      else l.filter (fun e => decide (e.1 = m)) := by
  induction l with
  | nil =>
    unfold mmInsert
    by_cases hx : x.1 = m
    · simp [hx]
    · simp [hx]
  | cons y ys ih =>
    rw [List.pairwise_cons] at hs
    unfold mmInsert
    by_cases hlt : x.1 < y.1
    · rw [if_pos hlt]
      by_cases hx : x.1 = m
      · have hnone : (y :: ys).filter (fun e => decide (e.1 = m)) = [] := by
          rw [List.filter_eq_nil_iff]
          intro e he
          simp only [decide_eq_true_eq]
          intro hem
          rcases List.mem_cons.mp he with rfl | he
          · rw [hem, ← hx] at hlt
            exact lt_irrefl _ hlt
          · have := hs.1 e he
            rw [hem, ← hx] at this
            exact absurd (lt_of_lt_of_le hlt this) (lt_irrefl _)
        rw [if_pos hx, List.filter_cons_of_pos (by simpa using hx), hnone]
        rfl
      · rw [if_neg hx, List.filter_cons_of_neg (by simpa using hx)]
    · rw [if_neg hlt]
      by_cases hy : y.1 = m
      · rw [List.filter_cons_of_pos (by simpa using hy), ih hs.2,
          List.filter_cons_of_pos (by simpa using hy)]
        split <;> rfl
      · rw [List.filter_cons_of_neg (by simpa using hy), ih hs.2,
          List.filter_cons_of_neg (by simpa using hy)]

/-- The entries of a key in the multimap of `nearestScan` are the candidates at
that squared distance, in the order of the candidates. -/
theorem sortFold_filter (candidates : List (Record R)) (acc : List (R × (Int × ReactionDef R)))
    (hs : acc.Pairwise (fun a b => a.1 ≤ b.1)) (m : R) :
    (candidates.foldl (fun acc jt =>
        mmInsert acc (jt.2.2.reaction_r_sqr, (jt.2.1, jt.2.2))) acc).filter
        (fun e => decide (e.1 = m)) =
      acc.filter (fun e => decide (e.1 = m)) ++
        (candidates.filter (fun c => decide (c.2.2.reaction_r_sqr = m))).map
          (fun jt => (jt.2.2.reaction_r_sqr, (jt.2.1, jt.2.2))) := by
  induction candidates generalizing acc with
  | nil => simp
  | cons c rest ih =>
    simp only [List.foldl_cons]
    rw [ih _ (mmInsert_sorted acc _ hs), mmInsert_filter_key acc _ m hs]
    by_cases hc : c.2.2.reaction_r_sqr = m
    · rw [if_pos hc, List.filter_cons_of_pos (by simpa using hc), List.map_cons,
        List.append_assoc]
      rfl
    · rw [if_neg hc, List.filter_cons_of_neg (by simpa using hc)]

/-- In a key-ordered list bounded below by `m`, the entries with key `m` are
the first entries of the list. -/
theorem sorted_bucket_get {V : Type} (l : List (R × V)) (m : R)
    (hs : l.Pairwise (fun a b => a.1 ≤ b.1)) (hm : ∀ e ∈ l, m ≤ e.1) (i : Nat)
    (hi : i < (l.filter (fun e => decide (e.1 = m))).length) :
    l[i]? = (l.filter (fun e => decide (e.1 = m)))[i]? := by
  induction l generalizing i with
  | nil => simp at hi
  | cons x xs ih =>
    rw [List.pairwise_cons] at hs
    by_cases hx : x.1 = m
    · rw [List.filter_cons_of_pos (by simpa using hx)] at hi ⊢
      cases i with
      | zero => simp only [List.getElem?_cons_zero]
      | succ j =>
        simp only [List.getElem?_cons_succ]
        exact ih hs.2 (fun e he => hm e (List.mem_cons_of_mem _ he)) j (by
          simp only [List.length_cons] at hi; omega)
    · exfalso
      rw [List.filter_cons_of_neg (by simpa using hx)] at hi
      have hz : xs.filter (fun e => decide (e.1 = m)) = [] := by
        rw [List.filter_eq_nil_iff]
        intro e he
        simp only [decide_eq_true_eq]
        intro hem
        have h1 := hs.1 e he
        have h2 := hm x (List.mem_cons_self _ _)
        rw [hem] at h1
        exact hx (le_antisymm h1 h2)
      rw [hz] at hi
      simp at hi

/-- The candidates at an attained lower bound of the squared distances are the
tie bucket. -/
theorem tieBucket_eq (candidates : List (Record R)) (m : R)
    (hmin : ∀ d ∈ candidates, m ≤ d.2.2.reaction_r_sqr)
    (hatt : ∃ c ∈ candidates, c.2.2.reaction_r_sqr = m) :
    candidates.filter (fun c => decide (c.2.2.reaction_r_sqr = m)) = tieBucket candidates := by
  unfold tieBucket
  apply List.filter_congr
  intro c hc
  obtain ⟨c0, hc0, hm0⟩ := hatt
  rw [Bool.eq_iff_iff]
  simp only [decide_eq_true_eq, List.all_eq_true]
  constructor
  · intro h d hd
    rw [h]
    exact hmin d hd
  · intro h
    apply le_antisymm
    · rw [← hm0]
      exact h c0 hc0
    · exact hmin c hc

/-- The value `max_rc` of `nearestScan` is the initial value or the squared
distance of a candidate. -/
theorem minFold_attained (candidates : List (Record R)) (a : R) :
    candidates.foldl (fun a jt =>
        if jt.2.2.reaction_r_sqr < a then jt.2.2.reaction_r_sqr else a) a = a ∨
    ∃ jt ∈ candidates, candidates.foldl (fun a jt =>
        if jt.2.2.reaction_r_sqr < a then jt.2.2.reaction_r_sqr else a) a
          = jt.2.2.reaction_r_sqr := by
  induction candidates generalizing a with
  | nil => exact Or.inl rfl
  | cons c rest ih =>
    simp only [List.foldl_cons]
    rcases ih (if c.2.2.reaction_r_sqr < a then c.2.2.reaction_r_sqr else a) with h | ⟨jt, hjt, h⟩
    · rw [h]
      split
      · exact Or.inr ⟨c, List.mem_cons_self _ _, rfl⟩
      · exact Or.inl rfl
    · exact Or.inr ⟨jt, List.mem_cons_of_mem _ hjt, h⟩

/-- The selection of `nearestPick` among tied candidates.  When the minimal
squared distance is at most the initial value of `max_rc`, the generator is
called with the size of the tie bucket minus 1 and the entry at the returned
offset of the tie bucket is picked; when every squared distance is above the
initial value, nothing is drawn and the first entry of the tie bucket is
picked. -/
theorem nearestPick_tie [NatCast R] {σ : Type} (rng : σ → Int → Int × σ) (s : σ)
    (candidates : List (Record R)) (hk : 1 < (tieBucket candidates).length) :
    ((∃ c ∈ candidates, c.2.2.reaction_r_sqr ≤ maxRcInit R) →
      0 ≤ (rng s (((tieBucket candidates).length : Nat) - 1)).1 →
      (rng s (((tieBucket candidates).length : Nat) - 1)).1 <
        (((tieBucket candidates).length : Nat) : Int) →
      nearestPick rng s candidates =
        ((tieBucket candidates)[(rng s (((tieBucket candidates).length : Nat) - 1)).1.toNat]?).map
          (fun jt => ((jt.2.1, jt.2.2), (rng s (((tieBucket candidates).length : Nat) - 1)).2))) ∧
    ((∀ c ∈ candidates, maxRcInit R < c.2.2.reaction_r_sqr) →
      nearestPick rng s candidates =
        ((tieBucket candidates)[0]?).map (fun jt => ((jt.2.1, jt.2.2), s))) := by
  have hne : tieBucket candidates ≠ [] := by
    intro h
    rw [h] at hk
    simp at hk
  obtain ⟨c0, hc0⟩ := List.exists_mem_of_ne_nil _ hne
  have hc0in : c0 ∈ candidates := (List.mem_filter.mp hc0).1
  have hc0min : ∀ d ∈ candidates, c0.2.2.reaction_r_sqr ≤ d.2.2.reaction_r_sqr := by
    have := (List.mem_filter.mp hc0).2
    simp only [List.all_eq_true, decide_eq_true_eq] at this
    exact this
  have hsorted := sortFold_sorted candidates [] List.Pairwise.nil
  have hperm := sortFold_perm candidates []
  rw [List.nil_append] at hperm
  have hfilter := fun m => sortFold_filter candidates [] List.Pairwise.nil m
  simp only [List.filter_nil, List.nil_append] at hfilter
  have hkeys : ∀ e ∈ candidates.foldl (fun acc jt =>
      mmInsert acc (jt.2.2.reaction_r_sqr, (jt.2.1, jt.2.2))) [],
      c0.2.2.reaction_r_sqr ≤ e.1 := by
    intro e he
    have := (hperm.mem_iff).mp he
    obtain ⟨jt, hjt, rfl⟩ := List.mem_map.mp this
    exact hc0min jt hjt
  have hbucket : (candidates.foldl (fun acc jt =>
      mmInsert acc (jt.2.2.reaction_r_sqr, (jt.2.1, jt.2.2))) []).filter
      (fun e => decide (e.1 = c0.2.2.reaction_r_sqr)) =
      (tieBucket candidates).map (fun jt => (jt.2.2.reaction_r_sqr, (jt.2.1, jt.2.2))) := by
    rw [hfilter, tieBucket_eq candidates _ hc0min ⟨c0, hc0in, rfl⟩]
  have hget : ∀ i, i < (tieBucket candidates).length →
      (candidates.foldl (fun acc jt =>
        mmInsert acc (jt.2.2.reaction_r_sqr, (jt.2.1, jt.2.2))) [])[i]? =
      ((tieBucket candidates)[i]?).map
        (fun jt => (jt.2.2.reaction_r_sqr, (jt.2.1, jt.2.2))) := by
    intro i hi
    rw [sorted_bucket_get _ c0.2.2.reaction_r_sqr hsorted hkeys i
      (by rw [hbucket, List.length_map]; exact hi), hbucket, List.getElem?_map]
  constructor
  · intro hA h0 hlt
    have hmaxle := minFold_le candidates (maxRcInit R)
    have hmax : candidates.foldl (fun a jt =>
        if jt.2.2.reaction_r_sqr < a then jt.2.2.reaction_r_sqr else a) (maxRcInit R) =
        c0.2.2.reaction_r_sqr := by
      apply le_antisymm (hmaxle.2 c0 hc0in)
      rcases minFold_attained candidates (maxRcInit R) with h | ⟨jt, hjt, h⟩
      · rw [h]
        obtain ⟨c, hc, hcle⟩ := hA
        exact le_trans (hc0min c hc) hcle
      · rw [h]
        exact hc0min jt hjt
    unfold nearestPick
    rw [nearestScan_eq]
    simp only
    rw [hmax, lowerBound_zero _ _ hkeys]
    have hcount : mmCount (candidates.foldl (fun acc jt =>
        mmInsert acc (jt.2.2.reaction_r_sqr, (jt.2.1, jt.2.2))) []) c0.2.2.reaction_r_sqr =
        (tieBucket candidates).length := by
      unfold mmCount
      rw [List.countP_eq_length_filter, hbucket, List.length_map]
    rw [hcount]
    have hgt : (((tieBucket candidates).length : Nat) : Int) > 1 := by omega
    rw [if_pos hgt]
    unfold derefAt
    simp only [Nat.cast_zero, zero_add]
    rw [if_pos h0, hget _ (by omega)]
    cases (tieBucket candidates)[(rng s (((tieBucket candidates).length : Nat) - 1)).1.toNat]? <;>
      rfl
  · intro hB
    have hmax : candidates.foldl (fun a jt =>
        if jt.2.2.reaction_r_sqr < a then jt.2.2.reaction_r_sqr else a) (maxRcInit R) =
        maxRcInit R := by
      rcases minFold_attained candidates (maxRcInit R) with h | ⟨jt, hjt, h⟩
      · exact h
      · have h1 := (minFold_le candidates (maxRcInit R)).1
        rw [h] at h1
        exact absurd (hB jt hjt) (not_lt.mpr h1)
    have hkeys2 : ∀ e ∈ candidates.foldl (fun acc jt =>
        mmInsert acc (jt.2.2.reaction_r_sqr, (jt.2.1, jt.2.2))) [], maxRcInit R ≤ e.1 := by
      intro e he
      exact le_trans (le_of_lt (hB c0 hc0in)) (hkeys e he)
    unfold nearestPick
    rw [nearestScan_eq]
    simp only
    rw [hmax, lowerBound_zero _ _ hkeys2]
    have hcount : mmCount (candidates.foldl (fun acc jt =>
        mmInsert acc (jt.2.2.reaction_r_sqr, (jt.2.1, jt.2.2))) []) (maxRcInit R) = 0 := by
      unfold mmCount
      rw [List.countP_eq_zero]
      intro e he
      simp only [decide_eq_true_eq]
      intro hem
      have := (hperm.mem_iff).mp he
      obtain ⟨jt, hjt, rfl⟩ := List.mem_map.mp this
      have hem1 : jt.2.2.reaction_r_sqr = maxRcInit R := hem
      exact absurd (hB jt hjt) (by rw [hem1]; exact lt_irrefl _)
    rw [hcount]
    have hle : ¬ (((0 : Nat) : Int) > 1) := by decide
    rw [if_neg hle]
    unfold derefAt
    simp only [Nat.cast_zero, zero_add, le_refl, if_true, Int.toNat_zero]
    rw [hget 0 (by omega)]
    cases (tieBucket candidates)[0]? <;> rfl

end Ties
/-- The generator `rngLast` returns values of `[0, N)`. -/
theorem rngLast_inRange : RngInRange rngLast := by
  intro s N hN
  unfold rngLast
  constructor <;> simp only <;> omega

/-! ## Lemmas on the order field -/

section OrderField
variable {R : Type}

end OrderField

/-! ## The claims on the ties and on the order field -/

section ClaimsTies
variable {R : Type} [LinearOrder R]

/-- C25, counterexample: three candidates tie at the squared distance
`2 * 10^19`, above the initial value `10e18` of `max_rc`.  The generator returns
1 for `rng(2)`, so the entry at offset `rng(k - 1)` of the tie bucket is the
second candidate; `nearestPick` finds no entry with the key `max_rc`, draws
nothing and keeps the first candidate, in `uniqueA` and in `uniqueB`. -/
theorem nearest_tie_above_sentinel :
    tieBucket candidatesFar = candidatesFar ∧
    minAttained candidatesFar = 3 ∧
    (rngLast () (3 - 1)).1 = 1 ∧
    candidatesFar[1]? = some (rec0 1 3 20000000000000000000) ∧
    nearestPick rngLast () candidatesFar =
      some ((2, ⟨0, 1, 20000000000000000000, 1⟩), ()) ∧
    uniqueAStep true id rngLast candidatesFar ([], ()) 1 =
      some ([rec0 1 2 20000000000000000000], ()) ∧
    uniqueBStep true id rngLast candidatesFar ([], ()) 1 =
      some ([rec0 2 1 20000000000000000000], ()) :=
  ⟨by decide, by decide, by decide, by decide, by decide, by decide, by decide⟩

/-- C25, amended: in nearest mode `uniqueA` and `uniqueB` select with
`nearestPick` among the candidates of the key.  Let `k > 1` candidates tie at
the minimal squared distance.  When that distance is at most `10e18`, the
initial value of `max_rc`, the kept candidate is the entry at offset
`rng(k - 1)` of the tie bucket in the order of the candidates; when it is above
`10e18` nothing is drawn and the first entry of the tie bucket is kept.  For a
generator with `rng(N)` in `[0, N)` the offset is at most `k - 2` in both
cases, so the last tied candidate is not selected, and with `k = 2` the first
one is always selected. -/
theorem nearest_tie_offset [NatCast R] {σ : Type} (rng : σ → Int → Int × σ)
    (hrng : RngInRange rng) (s : σ) (candidates : List (Record R))
    (hk : 1 < (tieBucket candidates).length) :
    minAttained candidates = (tieBucket candidates).length ∧
    ((∃ c ∈ candidates, c.2.2.reaction_r_sqr ≤ maxRcInit R) →
      ∃ jt, (tieBucket candidates)[(rng s
          (((tieBucket candidates).length : Nat) - 1)).1.toNat]? = some jt ∧
        nearestPick rng s candidates =
          some ((jt.2.1, jt.2.2), (rng s (((tieBucket candidates).length : Nat) - 1)).2)) ∧
    ((∀ c ∈ candidates, maxRcInit R < c.2.2.reaction_r_sqr) →
      ∃ jt, (tieBucket candidates)[0]? = some jt ∧
        nearestPick rng s candidates = some ((jt.2.1, jt.2.2), s)) ∧
    (∃ i jt s1, i + 2 ≤ (tieBucket candidates).length ∧
      (tieBucket candidates)[i]? = some jt ∧
      nearestPick rng s candidates = some ((jt.2.1, jt.2.2), s1)) ∧
    (∀ (toInt : Int → Int) (m : ReactionMap R) (st : ReactionMap R × σ) (it : Int),
      uniqueAStep true toInt rng m st it =
        (nearestPick rng st.2 (equalRange m (toInt it))).map
          (fun sel => (mmInsert st.1 (toInt it, (sel.1.1, sel.1.2)), sel.2)) ∧
      uniqueBStep true toInt rng m st it =
        (nearestPick rng st.2 (equalRange m (toInt it))).map
          (fun sel => (mmInsert st.1 (sel.1.1, (toInt it, sel.1.2)), sel.2))) := by
  have htie := nearestPick_tie rng s candidates hk
  have hr := hrng s ((((tieBucket candidates).length : Nat) : Int) - 1) (by omega)
  have hA : (∃ c ∈ candidates, c.2.2.reaction_r_sqr ≤ maxRcInit R) →
      ∃ jt, (tieBucket candidates)[(rng s
          (((tieBucket candidates).length : Nat) - 1)).1.toNat]? = some jt ∧
        nearestPick rng s candidates =
          some ((jt.2.1, jt.2.2), (rng s (((tieBucket candidates).length : Nat) - 1)).2) := by
    intro h
    have hlt : (rng s (((tieBucket candidates).length : Nat) - 1)).1.toNat <
        (tieBucket candidates).length := by omega
    refine ⟨(tieBucket candidates)[(rng s (((tieBucket candidates).length : Nat) - 1)).1.toNat],
      List.getElem?_eq_getElem hlt, ?_⟩
    rw [htie.1 h hr.1 (by omega), List.getElem?_eq_getElem hlt]
    rfl
  have hB : (∀ c ∈ candidates, maxRcInit R < c.2.2.reaction_r_sqr) →
      ∃ jt, (tieBucket candidates)[0]? = some jt ∧
        nearestPick rng s candidates = some ((jt.2.1, jt.2.2), s) := by
    intro h
    have hlt : 0 < (tieBucket candidates).length := by omega
    refine ⟨(tieBucket candidates)[0], List.getElem?_eq_getElem hlt, ?_⟩
    rw [htie.2 h, List.getElem?_eq_getElem hlt]
    rfl
  refine ⟨?_, hA, hB, ?_, ?_⟩
  · unfold minAttained tieBucket
    rw [List.countP_eq_length_filter]
  · by_cases h : ∃ c ∈ candidates, c.2.2.reaction_r_sqr ≤ maxRcInit R
    · obtain ⟨jt, h1, h2⟩ := hA h
      exact ⟨_, jt, _, by omega, h1, h2⟩
    · have hall : ∀ c ∈ candidates, maxRcInit R < c.2.2.reaction_r_sqr := by
        intro c hc
        exact lt_of_not_le (fun hle => h ⟨c, hc, hle⟩)
      obtain ⟨jt, h1, h2⟩ := hB hall
      exact ⟨0, jt, s, by omega, h1, h2⟩
  · intro toInt m st it
    unfold uniqueAStep uniqueBStep
    simp only [if_true]
    constructor
    · cases nearestPick rng st.2 (equalRange m (toInt it)) <;> rfl
    · cases nearestPick rng st.2 (equalRange m (toInt it)) <;> rfl

theorem nearest_tie_offset_witness :
    ∃ jt, (tieBucket candidatesTie)[(rngLast ()
        (((tieBucket candidatesTie).length : Nat) - 1)).1.toNat]? = some jt ∧
      nearestPick rngLast () candidatesTie =
        some ((jt.2.1, jt.2.2), (rngLast () (((tieBucket candidatesTie).length : Nat) - 1)).2) :=
  (nearest_tie_offset rngLast rngLast_inRange () candidatesTie (by decide)).2.1
    ⟨rec0 1 2 4, by decide, by decide⟩

end ClaimsTies

section ClaimsOrder
variable {R : Type}

end ClaimsOrder

end ChemicalReaction
